import Mathlib

/-!
College registry (`college.h`): embedding and verification.

A shallow embedding of `src/college.h`.

* A `std::string` is a Lean `String`, read as the list of its characters
  (`String.data`); `operator<` on strings is the lexicographic order `string_lt`.
* A `std::shared_ptr<Course>` / `std::shared_ptr<Person>` is a reference: a
  natural number naming an object of the object store (`College.courses`,
  `College.people`).  Objects are never freed in the model, and a fresh object
  gets the next unused reference.  A reference is a pointer to an object, never
  the null pointer; a reference that names no stored object plays the part of
  an object owned by somebody else.  The operations that only compare their
  pointer argument with the stored ones (`change_course_activeness`,
  `remove_course`, `change_student_activeness`, `assign_course`) treat a null
  pointer like such a foreign object.  `find<T>(course)` passes its argument
  to the comparator `my_cmp`, which dereferences it; `find_Student_ptr` and
  `find_Teacher_ptr` take the pointer as an `Option` with `none` for null and
  answer `none` where the code has undefined behaviour.
* A `std::set<T, Compare>` is the list of its elements in iteration order;
  `set_emplace`, `set_contains` and `set_erase` follow the comparator the way
  the standard containers do (two elements are the same key when neither is
  less than the other).
* A call that throws ends in `Outcome.thrown e`; every operation returns its
  result together with the state it leaves behind.
* Machine integers have the widths of the usual 64-bit platforms: `std::size_t`
  has 64 bits and `int` has 32 bits.  The checkpoint variables of
  `satisfies_pattern` are `int`s that receive `std::size_t` values; the
  conversions `to_int` and `to_size_t` are the modular ones of C++20.
-/

/-! ## Data model -/

/-- The class `Course` (lines 8-33). -/
structure Course where
  course_name : String
  active : Bool
  deriving DecidableEq, Repr, Inhabited

/-- The `Student` subobject of a person (lines 96-123): the two parallel course
sets and the activity flag. -/
structure Student where
  subjects_I_attend_const : List Nat
  subjects_I_attend : List Nat
  active : Bool
  deriving DecidableEq, Repr, Inhabited

/-- The `Teacher` subobject of a person (lines 125-148). -/
structure Teacher where
  subjects_I_handle_const : List Nat
  subjects_I_handle : List Nat
  deriving DecidableEq, Repr, Inhabited

/-- An object of dynamic type `Student`, `Teacher` or `PhDStudent`: the one
(virtual) `Person` base with the subobjects the dynamic type has.  A `Student`
has only `student`, a `Teacher` only `teacher`, a `PhDStudent` both. -/
structure Person where
  name : String
  surname : String
  student : Option Student
  teacher : Option Teacher
  deriving DecidableEq, Repr, Inhabited

/-- The exception classes of `College` (lines 431-462). -/
inductive CollegeException where
  | inactive_student_exception
  | inactive_course_exception
  | non_existing_person_exception
  | non_existing_course_exception
  deriving DecidableEq, Repr

/-- How a call of `assign_course` ends: it returns a `bool` or throws. -/
inductive Outcome where
  | returned (b : Bool)
  | thrown (e : CollegeException)
  deriving DecidableEq, Repr

/-- The template argument of `add_person` (lines 528-568). -/
inductive PersonKind where
  | Student
  | Teacher
  | PhDStudent
  deriving DecidableEq, Repr

/-- The private state of a `College` (lines 413-429) together with the objects
its shared pointers refer to.  `course_names` maps a name to an iterator into
`course_set`; the iterator is modelled by the reference it points at. -/
structure College where
  courses : List Course
  people : List Person
  person_set : List Nat
  people_names : List (String × String)
  course_set : List Nat
  course_names : List (String × Nat)
  deriving DecidableEq, Repr

namespace College

/-! ## Strings -/

/-- Lexicographic comparison of character sequences: `std::string::operator<`. -/
def lex_lt : List Char → List Char → Bool
  | _, [] => false
  | [], _ :: _ => true
  | a :: as, b :: bs =>
    if a < b then true else if b < a then false else lex_lt as bs

/-- The order `a < b` of two `std::string`s. -/
def string_lt (a b : String) : Bool := lex_lt a.data b.data

/-- The character `s[i]`; `std::string::operator[]` yields the null character at `size()`. -/
def char_at (s : List Char) (i : Nat) : Char := s.getD i (Char.ofNat 0)

/-! ## Pattern matcher (`College::satisfies_pattern`, lines 464-522) -/

/-- Local variables of `satisfies_pattern` that change inside the `while` loop. -/
structure MatchState where
  str_idx : Nat
  ptrn_idx : Nat
  last_wildcard : Int
  backtrack_idx : Int
  next_wildcard : Int
  deriving DecidableEq, Repr

/-- The final `for` loop of `satisfies_pattern` (lines 516-521): every pattern
character from `ptrn_idx` on has to be a star. -/
def only_stars_from (pattern : List Char) (ptrn_idx : Nat) : Bool :=
  (pattern.drop ptrn_idx).all (fun ch => ch == '*')

/-- Conversion of a `std::size_t` value to `int`: the value modulo `2^32`, read
as a signed 32-bit number (lines 487-489). -/
def to_int (n : Nat) : Int := ((n : Int) + 2 ^ 31) % 2 ^ 32 - 2 ^ 31

/-- Conversion of an `int` value to `std::size_t`: the value modulo `2^64`
(lines 509-510). -/
def to_size_t (z : Int) : Nat := (z % 2 ^ 64).toNat

/-- The increment `++backtrack_idx` of an `int` (line 510).  At the largest
`int` the increment is undefined in C++; the wrap of two's complement hardware
stands for it here, and no theorem below rests on a run that gets there. -/
def int_succ (z : Int) : Int := (z + 1 + 2 ^ 31) % 2 ^ 32 - 2 ^ 31

/-- The `while (str_idx < str_len)` loop of `satisfies_pattern` (lines 475-512)
followed by the final `for` loop, run for at most `fuel` iterations.
`none` means that the fuel ran out.  The indices `str_idx` and `ptrn_idx` are
`std::size_t`; they are incremented only below the length of a string, so
these increments do not wrap. -/
def match_loop (str pattern : List Char) : Nat → MatchState → Option Bool
  | 0, _ => none
  | fuel + 1, st =>
    if st.str_idx < str.length then
      if st.ptrn_idx < pattern.length ∧
          (char_at pattern st.ptrn_idx = '?' ∨
            char_at str st.str_idx = char_at pattern st.ptrn_idx) then
        match_loop str pattern fuel
          { st with str_idx := st.str_idx + 1, ptrn_idx := st.ptrn_idx + 1 }
      else if st.ptrn_idx < pattern.length ∧ char_at pattern st.ptrn_idx = '*' then
        match_loop str pattern fuel
          { st with last_wildcard := to_int st.ptrn_idx,
                    next_wildcard := to_int (st.ptrn_idx + 1),
                    ptrn_idx := st.ptrn_idx + 1,
                    backtrack_idx := to_int st.str_idx }
      else if st.last_wildcard = -1 then
        some false
      else
        match_loop str pattern fuel
          { st with ptrn_idx := to_size_t st.next_wildcard,
                    backtrack_idx := int_succ st.backtrack_idx,
                    str_idx := to_size_t (int_succ st.backtrack_idx) }
    else
      some (only_stars_from pattern st.ptrn_idx)

/-- Values of the local variables on entry to the loop (lines 469-471). -/
def match_init : MatchState :=
  { str_idx := 0, ptrn_idx := 0, last_wildcard := -1, backtrack_idx := -1,
    next_wildcard := -1 }

/-- Number of loop iterations granted to a run.  It is enough whenever the
pattern has no star (`match_loop_plain`) and whenever the text is shorter than
`2^31` characters (`match_loop_total`). -/
def match_fuel (str pattern : List Char) : Nat :=
  (str.length + 2) * (str.length + pattern.length + 1)

/-- A quantity that every iteration of the loop decreases: the text positions
left for the checkpoint, weighted, plus the characters left to scan. -/
def match_measure (str pattern : List Char) (st : MatchState) : Nat :=
  ((str.length : Int) - st.backtrack_idx).toNat * (str.length + pattern.length + 1)
    + (str.length - st.str_idx) + (pattern.length - st.ptrn_idx)

/-- Function `College::satisfies_pattern(str, pattern)`.  For a text of `2^31`
or more characters and a pattern with a star the `int` checkpoints wrap and the
loop of the code need not end; a run that does not end within `match_fuel`
iterations shows as `false` here. -/
def satisfies_pattern (str pattern : String) : Bool :=
  (match_loop str.data pattern.data (match_fuel str.data pattern.data) match_init).getD false

/-- The glob semantics in the words of the specification: `?` stands for exactly
one character, `*` for any (possibly empty) sequence of characters, any other
pattern character for itself; the whole text has to be consumed.
First argument: pattern, second argument: text. -/
def glob_spec : List Char → List Char → Bool
  | [], text => text.isEmpty
  | p :: ps, text =>
    if p = '*' then
      text.tails.any (fun rest => glob_spec ps rest)
    else
      match text with
      | [] => false
      | t :: ts => (p = '?' || p = t) && glob_spec ps ts

/-! ## Ordered containers -/

/-- The order of two shared pointers: the order of the objects they point at. -/
def ptr_lt (a b : Nat) : Bool := decide (a < b)

/-- The order of `std::pair<std::string, std::string>`. -/
def pair_lt (a b : String × String) : Bool :=
  string_lt a.1 b.1 || (!string_lt b.1 a.1 && string_lt a.2 b.2)

/-- Two keys are the same key of an ordered container when neither is less. -/
def equiv_key {α : Type} (lt : α → α → Bool) (x y : α) : Bool := !lt x y && !lt y x

/-- The member `emplace` of `std::set<T, Compare>`: the element goes to its
place in the order, unless the set already holds the same key. -/
def set_emplace {α : Type} (lt : α → α → Bool) (x : α) : List α → List α
  | [] => [x]
  | y :: ys =>
    if lt x y then x :: y :: ys
    else if lt y x then y :: set_emplace lt x ys
    else y :: ys

/-- The member `contains` of `std::set<T, Compare>`. -/
def set_contains {α : Type} (lt : α → α → Bool) (x : α) (xs : List α) : Bool :=
  xs.any (fun y => equiv_key lt x y)

/-- Erasing the element that `find(x)` points at from a `std::set<T, Compare>`. -/
def set_erase {α : Type} (lt : α → α → Bool) (x : α) (xs : List α) : List α :=
  xs.eraseP (fun y => equiv_key lt x y)

/-- The member `find` of the `std::map` `course_names`: the entry of key `k`. -/
def map_find (k : String) (m : List (String × Nat)) : Option (String × Nat) :=
  m.find? (fun e => equiv_key string_lt k e.1)

/-- The member `emplace` of the `std::map` `course_names`. -/
def map_emplace (k : String) (v : Nat) (m : List (String × Nat)) : List (String × Nat) :=
  set_emplace (fun a b => string_lt a.1 b.1) (k, v) m

/-- Erasing the entry that `find(k)` points at from the `std::map` `course_names`. -/
def map_erase (k : String) (m : List (String × Nat)) : List (String × Nat) :=
  m.eraseP (fun e => equiv_key string_lt k e.1)

/-! ## The registry operations -/

/-- A default-constructed `College`. -/
def empty : College :=
  { courses := [], people := [], person_set := [], people_names := [],
    course_set := [], course_names := [] }

/-- The `Course` object behind a reference. -/
def course_at (s : College) (c : Nat) : Course := s.courses.getD c default

/-- The `Person` object behind a reference. -/
def person_at (s : College) (p : Nat) : Person := s.people.getD p default

/-- The comparators `Person::my_cmp` and `Person::my_cmp_const` (lines 73-89),
also the lambda `my_cmp` of `find_courses`: courses are ordered by name. -/
def my_cmp (s : College) (a b : Nat) : Bool :=
  string_lt (s.course_at a).course_name (s.course_at b).course_name

/-- The comparator `Person::people_cmp` (lines 57-71): by name, then surname. -/
def people_cmp (s : College) (a b : Nat) : Bool :=
  if (s.person_at a).name ≠ (s.person_at b).name then
    string_lt (s.person_at a).name (s.person_at b).name
  else
    string_lt (s.person_at a).surname (s.person_at b).surname

/-- Function `College::add_course` (lines 208-220). -/
def add_course (s : College) (name : String) (active : Bool) : Bool × College :=
  if map_find name s.course_names = none then
    let new_course := s.courses.length
    (true, { s with courses := s.courses ++ [{ course_name := name, active := active }],
                    course_set := set_emplace ptr_lt new_course s.course_set,
                    course_names := map_emplace name new_course s.course_names })
  else
    (false, s)

/-- Function `College::find_courses` (lines 227-249): the result set in iteration order. -/
def find_courses (s : College) (pattern : String) : List Nat :=
  s.course_names.foldl
    (fun matching_courses entry =>
      if satisfies_pattern entry.1 pattern then
        set_emplace (my_cmp s) entry.2 matching_courses
      else matching_courses)
    []

/-- Function `Course::change_activeness` on the object behind `c` (lines 25-28). -/
def change_activeness (courses : List Course) (c : Nat) (new_val : Bool) : List Course :=
  courses.modify (fun obj => { obj with active := new_val }) c

/-- Function `College::change_course_activeness` (lines 251-262). -/
def change_course_activeness (s : College) (course : Nat) (active : Bool) : Bool × College :=
  if set_contains ptr_lt course s.course_set then
    (true, { s with courses := change_activeness s.courses course active })
  else
    (false, s)

/-- Function `College::remove_course` (lines 270-289).  The set is ordered by pointer, so
the element `*iter` that `find(course)` points at is `course` itself.  The
entry of the course name is in `course_names` in every reachable state
(`CoursesWF.names`); were it missing, `map_erase` would leave the map as it is. -/
def remove_course (s : College) (course : Nat) : Bool × College :=
  if set_contains ptr_lt course s.course_set then
    (true, { s with course_names := map_erase (s.course_at course).course_name s.course_names,
                    courses := change_activeness s.courses course false,
                    course_set := set_erase ptr_lt course s.course_set })
  else
    (false, s)

/-- The object that `std::make_shared<T>(name, surname, active)` constructs. -/
def make_person (T : PersonKind) (name surname : String) (active : Bool) : Person :=
  match T with
  | .Student =>
    { name := name, surname := surname,
      student := some { subjects_I_attend_const := [], subjects_I_attend := [], active := active },
      teacher := none }
  | .Teacher =>
    { name := name, surname := surname, student := none,
      teacher := some { subjects_I_handle_const := [], subjects_I_handle := [] } }
  | .PhDStudent =>
    { name := name, surname := surname,
      student := some { subjects_I_attend_const := [], subjects_I_attend := [], active := active },
      teacher := some { subjects_I_handle_const := [], subjects_I_handle := [] } }

/-- The two statements `people_names.emplace(std::make_pair(name, surname))` and
`person_set.emplace(...)` of `add_person`, for the freshly made object `obj`. -/
def emplace_person (s : College) (name surname : String) (obj : Person) : College :=
  { s with people_names := set_emplace pair_lt (name, surname) s.people_names,
           people := s.people ++ [obj],
           person_set := set_emplace ptr_lt s.people.length s.person_set }

/-- The three specializations of `College::add_person` (lines 528-568).  The
`Teacher` one overwrites its parameter with `true` and returns it. -/
def add_person (s : College) (T : PersonKind) (name surname : String) (active : Bool) :
    Bool × College :=
  match T with
  | .Student =>
    if set_contains pair_lt (name, surname) s.people_names = false then
      (true, emplace_person s name surname (make_person .Student name surname active))
    else
      (false, s)
  | .Teacher =>
    let active := true
    if set_contains pair_lt (name, surname) s.people_names = false then
      (active, emplace_person s name surname (make_person .Teacher name surname active))
    else
      (false, s)
  | .PhDStudent =>
    if set_contains pair_lt (name, surname) s.people_names = false then
      (true, emplace_person s name surname (make_person .PhDStudent name surname active))
    else
      (false, s)

/-- The assignment `std::dynamic_pointer_cast<Student>(p)->active = active`. -/
def set_student_active (people : List Person) (p : Nat) (active : Bool) : List Person :=
  people.modify
    (fun obj => { obj with student := obj.student.map (fun st => { st with active := active }) })
    p

/-- Function `College::change_student_activeness` (lines 306-317).  The argument is a
`shared_ptr<Student>`, so the object found has a `Student` subobject. -/
def change_student_activeness (s : College) (student : Nat) (active : Bool) : Bool × College :=
  if set_contains ptr_lt student s.person_set then
    (true, { s with people := set_student_active s.people student active })
  else
    (false, s)

/-- Function `College::assign_course<Student>` (lines 573-599).  The branch without a
`Student` subobject is excluded by the parameter type `shared_ptr<Student>`. -/
def assign_course_Student (s : College) (person course : Nat) : Outcome × College :=
  if set_contains ptr_lt person s.person_set = false then
    (.thrown .non_existing_person_exception, s)
  else if set_contains ptr_lt course s.course_set = false then
    (.thrown .non_existing_course_exception, s)
  else if (s.course_at course).active = false then
    (.thrown .inactive_course_exception, s)
  else
    match (s.person_at person).student with
    | none => (.returned false, s)
    | some st =>
      if st.active = false then
        (.thrown .inactive_student_exception, s)
      else if set_contains (my_cmp s) course st.subjects_I_attend then
        (.returned false, s)
      else
        let st1 : Student :=
          { st with
            subjects_I_attend := set_emplace (my_cmp s) course st.subjects_I_attend,
            subjects_I_attend_const := set_emplace (my_cmp s) course st.subjects_I_attend_const }
        let obj : Person := { s.person_at person with student := some st1 }
        (.returned true, { s with people := s.people.set person obj })

/-- Function `College::assign_course<Teacher>` (lines 601-624).  The branch without a
`Teacher` subobject is excluded by the parameter type `shared_ptr<Teacher>`. -/
def assign_course_Teacher (s : College) (person course : Nat) : Outcome × College :=
  if set_contains ptr_lt person s.person_set = false then
    (.thrown .non_existing_person_exception, s)
  else if set_contains ptr_lt course s.course_set = false then
    (.thrown .non_existing_course_exception, s)
  else if (s.course_at course).active = false then
    (.thrown .inactive_course_exception, s)
  else
    match (s.person_at person).teacher with
    | none => (.returned false, s)
    | some t =>
      if set_contains (my_cmp s) course t.subjects_I_handle then
        (.returned false, s)
      else
        let t1 : Teacher :=
          { t with
            subjects_I_handle := set_emplace (my_cmp s) course t.subjects_I_handle,
            subjects_I_handle_const := set_emplace (my_cmp s) course t.subjects_I_handle_const }
        let obj : Person := { s.person_at person with teacher := some t1 }
        (.returned true, { s with people := s.people.set person obj })

/-- Function `College::find<Student>(course)` (lines 629-653) for an argument that
points to a course object: the result set in iteration order.  The call
`contains(course)` compares by name (`my_cmp`), the inner loop looks for
`course` itself among the courses.  For a null argument see
`find_Student_ptr`. -/
def find_Student (s : College) (course : Nat) : List Nat :=
  s.person_set.foldl
    (fun matching_people p =>
      match (s.person_at p).student with
      | none => matching_people
      | some temp =>
        if set_contains (my_cmp s) course temp.subjects_I_attend &&
            temp.subjects_I_attend.any (fun c => c = course) then
          set_emplace (people_cmp s) p matching_people
        else matching_people)
    []

/-- Function `College::find<Teacher>(course)` (lines 655-679) for an argument that
points to a course object.  For a null argument see `find_Teacher_ptr`. -/
def find_Teacher (s : College) (course : Nat) : List Nat :=
  s.person_set.foldl
    (fun matching_people p =>
      match (s.person_at p).teacher with
      | none => matching_people
      | some temp =>
        if set_contains (my_cmp s) course temp.subjects_I_handle &&
            temp.subjects_I_handle.any (fun c => c = course) then
          set_emplace (people_cmp s) p matching_people
        else matching_people)
    []

/-- The call `held.contains(course)` of lines 637 and 663 on a set ordered by
`my_cmp`, for a pointer `course` that may be null (`none`).  The search compares
`course` with an element of `held` whenever there is one, and `my_cmp`
(lines 73-80) calls `get_name` on both of its arguments: with a null `course`
and a set that is not empty the behaviour is undefined (`none`). -/
def contains_course (s : College) (course : Option Nat) (held : List Nat) : Option Bool :=
  match course with
  | some c => some (set_contains (my_cmp s) c held)
  | none => if held.isEmpty then some false else none

/-- Function `College::find<Student>(course)` (lines 629-653) with the argument as
a pointer that may be null; `none` as a result is undefined behaviour.  The
test `(*iter2) == course` of the inner loop compares pointers and is defined
for a null `course`. -/
def find_Student_ptr (s : College) (course : Option Nat) : Option (List Nat) :=
  s.person_set.foldl
    (fun result p =>
      match result with
      | none => none
      | some matching_people =>
        match (s.person_at p).student with
        | none => some matching_people
        | some temp =>
          match contains_course s course temp.subjects_I_attend with
          | none => none
          | some found =>
            if found && temp.subjects_I_attend.any (fun c => some c = course) then
              some (set_emplace (people_cmp s) p matching_people)
            else some matching_people)
    (some [])

/-- Function `College::find<Teacher>(course)` (lines 655-679) with the argument as
a pointer that may be null; `none` as a result is undefined behaviour. -/
def find_Teacher_ptr (s : College) (course : Option Nat) : Option (List Nat) :=
  s.person_set.foldl
    (fun result p =>
      match result with
      | none => none
      | some matching_people =>
        match (s.person_at p).teacher with
        | none => some matching_people
        | some temp =>
          match contains_course s course temp.subjects_I_handle with
          | none => none
          | some found =>
            if found && temp.subjects_I_handle.any (fun c => some c = course) then
              some (set_emplace (people_cmp s) p matching_people)
            else some matching_people)
    (some [])

/-- Function `Student::get_courses` (lines 111-114) of the person behind `p`. -/
def Student_get_courses (s : College) (p : Nat) : List Nat :=
  match (s.person_at p).student with
  | none => []
  | some st => st.subjects_I_attend_const

/-- Function `Teacher::get_courses` (lines 135-138) of the person behind `p`. -/
def Teacher_get_courses (s : College) (p : Nat) : List Nat :=
  match (s.person_at p).teacher with
  | none => []
  | some t => t.subjects_I_handle_const

/-! ## Reachable states and well-formedness -/

/-- The states a `College` can be in: the default-constructed one and whatever
the public operations make of it. -/
inductive Reachable : College → Prop where
  | empty : Reachable College.empty
  | add_course (s : College) (name : String) (active : Bool) :
      Reachable s → Reachable (s.add_course name active).2
  | remove_course (s : College) (course : Nat) :
      Reachable s → Reachable (s.remove_course course).2
  | change_course_activeness (s : College) (course : Nat) (active : Bool) :
      Reachable s → Reachable (s.change_course_activeness course active).2
  | add_person (s : College) (T : PersonKind) (name surname : String) (active : Bool) :
      Reachable s → Reachable (s.add_person T name surname active).2
  | change_student_activeness (s : College) (student : Nat) (active : Bool) :
      Reachable s → Reachable (s.change_student_activeness student active).2
  | assign_course_Student (s : College) (person course : Nat) :
      Reachable s → Reachable (s.assign_course_Student person course).2
  | assign_course_Teacher (s : College) (person course : Nat) :
      Reachable s → Reachable (s.assign_course_Teacher person course).2

/-- The course `c` is registered: `course_set` holds this very reference. -/
def registered_course (s : College) (c : Nat) : Prop := c ∈ s.course_set

/-- The person `p` is registered: `person_set` holds this very reference. -/
def registered_person (s : College) (p : Nat) : Prop := p ∈ s.person_set

/-- Consistency of the course tables: registered references name stored
objects, `course_set` has no duplicates, and `course_names` is ordered by key
and holds exactly the entries `(name of c, c)` of the registered courses `c`. -/
structure CoursesWF (s : College) : Prop where
  valid : ∀ c ∈ s.course_set, c < s.courses.length
  nodup : s.course_set.Nodup
  sorted : s.course_names.Pairwise (fun a b => string_lt a.1 b.1 = true)
  names : ∀ n c, (n, c) ∈ s.course_names ↔
    (c ∈ s.course_set ∧ (s.course_at c).course_name = n)

/-- Consistency of the person tables: registered references name stored
objects, `person_set` has no duplicates, `people_names` holds exactly the
`(name, surname)` pairs of the registered people, and no two registered people
share a pair. -/
structure PeopleWF (s : College) : Prop where
  valid : ∀ p ∈ s.person_set, p < s.people.length
  nodup : s.person_set.Nodup
  names : ∀ n sn, (n, sn) ∈ s.people_names ↔
    ∃ p ∈ s.person_set, (s.person_at p).name = n ∧ (s.person_at p).surname = sn
  unique : ∀ p ∈ s.person_set, ∀ q ∈ s.person_set,
    (s.person_at p).name = (s.person_at q).name →
    (s.person_at p).surname = (s.person_at q).surname → p = q

instance (s : College) (c : Nat) : Decidable (registered_course s c) :=
  inferInstanceAs (Decidable (c ∈ s.course_set))

instance (s : College) (p : Nat) : Decidable (registered_person s p) :=
  inferInstanceAs (Decidable (p ∈ s.person_set))

/-- The two parallel course sets of a role (the set of `shared_ptr<const Course>`
that `get_courses` returns and the set of `shared_ptr<Course>`) hold the same
courses, for every stored person. -/
structure RolesWF (s : College) : Prop where
  student : ∀ p st, (s.person_at p).student = some st →
    st.subjects_I_attend_const = st.subjects_I_attend
  teacher : ∀ p t, (s.person_at p).teacher = some t →
    t.subjects_I_handle_const = t.subjects_I_handle

/-- The course reference `c` names a stored course that is registered or has its
active flag false. -/
def held_ok (s : College) (c : Nat) : Prop :=
  c < s.courses.length ∧ (registered_course s c ∨ (s.course_at c).active = false)

/-- Every course held in a course set of a role, of any stored person, is
registered or inactive. -/
structure HeldWF (s : College) : Prop where
  student : ∀ p st, (s.person_at p).student = some st →
    ∀ c, c ∈ st.subjects_I_attend ∨ c ∈ st.subjects_I_attend_const → held_ok s c
  teacher : ∀ p t, (s.person_at p).teacher = some t →
    ∀ c, c ∈ t.subjects_I_handle ∨ c ∈ t.subjects_I_handle_const → held_ok s c

/-! ## Specification side of the matcher -/

/-- The glob semantics as a relation between a pattern and a text: a star stands
for any sequence `w` of characters, a question mark for any one character, any
other pattern character for itself. -/
inductive GlobMatch : List Char → List Char → Prop where
  | nil : GlobMatch [] []
  | star (w ps ts : List Char) : GlobMatch ps ts → GlobMatch ('*' :: ps) (w ++ ts)
  | any (x : Char) (ps ts : List Char) : GlobMatch ps ts → GlobMatch ('?' :: ps) (x :: ts)
  | lit (c : Char) (ps ts : List Char) : c ≠ '*' → c ≠ '?' → GlobMatch ps ts →
      GlobMatch (c :: ps) (c :: ts)

/-- The pattern character `c`, which is not a star, stands for the text
character `x`: the test of the first branch of the loop (lines 479-480). -/
def char_match (c x : Char) : Prop := c ≠ '*' ∧ (c = '?' ∨ x = c)

/-- What the rest of a run of the loop decides.  Without a checkpoint: whether
the rest of the pattern matches the rest of the text.  With a checkpoint:
whether the pattern from the remembered star on matches the text from
`backtrack_idx` on. -/
def match_value (str pattern : List Char) (st : MatchState) : Bool :=
  if st.last_wildcard = -1 then
    glob_spec (pattern.drop st.ptrn_idx) (str.drop st.str_idx)
  else
    glob_spec ('*' :: pattern.drop st.next_wildcard.toNat) (str.drop st.backtrack_idx.toNat)

/-- The loop invariant of `satisfies_pattern`: with a checkpoint, the pattern
between `next_wildcard` and `ptrn_idx` is free of stars and stands, character by
character, for the text between `backtrack_idx` and `str_idx`. -/
def MatchInv (str pattern : List Char) (st : MatchState) : Prop :=
  st.last_wildcard ≠ -1 →
    ∃ (nw b : Nat) (seg w : List Char),
      st.next_wildcard = (nw : Int) ∧ st.backtrack_idx = (b : Int) ∧
      nw ≤ pattern.length ∧
      pattern.drop nw = seg ++ pattern.drop st.ptrn_idx ∧
      str.drop b = w ++ str.drop st.str_idx ∧
      List.Forall₂ char_match seg w

/-! ## Concrete scenarios -/

/-- The number `2^31`, one more than the largest `int`. -/
def int_limit : Nat := 2 ^ 31

/-- A text without a star: `n` times the letter `a`, then `bd`. -/
def long_text (n : Nat) : String := String.mk (List.replicate n 'a' ++ ['b', 'd'])

/-- A pattern with one star: `n` times the letter `a`, then `*c`. -/
def long_pattern (n : Nat) : String := String.mk (List.replicate n 'a' ++ ['*', 'c'])

/-- The state after `add_course("Math")`, `add_person<Student>("Ann", "Lee")`,
enrolling Ann (reference 0) in that course (reference 0), removing the course,
and `add_course("Math")` again, which makes the new course with reference 1. -/
def same_name_state : College :=
  let s1 := (College.empty.add_course "Math" true).2
  let s2 := (s1.add_person .Student "Ann" "Lee" true).2
  let s3 := (s2.assign_course_Student 0 0).2
  let s4 := (s3.remove_course 0).2
  (s4.add_course "Math" true).2

/-- The state after registering the courses "Algebra" (reference 0, active) and
"Biology" (reference 1, inactive), the student Ann Lee (reference 0), the
teacher Bob Ray (reference 1) and the inactive PhD student Cy Orr (reference 2). -/
def sample_state : College :=
  let s1 := (College.empty.add_course "Algebra" true).2
  let s2 := (s1.add_course "Biology" false).2
  let s3 := (s2.add_person .Student "Ann" "Lee" true).2
  let s4 := (s3.add_person .Teacher "Bob" "Ray" true).2
  (s4.add_person .PhDStudent "Cy" "Orr" false).2

/-- The state `sample_state` after activating the PhD student Cy Orr, enrolling
Ann Lee in "Algebra" and making Bob Ray teach "Algebra". -/
def taught_state : College :=
  let s1 := (sample_state.change_student_activeness 2 true).2
  let s2 := (s1.assign_course_Student 0 0).2
  (s2.assign_course_Teacher 1 0).2

/-! ## The string order -/

theorem lex_lt_irrefl (a : List Char) : lex_lt a a = false := by
  induction a with
  | nil => rfl
  | cons x xs ih => simp [lex_lt, ih]

theorem lex_lt_asymm : ∀ (a b : List Char), lex_lt a b = true → lex_lt b a = false
  | _, [], h => by simp [lex_lt] at h
  | [], _ :: _, _ => by simp [lex_lt]
  | a :: as, b :: bs, h => by
    simp only [lex_lt] at h ⊢
    by_cases h1 : a < b
    · have h2 : ¬ b < a := lt_asymm h1
      simp [h2, h1]
    · by_cases h2 : b < a
      · simp [h1, h2] at h
      · simp only [h1, h2, if_false] at h ⊢
        exact lex_lt_asymm as bs h

theorem lex_lt_trans : ∀ (a b c : List Char),
    lex_lt a b = true → lex_lt b c = true → lex_lt a c = true
  | _, [], _, h, _ => by simp [lex_lt] at h
  | _, _ :: _, [], _, h => by simp [lex_lt] at h
  | [], _ :: _, _ :: _, _, _ => by simp [lex_lt]
  | a :: as, b :: bs, c :: cs, h1, h2 => by
    simp only [lex_lt] at h1 h2 ⊢
    rcases lt_trichotomy a b with hab | hab | hab
    · rcases lt_trichotomy b c with hbc | hbc | hbc
      · simp [lt_trans hab hbc]
      · subst hbc; simp [hab]
      · simp [hbc, lt_asymm hbc] at h2
    · subst hab
      rcases lt_trichotomy a c with hbc | hbc | hbc
      · simp [hbc]
      · subst hbc
        simp only [lt_self_iff_false, if_false] at h1 h2 ⊢
        exact lex_lt_trans as bs cs h1 h2
      · simp [hbc, lt_asymm hbc] at h2
    · simp [hab, lt_asymm hab] at h1

theorem lex_lt_total : ∀ (a b : List Char),
    lex_lt a b = false → lex_lt b a = false → a = b
  | [], [], _, _ => rfl
  | [], _ :: _, h, _ => by simp [lex_lt] at h
  | _ :: _, [], _, h => by simp [lex_lt] at h
  | a :: as, b :: bs, h1, h2 => by
    simp only [lex_lt] at h1 h2
    rcases lt_trichotomy a b with hab | hab | hab
    · simp [hab] at h1
    · subst hab
      simp only [lt_self_iff_false, if_false] at h1 h2
      rw [lex_lt_total as bs h1 h2]
    · simp [hab] at h2

theorem string_lt_irrefl (a : String) : string_lt a a = false := lex_lt_irrefl a.data

theorem string_lt_asymm {a b : String} (h : string_lt a b = true) : string_lt b a = false :=
  lex_lt_asymm _ _ h

theorem string_lt_trans {a b c : String} (h1 : string_lt a b = true)
    (h2 : string_lt b c = true) : string_lt a c = true :=
  lex_lt_trans _ _ _ h1 h2

theorem string_lt_total {a b : String} (h1 : string_lt a b = false)
    (h2 : string_lt b a = false) : a = b :=
  String.ext (lex_lt_total _ _ h1 h2)

theorem equiv_key_string {a b : String} : equiv_key string_lt a b = true ↔ a = b := by
  constructor
  · intro h
    simp only [equiv_key, Bool.and_eq_true, Bool.not_eq_true'] at h
    exact string_lt_total h.1 h.2
  · rintro rfl
    simp [equiv_key, string_lt_irrefl]

theorem equiv_key_ptr {a b : Nat} : equiv_key ptr_lt a b = true ↔ a = b := by
  simp only [equiv_key, ptr_lt, Bool.and_eq_true, Bool.not_eq_true', decide_eq_false_iff_not]
  omega

theorem equiv_key_pair {a b : String × String} : equiv_key pair_lt a b = true ↔ a = b := by
  constructor
  · intro h
    simp only [equiv_key, pair_lt, Bool.and_eq_true, Bool.not_eq_true', Bool.or_eq_false_iff,
      Bool.and_eq_false_iff, Bool.not_eq_false'] at h
    obtain ⟨⟨h1, h2⟩, h3, h4⟩ := h
    have e1 : a.1 = b.1 := string_lt_total h1 h3
    have e2 : a.2 = b.2 := by
      rcases h2 with h2 | h2
      · rw [h3] at h2; cases h2
      rcases h4 with h4 | h4
      · rw [h1] at h4; cases h4
      exact string_lt_total h2 h4
    exact Prod.ext e1 e2
  · rintro rfl
    simp [equiv_key, pair_lt, string_lt_irrefl]

/-! ## Ordered containers: lemmas -/

theorem set_contains_iff {α : Type} (lt : α → α → Bool) (x : α) (xs : List α) :
    set_contains lt x xs = true ↔ ∃ y ∈ xs, equiv_key lt x y = true := by
  simp [set_contains]

theorem set_contains_ptr {x : Nat} {xs : List Nat} :
    set_contains ptr_lt x xs = true ↔ x ∈ xs := by
  rw [set_contains_iff]
  constructor
  · rintro ⟨y, hy, he⟩
    rw [equiv_key_ptr.mp he]; exact hy
  · intro h
    exact ⟨x, h, equiv_key_ptr.mpr rfl⟩

theorem set_contains_ptr_false {x : Nat} {xs : List Nat} :
    set_contains ptr_lt x xs = false ↔ x ∉ xs := by
  rw [← set_contains_ptr, Bool.not_eq_true]

theorem set_contains_pair {x : String × String} {xs : List (String × String)} :
    set_contains pair_lt x xs = true ↔ x ∈ xs := by
  rw [set_contains_iff]
  constructor
  · rintro ⟨y, hy, he⟩
    rw [equiv_key_pair.mp he]; exact hy
  · intro h
    exact ⟨x, h, equiv_key_pair.mpr rfl⟩

theorem set_contains_pair_false {x : String × String} {xs : List (String × String)} :
    set_contains pair_lt x xs = false ↔ x ∉ xs := by
  rw [← set_contains_pair, Bool.not_eq_true]

theorem map_find_eq_none {k : String} {m : List (String × Nat)} :
    map_find k m = none ↔ ∀ v, (k, v) ∉ m := by
  simp only [map_find, List.find?_eq_none]
  constructor
  · intro h v hv
    exact h (k, v) hv (equiv_key_string.mpr rfl)
  · intro h e he hk
    have : k = e.1 := equiv_key_string.mp hk
    exact h e.2 (by rw [this]; exact he)

theorem mem_set_emplace {α : Type} (lt : α → α → Bool) (x z : α) (xs : List α) :
    z ∈ set_emplace lt x xs → z = x ∨ z ∈ xs := by
  induction xs with
  | nil => intro h; simpa [set_emplace] using h
  | cons y ys ih =>
    intro h
    simp only [set_emplace] at h
    split_ifs at h with h1 h2
    · simpa using h
    · rcases List.mem_cons.mp h with h | h
      · exact Or.inr (by simp [h])
      · rcases ih h with h | h
        · exact Or.inl h
        · exact Or.inr (List.mem_cons_of_mem _ h)
    · exact Or.inr h

theorem mem_set_emplace_of_mem {α : Type} (lt : α → α → Bool) (x z : α) (xs : List α) :
    z ∈ xs → z ∈ set_emplace lt x xs := by
  induction xs with
  | nil => intro h; cases h
  | cons y ys ih =>
    intro h
    simp only [set_emplace]
    split_ifs with h1 h2
    · exact List.mem_cons_of_mem _ h
    · rcases List.mem_cons.mp h with h | h
      · simp [h]
      · exact List.mem_cons_of_mem _ (ih h)
    · exact h

theorem mem_set_emplace_self {α : Type} (lt : α → α → Bool) (x : α) (xs : List α) :
    set_contains lt x xs = false → x ∈ set_emplace lt x xs := by
  induction xs with
  | nil => intro _; simp [set_emplace]
  | cons y ys ih =>
    intro h
    simp only [set_contains, List.any_cons, Bool.or_eq_false_iff] at h
    simp only [set_emplace]
    split_ifs with h1 h2
    · simp
    · exact List.mem_cons_of_mem _ (ih h.2)
    · exfalso
      have := h.1
      simp [equiv_key, h1, h2] at this

theorem mem_set_emplace_iff {α : Type} (lt : α → α → Bool) (x z : α) (xs : List α)
    (h : set_contains lt x xs = false) :
    z ∈ set_emplace lt x xs ↔ z = x ∨ z ∈ xs := by
  constructor
  · exact mem_set_emplace lt x z xs
  · rintro (rfl | hz)
    · exact mem_set_emplace_self lt z xs h
    · exact mem_set_emplace_of_mem lt x z xs hz

theorem set_contains_emplace_self {α : Type} (lt : α → α → Bool) (x : α) (xs : List α)
    (hirr : lt x x = false) : set_contains lt x (set_emplace lt x xs) = true := by
  induction xs with
  | nil => simp [set_emplace, set_contains, equiv_key, hirr]
  | cons y ys ih =>
    simp only [set_emplace]
    split_ifs with h1 h2
    · simp [set_contains, equiv_key, hirr]
    · simp only [set_contains, List.any_cons, Bool.or_eq_true]
      exact Or.inr ih
    · simp [set_contains, equiv_key, h1, h2]

theorem pairwise_set_emplace {α : Type} (lt : α → α → Bool)
    (htrans : ∀ a b c, lt a b = true → lt b c = true → lt a c = true)
    (x : α) (xs : List α) (h : xs.Pairwise (fun a b => lt a b = true)) :
    (set_emplace lt x xs).Pairwise (fun a b => lt a b = true) := by
  induction xs with
  | nil => simp [set_emplace]
  | cons y ys ih =>
    rw [List.pairwise_cons] at h
    simp only [set_emplace]
    split_ifs with h1 h2
    · refine List.Pairwise.cons ?_ (List.Pairwise.cons h.1 h.2)
      intro z hz
      rcases List.mem_cons.mp hz with rfl | hz
      · exact h1
      · exact htrans _ _ _ h1 (h.1 z hz)
    · refine List.Pairwise.cons ?_ (ih h.2)
      intro z hz
      rcases mem_set_emplace lt x z ys hz with rfl | hz
      · exact h2
      · exact h.1 z hz
    · exact List.Pairwise.cons h.1 h.2

theorem set_erase_ptr (x : Nat) (xs : List Nat) : set_erase ptr_lt x xs = xs.erase x := by
  induction xs with
  | nil => rfl
  | cons y ys ih =>
    unfold set_erase at ih ⊢
    by_cases h : x = y
    · subst h
      simp [List.eraseP_cons, equiv_key_ptr.mpr rfl]
    · have h1 : equiv_key ptr_lt x y = false := by
        rw [← Bool.not_eq_true, equiv_key_ptr]; exact h
      have h2 : (y == x) = false := by simpa using fun e => h e.symm
      rw [List.eraseP_cons, List.erase_cons, h1, h2]
      simp [ih]

theorem mem_set_erase_ptr {x z : Nat} {xs : List Nat} (hnd : xs.Nodup) :
    z ∈ set_erase ptr_lt x xs ↔ z ∈ xs ∧ z ≠ x := by
  rw [set_erase_ptr, hnd.mem_erase_iff]
  tauto

theorem nodup_set_erase_ptr {x : Nat} {xs : List Nat} (hnd : xs.Nodup) :
    (set_erase ptr_lt x xs).Nodup := by
  rw [set_erase_ptr]; exact hnd.erase x

theorem nodup_set_emplace_ptr {x : Nat} {xs : List Nat} (hx : x ∉ xs) (hnd : xs.Nodup) :
    (set_emplace ptr_lt x xs).Nodup := by
  induction xs with
  | nil => simp [set_emplace]
  | cons y ys ih =>
    rw [List.nodup_cons] at hnd
    simp only [set_emplace]
    split_ifs with h1 h2
    · exact List.nodup_cons.mpr ⟨hx, List.nodup_cons.mpr hnd⟩
    · refine List.nodup_cons.mpr ⟨?_, ih (fun h => hx (List.mem_cons_of_mem _ h)) hnd.2⟩
      intro hy
      rcases mem_set_emplace _ _ _ _ hy with rfl | hy
      · simp [ptr_lt] at h2
      · exact hnd.1 hy
    · exact List.nodup_cons.mpr hnd

theorem pairwise_map_erase {k : String} {m : List (String × Nat)}
    (h : m.Pairwise (fun a b => string_lt a.1 b.1 = true)) :
    (map_erase k m).Pairwise (fun a b => string_lt a.1 b.1 = true) :=
  h.sublist (List.eraseP_sublist m)

theorem mem_map_erase {k : String} {m : List (String × Nat)} {e : String × Nat}
    (h : m.Pairwise (fun a b => string_lt a.1 b.1 = true)) :
    e ∈ map_erase k m ↔ e ∈ m ∧ e.1 ≠ k := by
  induction m with
  | nil => simp [map_erase]
  | cons y ys ih =>
    rw [List.pairwise_cons] at h
    unfold map_erase at ih ⊢
    rw [List.eraseP_cons]
    by_cases hk : k = y.1
    · have h1 : equiv_key string_lt k y.1 = true := equiv_key_string.mpr hk
      simp only [h1, cond_true, List.mem_cons]
      constructor
      · intro he
        refine ⟨Or.inr he, ?_⟩
        intro hek
        have := h.1 e he
        rw [hek, hk, string_lt_irrefl] at this
        cases this
      · rintro ⟨rfl | he, hne⟩
        · exact absurd hk.symm hne
        · exact he
    · have h1 : equiv_key string_lt k y.1 = false := by
        rw [← Bool.not_eq_true, equiv_key_string]; exact hk
      simp only [h1, cond_false, List.mem_cons, ih h.2]
      constructor
      · rintro (rfl | ⟨he, hne⟩)
        · exact ⟨Or.inl rfl, fun e => hk e.symm⟩
        · exact ⟨Or.inr he, hne⟩
      · rintro ⟨rfl | he, hne⟩
        · exact Or.inl rfl
        · exact Or.inr ⟨he, hne⟩

theorem map_emplace_contains_false {k : String} {v : Nat} {m : List (String × Nat)}
    (h : map_find k m = none) :
    set_contains (fun a b : String × Nat => string_lt a.1 b.1) (k, v) m = false := by
  rw [← Bool.not_eq_true, set_contains_iff]
  rintro ⟨y, hy, he⟩
  have hk : k = y.1 := by
    simp only [equiv_key, Bool.and_eq_true, Bool.not_eq_true'] at he
    exact string_lt_total he.1 he.2
  exact (map_find_eq_none.mp h) y.2 (by rw [hk]; exact hy)

theorem mem_map_emplace {k : String} {v : Nat} {m : List (String × Nat)} {e : String × Nat}
    (h : map_find k m = none) :
    e ∈ map_emplace k v m ↔ e = (k, v) ∨ e ∈ m :=
  mem_set_emplace_iff _ _ _ _ (map_emplace_contains_false h)

theorem pairwise_map_emplace {k : String} {v : Nat} {m : List (String × Nat)}
    (h : m.Pairwise (fun a b => string_lt a.1 b.1 = true)) :
    (map_emplace k v m).Pairwise (fun a b => string_lt a.1 b.1 = true) :=
  pairwise_set_emplace (fun a b : String × Nat => string_lt a.1 b.1)
    (fun _ _ _ h1 h2 => string_lt_trans h1 h2) (k, v) m h

/-! ## The object store -/

theorem course_at_append_lt (s : College) (obj : Course) (c : Nat) (h : c < s.courses.length)
    (s1 : College) (h1 : s1.courses = s.courses ++ [obj]) :
    s1.course_at c = s.course_at c := by
  simp [course_at, h1, List.getD_eq_getElem?_getD, List.getElem?_append_left h]

theorem course_at_append_new (s : College) (obj : Course)
    (s1 : College) (h1 : s1.courses = s.courses ++ [obj]) :
    s1.course_at s.courses.length = obj := by
  simp [course_at, h1, List.getD_eq_getElem?_getD]

theorem length_change_activeness (courses : List Course) (c : Nat) (b : Bool) :
    (change_activeness courses c b).length = courses.length := by
  simp [change_activeness]

theorem getD_change_activeness (courses : List Course) (c d : Nat) (b : Bool) :
    (change_activeness courses c b).getD d default =
      if c = d ∧ d < courses.length then { courses.getD d default with active := b }
      else courses.getD d default := by
  simp only [change_activeness, List.getD_eq_getElem?_getD, List.getElem?_modify]
  by_cases h : c = d
  · subst h
    by_cases h2 : c < courses.length
    · simp [h2, List.getElem?_eq_getElem h2]
    · simp [h2, List.getElem?_eq_none (Nat.le_of_not_lt h2)]
  · simp [h]

theorem name_change_activeness (courses : List Course) (c d : Nat) (b : Bool) :
    ((change_activeness courses c b).getD d default).course_name =
      (courses.getD d default).course_name := by
  rw [getD_change_activeness]
  split_ifs <;> rfl

theorem length_set_student_active (people : List Person) (p : Nat) (b : Bool) :
    (set_student_active people p b).length = people.length := by
  simp [set_student_active]

theorem getD_set_student_active (people : List Person) (p q : Nat) (b : Bool) :
    (set_student_active people p b).getD q default =
      if p = q ∧ q < people.length then
        { people.getD q default with
          student := (people.getD q default).student.map (fun st => { st with active := b }) }
      else people.getD q default := by
  simp only [set_student_active, List.getD_eq_getElem?_getD, List.getElem?_modify]
  by_cases h : p = q
  · subst h
    by_cases h2 : p < people.length
    · simp [h2, List.getElem?_eq_getElem h2]
    · simp [h2, List.getElem?_eq_none (Nat.le_of_not_lt h2)]
  · simp [h]

theorem getD_set (people : List Person) (p q : Nat) (obj : Person) :
    (people.set p obj).getD q default =
      if p = q ∧ q < people.length then obj else people.getD q default := by
  simp only [List.getD_eq_getElem?_getD, List.getElem?_set]
  by_cases h : p = q
  · subst h
    by_cases h2 : p < people.length
    · simp [h2]
    · simp [h2, List.getElem?_eq_none (Nat.le_of_not_lt h2)]
  · simp [h]

theorem person_at_append_lt (s : College) (obj : Person) (p : Nat) (h : p < s.people.length)
    (s1 : College) (h1 : s1.people = s.people ++ [obj]) :
    s1.person_at p = s.person_at p := by
  simp [person_at, h1, List.getD_eq_getElem?_getD, List.getElem?_append_left h]

theorem person_at_append_new (s : College) (obj : Person)
    (s1 : College) (h1 : s1.people = s.people ++ [obj]) :
    s1.person_at s.people.length = obj := by
  simp [person_at, h1, List.getD_eq_getElem?_getD]

/-! ## Well-formedness is kept by every operation -/

theorem CoursesWF.transfer_courses {s s1 : College} (h : CoursesWF s)
    (hlen : s1.courses.length = s.courses.length)
    (hname : ∀ c, (s1.course_at c).course_name = (s.course_at c).course_name)
    (hset : s1.course_set = s.course_set) (hnames : s1.course_names = s.course_names) :
    CoursesWF s1 where
  valid := by rw [hset, hlen]; exact h.valid
  nodup := by rw [hset]; exact h.nodup
  sorted := by rw [hnames]; exact h.sorted
  names := by
    intro n c
    rw [hnames, hset, hname]; exact h.names n c

theorem PeopleWF.transfer_people {s s1 : College} (h : PeopleWF s)
    (hlen : s1.people.length = s.people.length)
    (hname : ∀ p, (s1.person_at p).name = (s.person_at p).name)
    (hsur : ∀ p, (s1.person_at p).surname = (s.person_at p).surname)
    (hset : s1.person_set = s.person_set) (hnames : s1.people_names = s.people_names) :
    PeopleWF s1 where
  valid := by rw [hset, hlen]; exact h.valid
  nodup := by rw [hset]; exact h.nodup
  names := by
    intro n sn
    rw [hnames, hset]; simp only [hname, hsur]; exact h.names n sn
  unique := by
    rw [hset]; simp only [hname, hsur]; exact h.unique

theorem CoursesWF.key_unique {s : College} (h : CoursesWF s) {c d : Nat}
    (hc : c ∈ s.course_set) (hd : d ∈ s.course_set)
    (hn : (s.course_at c).course_name = (s.course_at d).course_name) : c = d := by
  have h1 : ((s.course_at c).course_name, c) ∈ s.course_names := (h.names _ _).mpr ⟨hc, rfl⟩
  have h2 : ((s.course_at c).course_name, d) ∈ s.course_names := (h.names _ _).mpr ⟨hd, hn.symm⟩
  by_contra hne
  have hp := h.sorted
  have key : ∀ (m : List (String × Nat)), m.Pairwise (fun a b => string_lt a.1 b.1 = true) →
      ∀ k v1 v2, (k, v1) ∈ m → (k, v2) ∈ m → v1 = v2 := by
    intro m hm
    induction m with
    | nil => intro k v1 v2 h; cases h
    | cons y ys ih =>
      rw [List.pairwise_cons] at hm
      intro k v1 v2 m1 m2
      rcases List.mem_cons.mp m1 with e1 | m1
      · rcases List.mem_cons.mp m2 with e2 | m2
        · rw [← e2] at e1; exact (Prod.mk.inj e1).2
        · have := hm.1 _ m2
          rw [← e1, string_lt_irrefl] at this; cases this
      · rcases List.mem_cons.mp m2 with e2 | m2
        · have := hm.1 _ m1
          rw [← e2, string_lt_irrefl] at this; cases this
        · exact ih hm.2 k v1 v2 m1 m2
  exact hne (key _ hp _ _ _ h1 h2)

theorem CoursesWF_empty : CoursesWF College.empty where
  valid := by intro c h; cases h
  nodup := List.nodup_nil
  sorted := List.Pairwise.nil
  names := by intro n c; simp [College.empty]

theorem PeopleWF_empty : PeopleWF College.empty where
  valid := by intro c h; cases h
  nodup := List.nodup_nil
  names := by intro n c; simp [College.empty]
  unique := by intro p h; cases h

theorem fresh_course_not_mem {s : College} (h : CoursesWF s) :
    s.courses.length ∉ s.course_set :=
  fun hm => Nat.lt_irrefl _ (h.valid _ hm)

theorem fresh_person_not_mem {s : College} (h : PeopleWF s) :
    s.people.length ∉ s.person_set :=
  fun hm => Nat.lt_irrefl _ (h.valid _ hm)

theorem CoursesWF_add_course {s : College} (h : CoursesWF s) (name : String) (active : Bool) :
    CoursesWF (s.add_course name active).2 := by
  unfold add_course
  split_ifs with hf
  swap
  · exact h
  have hfresh := fresh_course_not_mem h
  have hcf : set_contains ptr_lt s.courses.length s.course_set = false :=
    set_contains_ptr_false.mpr hfresh
  refine ⟨?_, ?_, ?_, ?_⟩
  · intro c hc
    simp only [List.length_append, List.length_singleton]
    rcases mem_set_emplace _ _ _ _ hc with rfl | hc
    · exact Nat.lt_succ_self _
    · exact Nat.lt_succ_of_lt (h.valid c hc)
  · exact nodup_set_emplace_ptr hfresh h.nodup
  · exact pairwise_map_emplace h.sorted
  · intro n c
    simp only [mem_map_emplace hf, mem_set_emplace_iff _ _ _ _ hcf, Prod.mk.injEq]
    constructor
    · rintro (⟨rfl, rfl⟩ | hm)
      · exact ⟨Or.inl rfl, by rw [course_at_append_new s _ _ rfl]⟩
      · have := (h.names n c).mp hm
        exact ⟨Or.inr this.1, by
          rw [course_at_append_lt s _ c (h.valid c this.1) _ rfl]; exact this.2⟩
    · rintro ⟨rfl | hc, hn⟩
      · rw [course_at_append_new s _ _ rfl] at hn
        exact Or.inl ⟨hn.symm, rfl⟩
      · rw [course_at_append_lt s _ c (h.valid c hc) _ rfl] at hn
        exact Or.inr ((h.names n c).mpr ⟨hc, hn⟩)

theorem CoursesWF_change_course_activeness {s : College} (h : CoursesWF s) (course : Nat)
    (active : Bool) : CoursesWF (s.change_course_activeness course active).2 := by
  unfold change_course_activeness
  split_ifs with hf
  · exact h.transfer_courses (length_change_activeness _ _ _)
      (fun c => name_change_activeness _ _ _ _) rfl rfl
  · exact h

theorem CoursesWF_remove_course {s : College} (h : CoursesWF s) (course : Nat) :
    CoursesWF (s.remove_course course).2 := by
  unfold remove_course
  split_ifs with hf
  swap
  · exact h
  have hreg : course ∈ s.course_set := set_contains_ptr.mp hf
  refine ⟨?_, ?_, ?_, ?_⟩
  · intro c hc
    simp only [length_change_activeness]
    exact h.valid c ((mem_set_erase_ptr h.nodup).mp hc).1
  · exact nodup_set_erase_ptr h.nodup
  · exact pairwise_map_erase h.sorted
  · intro n c
    have hname : ∀ d, (course_at { s with
        course_names := map_erase (s.course_at course).course_name s.course_names,
        courses := change_activeness s.courses course false,
        course_set := set_erase ptr_lt course s.course_set } d).course_name
          = (s.course_at d).course_name :=
      fun d => name_change_activeness _ _ _ _
    rw [hname]
    simp only [mem_map_erase h.sorted, mem_set_erase_ptr h.nodup, h.names]
    constructor
    · rintro ⟨⟨hc, hn⟩, hne⟩
      refine ⟨⟨hc, ?_⟩, hn⟩
      rintro rfl
      exact hne hn.symm
    · rintro ⟨⟨hc, hne⟩, hn⟩
      refine ⟨⟨hc, hn⟩, ?_⟩
      intro hk
      exact hne (h.key_unique hc hreg (hn.trans hk))

theorem make_person_name (T : PersonKind) (name surname : String) (active : Bool) :
    (make_person T name surname active).name = name := by
  cases T <;> rfl

theorem make_person_surname (T : PersonKind) (name surname : String) (active : Bool) :
    (make_person T name surname active).surname = surname := by
  cases T <;> rfl

theorem make_person_Teacher (name surname : String) (a b : Bool) :
    make_person .Teacher name surname a = make_person .Teacher name surname b := rfl

theorem add_person_eq (s : College) (T : PersonKind) (name surname : String) (active : Bool) :
    s.add_person T name surname active =
      if set_contains pair_lt (name, surname) s.people_names = false then
        (true, emplace_person s name surname (make_person T name surname active))
      else (false, s) := by
  cases T <;> rfl

theorem PeopleWF_emplace_person {s : College} (h : PeopleWF s) (name surname : String)
    (obj : Person) (hon : obj.name = name) (hos : obj.surname = surname)
    (hf : set_contains pair_lt (name, surname) s.people_names = false) :
    PeopleWF (emplace_person s name surname obj) := by
  have hfresh := fresh_person_not_mem h
  have hcf : set_contains ptr_lt s.people.length s.person_set = false :=
    set_contains_ptr_false.mpr hfresh
  have hnew : ¬ ∃ p ∈ s.person_set, (s.person_at p).name = name ∧
      (s.person_at p).surname = surname :=
    fun hex => (set_contains_pair_false.mp hf) ((h.names _ _).mpr hex)
  have hold : ∀ p ∈ s.person_set, (emplace_person s name surname obj).person_at p
      = s.person_at p :=
    fun p hp => person_at_append_lt s obj p (h.valid p hp) _ rfl
  have hnewobj : (emplace_person s name surname obj).person_at s.people.length = obj :=
    person_at_append_new s obj _ rfl
  refine ⟨?_, ?_, ?_, ?_⟩
  · intro p hp
    show p < (s.people ++ [obj]).length
    simp only [List.length_append, List.length_singleton]
    rcases mem_set_emplace _ _ _ _ hp with rfl | hp
    · exact Nat.lt_succ_self _
    · exact Nat.lt_succ_of_lt (h.valid p hp)
  · exact nodup_set_emplace_ptr hfresh h.nodup
  · intro n sn
    show (n, sn) ∈ set_emplace pair_lt (name, surname) s.people_names ↔
      ∃ p ∈ set_emplace ptr_lt s.people.length s.person_set,
        ((emplace_person s name surname obj).person_at p).name = n ∧
        ((emplace_person s name surname obj).person_at p).surname = sn
    rw [mem_set_emplace_iff _ _ _ _ hf]
    constructor
    · rintro (he | hm)
      · obtain ⟨rfl, rfl⟩ := Prod.mk.inj he
        exact ⟨_, mem_set_emplace_self _ _ _ hcf, by rw [hnewobj, hon], by rw [hnewobj, hos]⟩
      · obtain ⟨p, hp, h1, h2⟩ := (h.names n sn).mp hm
        exact ⟨p, mem_set_emplace_of_mem _ _ _ _ hp, by rw [hold p hp, h1], by rw [hold p hp, h2]⟩
    · rintro ⟨p, hp, h1, h2⟩
      rcases mem_set_emplace _ _ _ _ hp with rfl | hp
      · rw [hnewobj] at h1 h2
        left; rw [← h1, ← h2, hon, hos]
      · rw [hold p hp] at h1 h2
        exact Or.inr ((h.names n sn).mpr ⟨p, hp, h1, h2⟩)
  · intro p hp q hq
    show ((emplace_person s name surname obj).person_at p).name =
        ((emplace_person s name surname obj).person_at q).name →
      ((emplace_person s name surname obj).person_at p).surname =
        ((emplace_person s name surname obj).person_at q).surname → p = q
    rcases mem_set_emplace _ _ _ _ hp with rfl | hp
    · rcases mem_set_emplace _ _ _ _ hq with rfl | hq
      · intro _ _; rfl
      · rw [hnewobj, hold q hq, hon, hos]
        intro h1 h2
        exact absurd ⟨q, hq, h1.symm, h2.symm⟩ hnew
    · rcases mem_set_emplace _ _ _ _ hq with rfl | hq
      · rw [hnewobj, hold p hp, hon, hos]
        intro h1 h2
        exact absurd ⟨p, hp, h1, h2⟩ hnew
      · rw [hold p hp, hold q hq]
        exact h.unique p hp q hq

theorem PeopleWF_add_person {s : College} (h : PeopleWF s) (T : PersonKind)
    (name surname : String) (active : Bool) :
    PeopleWF (s.add_person T name surname active).2 := by
  rw [add_person_eq]
  split_ifs with hf
  · exact PeopleWF_emplace_person h name surname _ (make_person_name _ _ _ _)
      (make_person_surname _ _ _ _) hf
  · exact h

theorem PeopleWF_change_student_activeness {s : College} (h : PeopleWF s) (student : Nat)
    (active : Bool) : PeopleWF (s.change_student_activeness student active).2 := by
  unfold change_student_activeness
  split_ifs with hf
  · refine h.transfer_people (length_set_student_active _ _ _) ?_ ?_ rfl rfl
    · intro p
      show ((set_student_active s.people student active).getD p default).name = _
      rw [getD_set_student_active]; split_ifs <;> rfl
    · intro p
      show ((set_student_active s.people student active).getD p default).surname = _
      rw [getD_set_student_active]; split_ifs <;> rfl
  · exact h

theorem PeopleWF_set {s : College} (h : PeopleWF s) (person : Nat) (obj : Person)
    (hn : obj.name = (s.person_at person).name)
    (hs : obj.surname = (s.person_at person).surname) :
    PeopleWF { s with people := s.people.set person obj } := by
  refine h.transfer_people (List.length_set _ _ _) ?_ ?_ rfl rfl
  · intro p
    show ((s.people.set person obj).getD p default).name = (s.people.getD p default).name
    rw [getD_set]
    split_ifs with hc
    · rw [hn, hc.1]; rfl
    · rfl
  · intro p
    show ((s.people.set person obj).getD p default).surname = (s.people.getD p default).surname
    rw [getD_set]
    split_ifs with hc
    · rw [hs, hc.1]; rfl
    · rfl

theorem PeopleWF_assign_course_Student {s : College} (h : PeopleWF s) (person course : Nat) :
    PeopleWF (s.assign_course_Student person course).2 := by
  unfold assign_course_Student
  split_ifs with h1 h2 h3
  · exact h
  · exact h
  · exact h
  · split
    · exact h
    · split_ifs
      · exact h
      · exact h
      · exact PeopleWF_set h person _ rfl rfl

theorem PeopleWF_assign_course_Teacher {s : College} (h : PeopleWF s) (person course : Nat) :
    PeopleWF (s.assign_course_Teacher person course).2 := by
  unfold assign_course_Teacher
  split_ifs with h1 h2 h3
  · exact h
  · exact h
  · exact h
  · split
    · exact h
    · split_ifs
      · exact h
      · exact PeopleWF_set h person _ rfl rfl

theorem assign_course_Student_courses (s : College) (person course : Nat) :
    (s.assign_course_Student person course).2.courses = s.courses ∧
    (s.assign_course_Student person course).2.course_set = s.course_set ∧
    (s.assign_course_Student person course).2.course_names = s.course_names ∧
    (s.assign_course_Student person course).2.person_set = s.person_set ∧
    (s.assign_course_Student person course).2.people_names = s.people_names := by
  unfold assign_course_Student
  split_ifs with h1 h2 h3
  · simp
  · simp
  · simp
  · split
    · simp
    · split_ifs <;> simp

theorem assign_course_Teacher_courses (s : College) (person course : Nat) :
    (s.assign_course_Teacher person course).2.courses = s.courses ∧
    (s.assign_course_Teacher person course).2.course_set = s.course_set ∧
    (s.assign_course_Teacher person course).2.course_names = s.course_names ∧
    (s.assign_course_Teacher person course).2.person_set = s.person_set ∧
    (s.assign_course_Teacher person course).2.people_names = s.people_names := by
  unfold assign_course_Teacher
  split_ifs with h1 h2 h3
  · simp
  · simp
  · simp
  · split
    · simp
    · split_ifs <;> simp

theorem CoursesWF.of_courses_eq {s s1 : College} (h : CoursesWF s)
    (hc : s1.courses = s.courses) (hset : s1.course_set = s.course_set)
    (hnames : s1.course_names = s.course_names) : CoursesWF s1 :=
  h.transfer_courses (by rw [hc]) (fun c => by simp [course_at, hc]) hset hnames

theorem PeopleWF.of_people_eq {s s1 : College} (h : PeopleWF s)
    (hc : s1.people = s.people) (hset : s1.person_set = s.person_set)
    (hnames : s1.people_names = s.people_names) : PeopleWF s1 :=
  h.transfer_people (by rw [hc]) (fun c => by simp [person_at, hc])
    (fun c => by simp [person_at, hc])
    hset hnames

/-- Every reachable state has consistent course tables and person tables. -/
theorem Reachable.wf {s : College} (h : Reachable s) : CoursesWF s ∧ PeopleWF s := by
  induction h with
  | empty => exact ⟨CoursesWF_empty, PeopleWF_empty⟩
  | add_course s name active _ ih =>
    refine ⟨CoursesWF_add_course ih.1 name active, ?_⟩
    unfold College.add_course
    split_ifs
    · exact ih.2.of_people_eq rfl rfl rfl
    · exact ih.2
  | remove_course s course _ ih =>
    refine ⟨CoursesWF_remove_course ih.1 course, ?_⟩
    unfold College.remove_course
    split_ifs
    · exact ih.2.of_people_eq rfl rfl rfl
    · exact ih.2
  | change_course_activeness s course active _ ih =>
    refine ⟨CoursesWF_change_course_activeness ih.1 course active, ?_⟩
    unfold College.change_course_activeness
    split_ifs
    · exact ih.2.of_people_eq rfl rfl rfl
    · exact ih.2
  | add_person s T name surname active _ ih =>
    refine ⟨?_, PeopleWF_add_person ih.2 T name surname active⟩
    rw [add_person_eq]
    split_ifs
    · exact ih.1.of_courses_eq rfl rfl rfl
    · exact ih.1
  | change_student_activeness s student active _ ih =>
    refine ⟨?_, PeopleWF_change_student_activeness ih.2 student active⟩
    unfold College.change_student_activeness
    split_ifs
    · exact ih.1.of_courses_eq rfl rfl rfl
    · exact ih.1
  | assign_course_Student s person course _ ih =>
    obtain ⟨e1, e2, e3, _, _⟩ := assign_course_Student_courses s person course
    exact ⟨ih.1.of_courses_eq e1 e2 e3, PeopleWF_assign_course_Student ih.2 person course⟩
  | assign_course_Teacher s person course _ ih =>
    obtain ⟨e1, e2, e3, _, _⟩ := assign_course_Teacher_courses s person course
    exact ⟨ih.1.of_courses_eq e1 e2 e3, PeopleWF_assign_course_Teacher ih.2 person course⟩

/-! ## The matcher terminates -/

theorem to_int_of_lt {n : Nat} (h : n < 2 ^ 31) : to_int n = (n : Int) := by
  unfold to_int; omega

theorem to_size_t_of_nonneg {z : Int} (h0 : 0 ≤ z) (h1 : z < 2 ^ 64) :
    to_size_t z = z.toNat := by
  unfold to_size_t; omega

theorem int_succ_of_lt {z : Int} (h0 : -1 ≤ z) (h1 : z + 1 < 2 ^ 31) :
    int_succ z = z + 1 := by
  unfold int_succ; omega

/-- For a text shorter than `2^31` characters every iteration of the loop
decreases `match_measure`, so the loop ends as soon as the fuel exceeds it. -/
theorem match_loop_fuel (str pattern : List Char) (hlen : str.length < 2 ^ 31) :
    ∀ (fuel : Nat) (st : MatchState), -1 ≤ st.backtrack_idx →
      st.backtrack_idx ≤ st.str_idx →
      match_measure str pattern st < fuel →
      ∃ b, match_loop str pattern fuel st = some b := by
  intro fuel
  induction fuel with
  | zero => intro st _ _ h; exact absurd h (Nat.not_lt_zero _)
  | succ fuel ih =>
    intro st hlo hinv hm
    unfold match_loop
    by_cases h0 : st.str_idx < str.length
    swap
    · rw [if_neg h0]; exact ⟨_, rfl⟩
    rw [if_pos h0]
    unfold match_measure at hm
    set K := str.length + pattern.length + 1 with hK
    by_cases h1 : st.ptrn_idx < pattern.length ∧
        (char_at pattern st.ptrn_idx = '?' ∨
          char_at str st.str_idx = char_at pattern st.ptrn_idx)
    · rw [if_pos h1]
      apply ih
      · exact hlo
      · show st.backtrack_idx ≤ ((st.str_idx + 1 : Nat) : Int)
        push_cast; omega
      · unfold match_measure
        show ((str.length : Int) - st.backtrack_idx).toNat * K + (str.length - (st.str_idx + 1))
          + (pattern.length - (st.ptrn_idx + 1)) < fuel
        have := h1.1
        omega
    rw [if_neg h1]
    by_cases h2 : st.ptrn_idx < pattern.length ∧ char_at pattern st.ptrn_idx = '*'
    · rw [if_pos h2]
      have hconv : to_int st.str_idx = (st.str_idx : Int) := to_int_of_lt (by omega)
      apply ih
      · show -1 ≤ to_int st.str_idx
        rw [hconv]; omega
      · show to_int st.str_idx ≤ ((st.str_idx : Nat) : Int)
        rw [hconv]
      · unfold match_measure
        show ((str.length : Int) - to_int st.str_idx).toNat * K + (str.length - st.str_idx)
          + (pattern.length - (st.ptrn_idx + 1)) < fuel
        rw [hconv]
        have hle : ((str.length : Int) - (st.str_idx : Int)).toNat ≤
            ((str.length : Int) - st.backtrack_idx).toNat := by omega
        have := Nat.mul_le_mul_right K hle
        have := h2.1
        omega
    rw [if_neg h2]
    by_cases h3 : st.last_wildcard = -1
    · rw [if_pos h3]; exact ⟨_, rfl⟩
    rw [if_neg h3]
    have hsucc : int_succ st.backtrack_idx = st.backtrack_idx + 1 :=
      int_succ_of_lt hlo (by omega)
    have hconv : to_size_t (st.backtrack_idx + 1) = (st.backtrack_idx + 1).toNat :=
      to_size_t_of_nonneg (by omega) (by omega)
    apply ih
    · show -1 ≤ int_succ st.backtrack_idx
      rw [hsucc]; omega
    · show int_succ st.backtrack_idx ≤ ((to_size_t (int_succ st.backtrack_idx) : Nat) : Int)
      rw [hsucc, hconv]
      exact Int.self_le_toNat _
    · unfold match_measure
      show ((str.length : Int) - int_succ st.backtrack_idx).toNat * K
        + (str.length - to_size_t (int_succ st.backtrack_idx))
        + (pattern.length - to_size_t st.next_wildcard) < fuel
      rw [hsucc, hconv]
      have hA1 : ((str.length : Int) - st.backtrack_idx).toNat =
          ((str.length : Int) - (st.backtrack_idx + 1)).toNat + 1 := by omega
      have hmul : ((str.length : Int) - st.backtrack_idx).toNat * K =
          ((str.length : Int) - (st.backtrack_idx + 1)).toNat * K + K := by
        rw [hA1, Nat.add_mul, Nat.one_mul]
      omega

/-- For a text shorter than `2^31` characters the loop of `satisfies_pattern`
ends within `match_fuel` iterations: the function returns a value. -/
theorem match_loop_total (str pattern : List Char) (hlen : str.length < 2 ^ 31) :
    ∃ b, match_loop str pattern (match_fuel str pattern) match_init = some b := by
  apply match_loop_fuel str pattern hlen
  · show (-1 : Int) ≤ -1
    exact le_refl _
  · show (-1 : Int) ≤ ((0 : Nat) : Int)
    omega
  · unfold match_measure match_fuel match_init
    simp only
    have : ((str.length : Int) - (-1)).toNat = str.length + 1 := by omega
    rw [this]
    have : (str.length + 2) * (str.length + pattern.length + 1)
        = (str.length + 1) * (str.length + pattern.length + 1)
          + (str.length + pattern.length + 1) := by ring
    omega

theorem satisfies_pattern_eq (str pattern : String) (hlen : str.data.length < 2 ^ 31) :
    match_loop str.data pattern.data (match_fuel str.data pattern.data) match_init
      = some (satisfies_pattern str pattern) := by
  obtain ⟨b, hb⟩ := match_loop_total str.data pattern.data hlen
  simp [satisfies_pattern, hb]

/-! ## Result sets of the queries -/

theorem mem_foldl_emplace {α β : Type} (lt : β → β → Bool) (P : α → Bool) (f : α → β) :
    ∀ (xs : List α) (acc : List β),
      (∀ x ∈ xs, P x = true → ∀ b ∈ acc, equiv_key lt (f x) b = false) →
      xs.Pairwise (fun x y => P x = true → P y = true → equiv_key lt (f y) (f x) = false) →
      ∀ b, b ∈ xs.foldl (fun acc x => if P x = true then set_emplace lt (f x) acc else acc) acc
        ↔ b ∈ acc ∨ ∃ x ∈ xs, P x = true ∧ f x = b := by
  intro xs
  induction xs with
  | nil => intro acc _ _ b; simp
  | cons x xs ih =>
    intro acc hacc hpw b
    rw [List.pairwise_cons] at hpw
    rw [List.foldl_cons]
    by_cases hP : P x = true
    · have hnc : set_contains lt (f x) acc = false := by
        rw [← Bool.not_eq_true, set_contains_iff]
        rintro ⟨y, hy, he⟩
        rw [hacc x (List.mem_cons_self _ _) hP y hy] at he
        cases he
      rw [if_pos hP, ih _ ?_ hpw.2]
      · rw [mem_set_emplace_iff _ _ _ _ hnc]
        constructor
        · rintro ((rfl | hb) | ⟨y, hy, hPy, rfl⟩)
          · exact Or.inr ⟨x, List.mem_cons_self _ _, hP, rfl⟩
          · exact Or.inl hb
          · exact Or.inr ⟨y, List.mem_cons_of_mem _ hy, hPy, rfl⟩
        · rintro (hb | ⟨y, hy, hPy, rfl⟩)
          · exact Or.inl (Or.inr hb)
          · rcases List.mem_cons.mp hy with rfl | hy
            · exact Or.inl (Or.inl rfl)
            · exact Or.inr ⟨y, hy, hPy, rfl⟩
      · intro y hy hPy c hc
        rcases mem_set_emplace _ _ _ _ hc with rfl | hc
        · exact hpw.1 y hy hP hPy
        · exact hacc y (List.mem_cons_of_mem _ hy) hPy c hc
    · rw [if_neg hP, ih _ (fun y hy => hacc y (List.mem_cons_of_mem _ hy)) hpw.2]
      constructor
      · rintro (hb | ⟨y, hy, hPy, rfl⟩)
        · exact Or.inl hb
        · exact Or.inr ⟨y, List.mem_cons_of_mem _ hy, hPy, rfl⟩
      · rintro (hb | ⟨y, hy, hPy, rfl⟩)
        · exact Or.inl hb
        · rcases List.mem_cons.mp hy with rfl | hy
          · exact absurd hPy hP
          · exact Or.inr ⟨y, hy, hPy, rfl⟩

theorem pairwise_foldl_emplace {α β : Type} (lt : β → β → Bool)
    (htrans : ∀ a b c, lt a b = true → lt b c = true → lt a c = true)
    (P : α → Bool) (f : α → β) :
    ∀ (xs : List α) (acc : List β), acc.Pairwise (fun a b => lt a b = true) →
      (xs.foldl (fun acc x => if P x = true then set_emplace lt (f x) acc else acc) acc).Pairwise
        (fun a b => lt a b = true) := by
  intro xs
  induction xs with
  | nil => intro acc h; exact h
  | cons x xs ih =>
    intro acc h
    rw [List.foldl_cons]
    split_ifs
    · exact ih _ (pairwise_set_emplace lt htrans _ _ h)
    · exact ih _ h

theorem equiv_key_my_cmp (s : College) (a b : Nat) :
    equiv_key (my_cmp s) a b = true ↔
      (s.course_at a).course_name = (s.course_at b).course_name :=
  equiv_key_string

theorem find_courses_eq (s : College) (pattern : String) :
    s.find_courses pattern = s.course_names.foldl
      (fun acc e => if (fun e : String × Nat => satisfies_pattern e.1 pattern) e = true
        then set_emplace (my_cmp s) (Prod.snd e) acc else acc) [] := rfl

theorem mem_find_courses {s : College} (h : CoursesWF s) (pattern : String) (c : Nat) :
    c ∈ s.find_courses pattern ↔
      c ∈ s.course_set ∧ satisfies_pattern (s.course_at c).course_name pattern = true := by
  rw [find_courses_eq, mem_foldl_emplace]
  · constructor
    · rintro (hc | ⟨e, he, hP, rfl⟩)
      · cases hc
      · have := (h.names e.1 e.2).mp he
        exact ⟨this.1, by rw [this.2]; exact hP⟩
    · rintro ⟨hc, hP⟩
      exact Or.inr ⟨((s.course_at c).course_name, c), (h.names _ _).mpr ⟨hc, rfl⟩, hP, rfl⟩
  · intro x _ _ b hb; cases hb
  · refine h.sorted.imp_of_mem ?_
    intro a b ha hb hlt _ _
    rw [← Bool.not_eq_true, equiv_key_my_cmp, ((h.names _ _).mp ha).2, ((h.names _ _).mp hb).2]
    intro he
    rw [he, string_lt_irrefl] at hlt
    cases hlt

/-- C1: `satisfies_pattern` is claimed to agree with the glob semantics for every
text and pattern.  The two examples of the claim hold, but on the text `*ab` and
the pattern `*b` the glob semantics accepts (the star stands for `*a`) while
`satisfies_pattern` returns false: the star of the text is compared with the
star of the pattern as an ordinary character and no checkpoint is recorded. -/
theorem satisfies_pattern_differs_from_glob :
    satisfies_pattern "biology" "*o?y" = true ∧
    satisfies_pattern "bio" "*x" = false ∧
    glob_spec "*b".data "*ab".data = true ∧
    satisfies_pattern "*ab" "*b" = false := by
  decide

/-- C2: the pattern `*` (and any pattern of stars only) is claimed to match every
text.  `satisfies_pattern` rejects the text `*?` for the pattern `*` and the text
`**a` for the pattern `**`, although the glob semantics accepts both. -/
theorem satisfies_pattern_star_rejects :
    satisfies_pattern "*?" "*" = false ∧
    glob_spec "*".data "*?".data = true ∧
    satisfies_pattern "**a" "**" = false ∧
    glob_spec "**".data "**a".data = true := by
  decide

/-! ## Claims about the registry -/

theorem same_name_state_reachable : Reachable same_name_state :=
  Reachable.add_course _ "Math" true
    (Reachable.remove_course _ 0
      (Reachable.assign_course_Student _ 0 0
        (Reachable.add_person _ .Student "Ann" "Lee" true
          (Reachable.add_course _ "Math" true Reachable.empty))))

/-- C3: in the reachable state `same_name_state` the student 0 and the course 1
are registered and active, the student holds only the removed course 0 of the
same name, and yet `assign_course<Student>` returns false and changes nothing:
course 1 is not inserted and the student is not found for course 1. -/
theorem assign_course_Student_refuses_same_name :
    Reachable same_name_state ∧
    registered_person same_name_state 0 ∧
    (same_name_state.person_at 0).student.map Student.active = some true ∧
    registered_course same_name_state 1 ∧
    (same_name_state.course_at 1).active = true ∧
    (same_name_state.person_at 0).student.map Student.subjects_I_attend = some [0] ∧
    same_name_state.assign_course_Student 0 1 = (Outcome.returned false, same_name_state) ∧
    0 ∉ same_name_state.find_Student 1 :=
  ⟨same_name_state_reachable, by decide⟩

theorem sample_state_reachable : Reachable sample_state :=
  Reachable.add_person _ .PhDStudent "Cy" "Orr" false
    (Reachable.add_person _ .Teacher "Bob" "Ray" true
      (Reachable.add_person _ .Student "Ann" "Lee" true
        (Reachable.add_course _ "Biology" false
          (Reachable.add_course _ "Algebra" true Reachable.empty))))

theorem assign_course_Student_unregistered_person {s : College} {person : Nat} (course : Nat)
    (h : person ∉ s.person_set) :
    s.assign_course_Student person course =
      (Outcome.thrown CollegeException.non_existing_person_exception, s) := by
  unfold assign_course_Student
  rw [if_pos (set_contains_ptr_false.mpr h)]

theorem assign_course_Teacher_unregistered_person {s : College} {person : Nat} (course : Nat)
    (h : person ∉ s.person_set) :
    s.assign_course_Teacher person course =
      (Outcome.thrown CollegeException.non_existing_person_exception, s) := by
  unfold assign_course_Teacher
  rw [if_pos (set_contains_ptr_false.mpr h)]

theorem assign_course_Student_unregistered_course {s : College} {person course : Nat}
    (hp : person ∈ s.person_set) (h : course ∉ s.course_set) :
    s.assign_course_Student person course =
      (Outcome.thrown CollegeException.non_existing_course_exception, s) := by
  unfold assign_course_Student
  rw [if_neg (by rw [set_contains_ptr.mpr hp]; simp), if_pos (set_contains_ptr_false.mpr h)]

theorem assign_course_Teacher_unregistered_course {s : College} {person course : Nat}
    (hp : person ∈ s.person_set) (h : course ∉ s.course_set) :
    s.assign_course_Teacher person course =
      (Outcome.thrown CollegeException.non_existing_course_exception, s) := by
  unfold assign_course_Teacher
  rw [if_neg (by rw [set_contains_ptr.mpr hp]; simp), if_pos (set_contains_ptr_false.mpr h)]

theorem assign_course_Student_inactive_course {s : College} {person course : Nat}
    (hp : person ∈ s.person_set) (hc : course ∈ s.course_set)
    (h : (s.course_at course).active = false) :
    s.assign_course_Student person course =
      (Outcome.thrown CollegeException.inactive_course_exception, s) := by
  unfold assign_course_Student
  rw [if_neg (by rw [set_contains_ptr.mpr hp]; simp),
    if_neg (by rw [set_contains_ptr.mpr hc]; simp), if_pos h]

theorem assign_course_Teacher_inactive_course {s : College} {person course : Nat}
    (hp : person ∈ s.person_set) (hc : course ∈ s.course_set)
    (h : (s.course_at course).active = false) :
    s.assign_course_Teacher person course =
      (Outcome.thrown CollegeException.inactive_course_exception, s) := by
  unfold assign_course_Teacher
  rw [if_neg (by rw [set_contains_ptr.mpr hp]; simp),
    if_neg (by rw [set_contains_ptr.mpr hc]; simp), if_pos h]

/-- The state that a successful `assign_course<Student>` leaves behind. -/
theorem assign_course_Student_active {s : College} {person course : Nat}
    (hp : person ∈ s.person_set) (hc : course ∈ s.course_set)
    (ha : (s.course_at course).active = true) {st : Student}
    (hst : (s.person_at person).student = some st) :
    s.assign_course_Student person course =
      if st.active = false then
        (Outcome.thrown CollegeException.inactive_student_exception, s)
      else if set_contains (my_cmp s) course st.subjects_I_attend = true then
        (Outcome.returned false, s)
      else
        (Outcome.returned true,
          { s with
            people := s.people.set person
              { s.person_at person with
                student := some
                  { st with
                    subjects_I_attend := set_emplace (my_cmp s) course st.subjects_I_attend,
                    subjects_I_attend_const :=
                      set_emplace (my_cmp s) course st.subjects_I_attend_const } } }) := by
  unfold assign_course_Student
  rw [if_neg (by rw [set_contains_ptr.mpr hp]; simp),
    if_neg (by rw [set_contains_ptr.mpr hc]; simp), if_neg (by rw [ha]; simp)]
  simp only [hst]

theorem assign_course_Teacher_active {s : College} {person course : Nat}
    (hp : person ∈ s.person_set) (hc : course ∈ s.course_set)
    (ha : (s.course_at course).active = true) {t : Teacher}
    (ht : (s.person_at person).teacher = some t) :
    s.assign_course_Teacher person course =
      if set_contains (my_cmp s) course t.subjects_I_handle = true then
        (Outcome.returned false, s)
      else
        (Outcome.returned true,
          { s with
            people := s.people.set person
              { s.person_at person with
                teacher := some
                  { t with
                    subjects_I_handle := set_emplace (my_cmp s) course t.subjects_I_handle,
                    subjects_I_handle_const :=
                      set_emplace (my_cmp s) course t.subjects_I_handle_const } } }) := by
  unfold assign_course_Teacher
  rw [if_neg (by rw [set_contains_ptr.mpr hp]; simp),
    if_neg (by rw [set_contains_ptr.mpr hc]; simp), if_neg (by rw [ha]; simp)]
  simp only [ht]

theorem assign_course_Student_no_role {s : College} {person course : Nat}
    (hst : (s.person_at person).student = none) :
    (s.assign_course_Student person course).1 ≠ Outcome.returned true ∧
    (s.assign_course_Student person course).2 = s := by
  unfold assign_course_Student
  split_ifs
  · simp
  · simp
  · simp
  · simp [hst]

theorem assign_course_Teacher_no_role {s : College} {person course : Nat}
    (hst : (s.person_at person).teacher = none) :
    (s.assign_course_Teacher person course).1 ≠ Outcome.returned true ∧
    (s.assign_course_Teacher person course).2 = s := by
  unfold assign_course_Teacher
  split_ifs
  · simp
  · simp
  · simp
  · simp [hst]

/-- Unless `assign_course<Student>` returns true it leaves the state as it was. -/
theorem assign_course_Student_unchanged (s : College) (person course : Nat)
    (h : (s.assign_course_Student person course).1 ≠ Outcome.returned true) :
    (s.assign_course_Student person course).2 = s := by
  by_cases hp : person ∈ s.person_set
  swap
  · rw [assign_course_Student_unregistered_person course hp]
  by_cases hc : course ∈ s.course_set
  swap
  · rw [assign_course_Student_unregistered_course hp hc]
  cases ha : (s.course_at course).active
  · rw [assign_course_Student_inactive_course hp hc ha]
  cases hst : (s.person_at person).student with
  | none => exact (assign_course_Student_no_role hst).2
  | some st =>
    rw [assign_course_Student_active hp hc ha hst] at h ⊢
    split_ifs at h ⊢
    · rfl
    · rfl
    · exact absurd rfl h

theorem assign_course_Teacher_unchanged (s : College) (person course : Nat)
    (h : (s.assign_course_Teacher person course).1 ≠ Outcome.returned true) :
    (s.assign_course_Teacher person course).2 = s := by
  by_cases hp : person ∈ s.person_set
  swap
  · rw [assign_course_Teacher_unregistered_person course hp]
  by_cases hc : course ∈ s.course_set
  swap
  · rw [assign_course_Teacher_unregistered_course hp hc]
  cases ha : (s.course_at course).active
  · rw [assign_course_Teacher_inactive_course hp hc ha]
  cases hst : (s.person_at person).teacher with
  | none => exact (assign_course_Teacher_no_role hst).2
  | some st =>
    rw [assign_course_Teacher_active hp hc ha hst] at h ⊢
    split_ifs at h ⊢
    · rfl
    · exact absurd rfl h

theorem assign_course_Teacher_never_inactive_student (s : College) (person course : Nat) :
    (s.assign_course_Teacher person course).1 ≠
      Outcome.thrown CollegeException.inactive_student_exception := by
  unfold assign_course_Teacher
  split_ifs
  · simp
  · simp
  · simp
  · split
    · simp
    · split_ifs <;> simp

/-- C5: `assign_course` classifies its failures in a fixed order, in both roles
and in every state: unregistered person, then unregistered course, then inactive
course (whatever the student's activity), then, in the `Student` role only,
inactive student.  The `Teacher` role never throws `inactive_student_exception`.
Whenever the call does not return true, the state is left as it was. -/
theorem assign_course_failure_order (s : College) (person course : Nat) :
    (¬ registered_person s person →
      s.assign_course_Student person course =
        (Outcome.thrown CollegeException.non_existing_person_exception, s) ∧
      s.assign_course_Teacher person course =
        (Outcome.thrown CollegeException.non_existing_person_exception, s)) ∧
    (registered_person s person → ¬ registered_course s course →
      s.assign_course_Student person course =
        (Outcome.thrown CollegeException.non_existing_course_exception, s) ∧
      s.assign_course_Teacher person course =
        (Outcome.thrown CollegeException.non_existing_course_exception, s)) ∧
    (registered_person s person → registered_course s course →
      (s.course_at course).active = false →
      s.assign_course_Student person course =
        (Outcome.thrown CollegeException.inactive_course_exception, s) ∧
      s.assign_course_Teacher person course =
        (Outcome.thrown CollegeException.inactive_course_exception, s)) ∧
    (registered_person s person → registered_course s course →
      (s.course_at course).active = true →
      ∀ st, (s.person_at person).student = some st → st.active = false →
      s.assign_course_Student person course =
        (Outcome.thrown CollegeException.inactive_student_exception, s)) ∧
    (s.assign_course_Teacher person course).1 ≠
      Outcome.thrown CollegeException.inactive_student_exception ∧
    ((s.assign_course_Student person course).1 ≠ Outcome.returned true →
      (s.assign_course_Student person course).2 = s) ∧
    ((s.assign_course_Teacher person course).1 ≠ Outcome.returned true →
      (s.assign_course_Teacher person course).2 = s) := by
  refine ⟨?_, ?_, ?_, ?_, ?_, ?_, ?_⟩
  · intro hp
    exact ⟨assign_course_Student_unregistered_person course hp,
      assign_course_Teacher_unregistered_person course hp⟩
  · intro hp hc
    exact ⟨assign_course_Student_unregistered_course hp hc,
      assign_course_Teacher_unregistered_course hp hc⟩
  · intro hp hc ha
    exact ⟨assign_course_Student_inactive_course hp hc ha,
      assign_course_Teacher_inactive_course hp hc ha⟩
  · intro hp hc ha st hst hact
    rw [assign_course_Student_active hp hc ha hst, if_pos hact]
  · exact assign_course_Teacher_never_inactive_student s person course
  · exact assign_course_Student_unchanged s person course
  · exact assign_course_Teacher_unchanged s person course

theorem assign_course_failure_order_witness :
    sample_state.assign_course_Student 7 1 =
      (Outcome.thrown CollegeException.non_existing_person_exception, sample_state) ∧
    sample_state.assign_course_Teacher 2 9 =
      (Outcome.thrown CollegeException.non_existing_course_exception, sample_state) ∧
    sample_state.assign_course_Student 2 1 =
      (Outcome.thrown CollegeException.inactive_course_exception, sample_state) ∧
    sample_state.assign_course_Student 2 0 =
      (Outcome.thrown CollegeException.inactive_student_exception, sample_state) ∧
    (sample_state.assign_course_Teacher 2 0).1 ≠
      Outcome.thrown CollegeException.inactive_student_exception :=
  ⟨((assign_course_failure_order sample_state 7 1).1 (by decide)).1,
   ((assign_course_failure_order sample_state 2 9).2.1 (by decide) (by decide)).2,
   ((assign_course_failure_order sample_state 2 1).2.2.1 (by decide) (by decide)
      (by decide)).1,
   (assign_course_failure_order sample_state 2 0).2.2.2.1 (by decide) (by decide)
      (by decide) _ rfl rfl,
   (assign_course_failure_order sample_state 2 0).2.2.2.2.1⟩

theorem my_cmp_irrefl (s : College) (c : Nat) : my_cmp s c c = false :=
  string_lt_irrefl _

theorem assign_course_Student_held {s : College} {person course : Nat}
    (hp : person ∈ s.person_set) (hc : course ∈ s.course_set)
    (ha : (s.course_at course).active = true) (st : Student)
    (hst : (s.person_at person).student = some st) (hact : st.active = true)
    (hin : set_contains (my_cmp s) course st.subjects_I_attend = true) :
    s.assign_course_Student person course = (Outcome.returned false, s) := by
  rw [assign_course_Student_active hp hc ha hst, if_neg (by rw [hact]; simp), if_pos hin]

theorem assign_course_Teacher_held {s : College} {person course : Nat}
    (hp : person ∈ s.person_set) (hc : course ∈ s.course_set)
    (ha : (s.course_at course).active = true) (t : Teacher)
    (ht : (s.person_at person).teacher = some t)
    (hin : set_contains (my_cmp s) course t.subjects_I_handle = true) :
    s.assign_course_Teacher person course = (Outcome.returned false, s) := by
  rw [assign_course_Teacher_active hp hc ha ht, if_pos hin]

theorem assign_course_Student_again {s : College} (h : PeopleWF s) {person course : Nat}
    (ht : (s.assign_course_Student person course).1 = Outcome.returned true) :
    (s.assign_course_Student person course).2.assign_course_Student person course =
      (Outcome.returned false, (s.assign_course_Student person course).2) := by
  by_cases hp : person ∈ s.person_set
  swap
  · rw [assign_course_Student_unregistered_person course hp] at ht; cases ht
  by_cases hc : course ∈ s.course_set
  swap
  · rw [assign_course_Student_unregistered_course hp hc] at ht; cases ht
  cases ha : (s.course_at course).active
  · rw [assign_course_Student_inactive_course hp hc ha] at ht; cases ht
  cases hst : (s.person_at person).student with
  | none => exact absurd ht (assign_course_Student_no_role hst).1
  | some st =>
    rw [assign_course_Student_active hp hc ha hst] at ht ⊢
    by_cases h1 : st.active = false
    · rw [if_pos h1] at ht; cases ht
    by_cases h2 : set_contains (my_cmp s) course st.subjects_I_attend = true
    · rw [if_neg h1, if_pos h2] at ht; cases ht
    rw [if_neg h1, if_neg h2]
    refine assign_course_Student_held hp hc ha
      { st with
        subjects_I_attend := set_emplace (my_cmp s) course st.subjects_I_attend,
        subjects_I_attend_const := set_emplace (my_cmp s) course st.subjects_I_attend_const }
      ?_ ?_ ?_
    · show ((s.people.set person _).getD person default).student = _
      rw [getD_set, if_pos ⟨rfl, h.valid person hp⟩]
    · simpa using h1
    · exact set_contains_emplace_self _ _ _ (my_cmp_irrefl s course)

theorem assign_course_Teacher_again {s : College} (h : PeopleWF s) {person course : Nat}
    (ht : (s.assign_course_Teacher person course).1 = Outcome.returned true) :
    (s.assign_course_Teacher person course).2.assign_course_Teacher person course =
      (Outcome.returned false, (s.assign_course_Teacher person course).2) := by
  by_cases hp : person ∈ s.person_set
  swap
  · rw [assign_course_Teacher_unregistered_person course hp] at ht; cases ht
  by_cases hc : course ∈ s.course_set
  swap
  · rw [assign_course_Teacher_unregistered_course hp hc] at ht; cases ht
  cases ha : (s.course_at course).active
  · rw [assign_course_Teacher_inactive_course hp hc ha] at ht; cases ht
  cases hst : (s.person_at person).teacher with
  | none => exact absurd ht (assign_course_Teacher_no_role hst).1
  | some t =>
    rw [assign_course_Teacher_active hp hc ha hst] at ht ⊢
    by_cases h1 : set_contains (my_cmp s) course t.subjects_I_handle = true
    · rw [if_pos h1] at ht; cases ht
    rw [if_neg h1]
    refine assign_course_Teacher_held hp hc ha
      { t with
        subjects_I_handle := set_emplace (my_cmp s) course t.subjects_I_handle,
        subjects_I_handle_const := set_emplace (my_cmp s) course t.subjects_I_handle_const }
      ?_ ?_
    · show ((s.people.set person _).getD person default).teacher = _
      rw [getD_set, if_pos ⟨rfl, h.valid person hp⟩]
    · exact set_contains_emplace_self _ _ _ (my_cmp_irrefl s course)

/-- C6: in every reachable state and in both roles, when `assign_course` returns
true, the same call repeated at once returns false and leaves the state, hence
the set that `get_courses` returns and its size, as the first call left it. -/
theorem assign_course_twice (s : College) (hs : Reachable s) (person course : Nat) :
    ((s.assign_course_Student person course).1 = Outcome.returned true →
      (s.assign_course_Student person course).2.assign_course_Student person course =
        (Outcome.returned false, (s.assign_course_Student person course).2) ∧
      Student_get_courses
          ((s.assign_course_Student person course).2.assign_course_Student person course).2
          person =
        Student_get_courses (s.assign_course_Student person course).2 person) ∧
    ((s.assign_course_Teacher person course).1 = Outcome.returned true →
      (s.assign_course_Teacher person course).2.assign_course_Teacher person course =
        (Outcome.returned false, (s.assign_course_Teacher person course).2) ∧
      Teacher_get_courses
          ((s.assign_course_Teacher person course).2.assign_course_Teacher person course).2
          person =
        Teacher_get_courses (s.assign_course_Teacher person course).2 person) := by
  constructor
  · intro ht
    have := assign_course_Student_again hs.wf.2 ht
    exact ⟨this, by rw [this]⟩
  · intro ht
    have := assign_course_Teacher_again hs.wf.2 ht
    exact ⟨this, by rw [this]⟩

theorem assign_course_twice_witness :
    Reachable sample_state ∧
    (sample_state.assign_course_Student 0 0).1 = Outcome.returned true ∧
    (sample_state.assign_course_Teacher 2 0).1 = Outcome.returned true ∧
    (sample_state.assign_course_Student 0 0).2.assign_course_Student 0 0 =
      (Outcome.returned false, (sample_state.assign_course_Student 0 0).2) ∧
    (sample_state.assign_course_Teacher 2 0).2.assign_course_Teacher 2 0 =
      (Outcome.returned false, (sample_state.assign_course_Teacher 2 0).2) :=
  ⟨sample_state_reachable, by decide, by decide,
    ((assign_course_twice sample_state sample_state_reachable 0 0).1 (by decide)).1,
    ((assign_course_twice sample_state sample_state_reachable 2 0).2 (by decide)).1⟩

/-! ## `add_course` and `remove_course` -/

theorem map_find_none_iff {s : College} (h : CoursesWF s) (name : String) :
    map_find name s.course_names = none ↔
      ¬ ∃ c, registered_course s c ∧ (s.course_at c).course_name = name := by
  rw [map_find_eq_none]
  constructor
  · rintro hn ⟨c, hc, hname⟩
    exact hn c ((h.names name c).mpr ⟨hc, hname⟩)
  · intro hn v hv
    exact hn ⟨v, (h.names name v).mp hv⟩

theorem add_course_present {s : College} (h : CoursesWF s) (name : String) (active : Bool)
    (hex : ∃ c, registered_course s c ∧ (s.course_at c).course_name = name) :
    s.add_course name active = (false, s) := by
  unfold add_course
  rw [if_neg]
  rw [map_find_none_iff h]
  exact fun hn => hn hex

theorem add_course_absent {s : College} (h : CoursesWF s) (name : String) (active : Bool)
    (hex : ¬ ∃ c, registered_course s c ∧ (s.course_at c).course_name = name) :
    s.add_course name active =
      (true, { s with
        courses := s.courses ++ [{ course_name := name, active := active }],
        course_set := set_emplace ptr_lt s.courses.length s.course_set,
        course_names := map_emplace name s.courses.length s.course_names }) := by
  unfold add_course
  rw [if_pos ((map_find_none_iff h name).mpr hex)]

theorem add_course_new {s : College} (h : CoursesWF s) (name : String) (active : Bool)
    (hex : ¬ ∃ c, registered_course s c ∧ (s.course_at c).course_name = name) :
    (s.add_course name active).1 = true ∧
    registered_course (s.add_course name active).2 s.courses.length ∧
    (s.add_course name active).2.course_at s.courses.length =
      { course_name := name, active := active } ∧
    (∀ d, registered_course (s.add_course name active).2 d ↔
      d = s.courses.length ∨ registered_course s d) ∧
    (∀ d, registered_course s d → (s.add_course name active).2.course_at d = s.course_at d) := by
  have hcf : set_contains ptr_lt s.courses.length s.course_set = false :=
    set_contains_ptr_false.mpr (fresh_course_not_mem h)
  rw [add_course_absent h name active hex]
  refine ⟨rfl, mem_set_emplace_self _ _ _ hcf, course_at_append_new s _ _ rfl, ?_, ?_⟩
  · intro d
    exact mem_set_emplace_iff _ _ _ _ hcf
  · intro d hd
    exact course_at_append_lt s _ d (h.valid d hd) _ rfl

theorem remove_course_registered {s : College} {course : Nat} (hc : registered_course s course) :
    s.remove_course course =
      (true, { s with
        course_names := map_erase (s.course_at course).course_name s.course_names,
        courses := change_activeness s.courses course false,
        course_set := set_erase ptr_lt course s.course_set }) := by
  unfold remove_course
  rw [if_pos (set_contains_ptr.mpr hc)]

theorem remove_course_unregistered {s : College} {course : Nat}
    (hc : ¬ registered_course s course) : s.remove_course course = (false, s) := by
  unfold remove_course
  rw [if_neg]
  rw [set_contains_ptr]
  exact hc

theorem remove_course_true_iff (s : College) (course : Nat) :
    (s.remove_course course).1 = true ↔ registered_course s course := by
  by_cases hc : registered_course s course
  · rw [remove_course_registered hc]; simp [hc]
  · rw [remove_course_unregistered hc]; simp [hc]

theorem remove_course_after {s : College} (h : CoursesWF s) {course : Nat}
    (hc : registered_course s course) :
    ((s.remove_course course).2.course_at course).active = false ∧
    ¬ registered_course (s.remove_course course).2 course ∧
    (¬ ∃ d, registered_course (s.remove_course course).2 d ∧
      ((s.remove_course course).2.course_at d).course_name = (s.course_at course).course_name) := by
  have hwf : CoursesWF (s.remove_course course).2 := CoursesWF_remove_course h course
  have hnot : ¬ registered_course (s.remove_course course).2 course := by
    rw [remove_course_registered hc]
    intro hm
    exact ((mem_set_erase_ptr h.nodup).mp hm).2 rfl
  refine ⟨?_, hnot, ?_⟩
  · rw [remove_course_registered hc]
    show ((change_activeness s.courses course false).getD course default).active = false
    rw [getD_change_activeness, if_pos ⟨rfl, h.valid course hc⟩]
  · rintro ⟨d, hd, hname⟩
    have hmem := (hwf.names _ d).mpr ⟨hd, hname⟩
    rw [remove_course_registered hc] at hmem
    exact ((mem_map_erase h.sorted).mp hmem).2 rfl

/-- C7: in every reachable state `add_course(name, active)` returns false and
changes nothing when a course of that name is registered; otherwise it returns
true, afterwards exactly one registered course has that name, its active flag is
the argument, and every course registered before is still registered, unchanged. -/
theorem add_course_spec (s : College) (hs : Reachable s) (name : String) (active : Bool) :
    ((∃ c, registered_course s c ∧ (s.course_at c).course_name = name) →
      s.add_course name active = (false, s)) ∧
    ((¬ ∃ c, registered_course s c ∧ (s.course_at c).course_name = name) →
      (s.add_course name active).1 = true ∧
      (∃ c, registered_course (s.add_course name active).2 c ∧
        ((s.add_course name active).2.course_at c).course_name = name ∧
        ((s.add_course name active).2.course_at c).active = active ∧
        ∀ d, registered_course (s.add_course name active).2 d →
          ((s.add_course name active).2.course_at d).course_name = name → d = c) ∧
      (∀ d, registered_course s d →
        registered_course (s.add_course name active).2 d ∧
        (s.add_course name active).2.course_at d = s.course_at d)) := by
  refine ⟨add_course_present hs.wf.1 name active, ?_⟩
  intro hex
  obtain ⟨h1, h2, h3, h4, h5⟩ := add_course_new hs.wf.1 name active hex
  have hwf : CoursesWF (s.add_course name active).2 := CoursesWF_add_course hs.wf.1 name active
  refine ⟨h1, ⟨s.courses.length, h2, by rw [h3], by rw [h3], ?_⟩, ?_⟩
  · intro d hd hname
    refine hwf.key_unique hd h2 ?_
    rw [hname, h3]
  · intro d hd
    exact ⟨(h4 d).mpr (Or.inr hd), h5 d hd⟩

theorem add_course_spec_witness :
    Reachable College.empty ∧
    (College.empty.add_course "Math" true).1 = true ∧
    (College.empty.add_course "Math" true).2.add_course "Math" true =
      (false, (College.empty.add_course "Math" true).2) ∧
    (∃ c, registered_course (College.empty.add_course "Math" true).2 c ∧
      ((College.empty.add_course "Math" true).2.course_at c).course_name = "Math" ∧
      ((College.empty.add_course "Math" true).2.course_at c).active = true ∧
      ∀ d, registered_course (College.empty.add_course "Math" true).2 d →
        ((College.empty.add_course "Math" true).2.course_at d).course_name = "Math" → d = c) :=
  ⟨Reachable.empty,
    ((add_course_spec College.empty Reachable.empty "Math" true).2
      (by rintro ⟨c, hc, _⟩; cases hc)).1,
    (add_course_spec (College.empty.add_course "Math" true).2
      (Reachable.add_course _ "Math" true Reachable.empty) "Math" true).1
      ⟨0, by decide, by decide⟩,
    ((add_course_spec College.empty Reachable.empty "Math" true).2
      (by rintro ⟨c, hc, _⟩; cases hc)).2.1⟩

/-- C8: in every reachable state, removing a registered course succeeds; a
second `remove_course` of the same reference returns false and changes nothing,
and the course is in no result of `find_courses`, in particular not for `*`. -/
theorem remove_course_twice (s : College) (hs : Reachable s) (course : Nat)
    (hc : registered_course s course) :
    (s.remove_course course).1 = true ∧
    (s.remove_course course).2.remove_course course = (false, (s.remove_course course).2) ∧
    course ∉ (s.remove_course course).2.find_courses "*" ∧
    ∀ pattern, course ∉ (s.remove_course course).2.find_courses pattern := by
  have hafter := remove_course_after hs.wf.1 hc
  have hwf : CoursesWF (s.remove_course course).2 := CoursesWF_remove_course hs.wf.1 course
  have hfind : ∀ pattern, course ∉ (s.remove_course course).2.find_courses pattern :=
    fun pattern hm => hafter.2.1 ((mem_find_courses hwf pattern course).mp hm).1
  exact ⟨(remove_course_true_iff s course).mpr hc, remove_course_unregistered hafter.2.1,
    hfind "*", hfind⟩

theorem remove_course_twice_witness :
    Reachable sample_state ∧ registered_course sample_state 0 ∧
    ((sample_state.remove_course 0).1 = true ∧
    (sample_state.remove_course 0).2.remove_course 0 =
      (false, (sample_state.remove_course 0).2) ∧
    0 ∉ (sample_state.remove_course 0).2.find_courses "*" ∧
    ∀ pattern, 0 ∉ (sample_state.remove_course 0).2.find_courses pattern) :=
  ⟨sample_state_reachable, by decide,
    remove_course_twice sample_state sample_state_reachable 0 (by decide)⟩

/-- C9: in every reachable state `remove_course(c)` returns true exactly when the
reference `c` itself is registered; when it returns false the state is
unchanged; when it returns true the course is inactive and no longer registered
afterwards, and `add_course` with its name returns true. -/
theorem remove_course_spec (s : College) (hs : Reachable s) (course : Nat) :
    ((s.remove_course course).1 = true ↔ registered_course s course) ∧
    ((s.remove_course course).1 = false → (s.remove_course course).2 = s) ∧
    ((s.remove_course course).1 = true →
      ((s.remove_course course).2.course_at course).active = false ∧
      ¬ registered_course (s.remove_course course).2 course ∧
      ∀ active,
        ((s.remove_course course).2.add_course (s.course_at course).course_name active).1
          = true) := by
  refine ⟨remove_course_true_iff s course, ?_, ?_⟩
  · intro hf
    have hc : ¬ registered_course s course := by
      rw [← remove_course_true_iff, hf]; simp
    rw [remove_course_unregistered hc]
  · intro ht
    have hc := (remove_course_true_iff s course).mp ht
    have hafter := remove_course_after hs.wf.1 hc
    have hwf : CoursesWF (s.remove_course course).2 := CoursesWF_remove_course hs.wf.1 course
    exact ⟨hafter.1, hafter.2.1, fun active => (add_course_new hwf _ active hafter.2.2).1⟩

theorem remove_course_spec_witness :
    Reachable same_name_state ∧
    (same_name_state.remove_course 0).1 = false ∧
    (same_name_state.remove_course 0).2 = same_name_state ∧
    (same_name_state.remove_course 1).1 = true ∧
    ((same_name_state.remove_course 1).2.course_at 1).active = false ∧
    ¬ registered_course (same_name_state.remove_course 1).2 1 ∧
    ((same_name_state.remove_course 1).2.add_course "Math" true).1 = true :=
  ⟨same_name_state_reachable, by decide,
    (remove_course_spec same_name_state same_name_state_reachable 0).2.1 (by decide),
    (remove_course_spec same_name_state same_name_state_reachable 1).1.mpr (by decide),
    ((remove_course_spec same_name_state same_name_state_reachable 1).2.2 (by decide)).1,
    ((remove_course_spec same_name_state same_name_state_reachable 1).2.2 (by decide)).2.1,
    ((remove_course_spec same_name_state same_name_state_reachable 1).2.2 (by decide)).2.2 true⟩

/-! ## `add_person` -/

theorem glob_spec_nil (ts : List Char) : glob_spec [] ts = true ↔ ts = [] := by
  cases ts <;> simp [glob_spec]

theorem glob_spec_star_iff (ps ts : List Char) :
    glob_spec ('*' :: ps) ts = true ↔ ∃ rest, rest <:+ ts ∧ glob_spec ps rest = true := by
  simp [glob_spec, List.any_eq_true, List.mem_tails]

theorem glob_spec_star_cons (ps : List Char) (t : Char) (ts : List Char) :
    glob_spec ('*' :: ps) (t :: ts) = (glob_spec ps (t :: ts) || glob_spec ('*' :: ps) ts) := by
  simp [glob_spec, List.tails]

theorem glob_spec_star_nil (ps : List Char) :
    glob_spec ('*' :: ps) [] = glob_spec ps [] := by
  simp [glob_spec, List.tails]

theorem glob_spec_cons_cons {c : Char} (hc : c ≠ '*') (ps : List Char) (t : Char)
    (ts : List Char) :
    glob_spec (c :: ps) (t :: ts) = true ↔ (c = '?' ∨ t = c) ∧ glob_spec ps ts = true := by
  simp only [glob_spec, if_neg hc, Bool.and_eq_true, Bool.or_eq_true, decide_eq_true_eq]
  constructor
  · rintro ⟨h | h, h2⟩
    · exact ⟨Or.inl h, h2⟩
    · exact ⟨Or.inr h.symm, h2⟩
  · rintro ⟨h | h, h2⟩
    · exact ⟨Or.inl h, h2⟩
    · exact ⟨Or.inr h.symm, h2⟩

theorem glob_spec_cons_nil {c : Char} (hc : c ≠ '*') (ps : List Char) :
    glob_spec (c :: ps) [] = false := by
  simp [glob_spec, if_neg hc]

theorem glob_spec_text_nil (ps : List Char) :
    glob_spec ps [] = ps.all (fun ch => ch == '*') := by
  induction ps with
  | nil => rfl
  | cons c cs ih =>
    by_cases hc : c = '*'
    · subst hc
      rw [glob_spec_star_nil, ih]; simp
    · rw [glob_spec_cons_nil hc]
      simp [hc]

theorem glob_spec_star_of (ps ts : List Char) (h : glob_spec ps ts = true) :
    glob_spec ('*' :: ps) ts = true :=
  (glob_spec_star_iff ps ts).mpr ⟨ts, List.suffix_refl ts, h⟩

theorem glob_spec_star_mono (ps : List Char) {u v : List Char} (huv : u <:+ v)
    (h : glob_spec ('*' :: ps) u = true) : glob_spec ('*' :: ps) v = true := by
  obtain ⟨rest, hr, hm⟩ := (glob_spec_star_iff ps u).mp h
  exact (glob_spec_star_iff ps v).mpr ⟨rest, hr.trans huv, hm⟩

theorem glob_spec_segment {seg w : List Char} (h : List.Forall₂ char_match seg w)
    (ps ts : List Char) :
    glob_spec (seg ++ ps) (w ++ ts) = glob_spec ps ts := by
  induction h with
  | nil => rfl
  | cons hcx _ ih =>
    rw [Bool.eq_iff_iff, List.cons_append, List.cons_append, glob_spec_cons_cons hcx.1, ih]
    exact ⟨fun h => h.2, fun h => ⟨hcx.2, h⟩⟩

theorem glob_spec_split {seg : List Char} (hseg : ∀ c ∈ seg, c ≠ '*') (ps : List Char) :
    ∀ (v : List Char), glob_spec (seg ++ ps) v = true →
      ∃ v1 v2, v = v1 ++ v2 ∧ v1.length = seg.length ∧ glob_spec ps v2 = true := by
  induction seg with
  | nil => intro v h; exact ⟨[], v, rfl, rfl, h⟩
  | cons c cs ih =>
    intro v h
    have hc : c ≠ '*' := hseg c (List.mem_cons_self _ _)
    cases v with
    | nil => rw [List.cons_append, glob_spec_cons_nil hc] at h; cases h
    | cons x xs =>
      rw [List.cons_append, glob_spec_cons_cons hc] at h
      obtain ⟨v1, v2, e, hl, hm⟩ := ih (fun d hd => hseg d (List.mem_cons_of_mem _ hd)) xs h.2
      exact ⟨x :: v1, v2, by rw [e]; rfl, by simp [hl], hm⟩

theorem forall₂_char_match_no_star {seg w : List Char} (h : List.Forall₂ char_match seg w) :
    ∀ c ∈ seg, c ≠ '*' := by
  induction h with
  | nil => intro c hc; cases hc
  | cons hcx _ ih =>
    intro c hc
    rcases List.mem_cons.mp hc with rfl | hc
    · exact hcx.1
    · exact ih c hc

/-- Moving the checkpoint to a later star loses nothing: once the star-free
segment after the old star stands for the text since the old checkpoint, the old
star matches exactly when the new star matches from the current position. -/
theorem glob_spec_greedy {seg w : List Char} (h : List.Forall₂ char_match seg w)
    (ps ts : List Char) :
    glob_spec ('*' :: (seg ++ '*' :: ps)) (w ++ ts) = glob_spec ('*' :: ps) ts := by
  rw [Bool.eq_iff_iff]
  constructor
  · intro hm
    obtain ⟨v, hv, hmv⟩ := (glob_spec_star_iff _ _).mp hm
    obtain ⟨v1, v2, e, hl, hm2⟩ := glob_spec_split (forall₂_char_match_no_star h) _ v hmv
    have hv2 : v2 <:+ w ++ ts := (List.suffix_append v1 v2).trans (e ▸ hv)
    have hts : ts <:+ w ++ ts := List.suffix_append w ts
    have hlen : v2.length ≤ ts.length := by
      have h1 := hv.length_le
      have h2 := h.length_eq
      rw [e] at h1
      simp only [List.length_append] at h1
      omega
    exact glob_spec_star_mono ps (List.suffix_of_suffix_length_le hv2 hts hlen) hm2
  · intro hm
    apply glob_spec_star_of
    rw [glob_spec_segment h]
    exact hm

theorem glob_spec_iff_GlobMatch (ps ts : List Char) :
    glob_spec ps ts = true ↔ GlobMatch ps ts := by
  constructor
  · induction ps generalizing ts with
    | nil =>
      intro h
      rw [(glob_spec_nil ts).mp h]
      exact GlobMatch.nil
    | cons c cs ih =>
      intro h
      by_cases hc : c = '*'
      · subst hc
        obtain ⟨rest, ⟨w, hw⟩, hm⟩ := (glob_spec_star_iff cs ts).mp h
        rw [← hw]
        exact GlobMatch.star w cs rest (ih rest hm)
      · cases ts with
        | nil => rw [glob_spec_cons_nil hc] at h; cases h
        | cons x xs =>
          obtain ⟨h1, h2⟩ := (glob_spec_cons_cons hc cs x xs).mp h
          by_cases hq : c = '?'
          · subst hq
            exact GlobMatch.any x cs xs (ih xs h2)
          · rcases h1 with h1 | h1
            · exact absurd h1 hq
            · subst h1
              exact GlobMatch.lit x cs xs hc hq (ih xs h2)
  · intro h
    induction h with
    | nil => rfl
    | star w ps ts _ ih =>
      exact (glob_spec_star_iff ps (w ++ ts)).mpr ⟨ts, List.suffix_append w ts, ih⟩
    | any x ps ts _ ih =>
      exact (glob_spec_cons_cons (by decide) ps x ts).mpr ⟨Or.inl rfl, ih⟩
    | lit c ps ts hc _ _ ih =>
      exact (glob_spec_cons_cons hc ps c ts).mpr ⟨Or.inr rfl, ih⟩

/-! ## The loop of the matcher computes the glob semantics -/

theorem drop_eq_char_at_cons {l : List Char} {i : Nat} (h : i < l.length) :
    l.drop i = char_at l i :: l.drop (i + 1) := by
  rw [List.drop_eq_getElem_cons h]
  simp [char_at, List.getD_eq_getElem?_getD, List.getElem?_eq_getElem h]

theorem char_at_mem {l : List Char} {i : Nat} (h : i < l.length) : char_at l i ∈ l := by
  simp only [char_at, List.getD_eq_getElem?_getD, List.getElem?_eq_getElem h, Option.getD_some]
  exact List.getElem_mem h

theorem glob_spec_mismatch {str pattern : List Char} {i j : Nat} (hi : i < str.length)
    (h1 : ¬ (j < pattern.length ∧
      (char_at pattern j = '?' ∨ char_at str i = char_at pattern j)))
    (h2 : ¬ (j < pattern.length ∧ char_at pattern j = '*')) :
    glob_spec (pattern.drop j) (str.drop i) = false := by
  rw [drop_eq_char_at_cons hi]
  by_cases hj : j < pattern.length
  · rw [drop_eq_char_at_cons hj, ← Bool.not_eq_true,
      glob_spec_cons_cons (fun e => h2 ⟨hj, e⟩)]
    exact fun h => h1 ⟨hj, h.1⟩
  · rw [List.drop_eq_nil_of_le (Nat.le_of_not_lt hj)]
    rfl

/-- A pattern without a star never makes the loop touch its `int` variables:
whatever the lengths, the loop ends within `str.length - str_idx + 1`
iterations and decides the glob semantics. -/
theorem match_loop_plain (str pattern : List Char) (hstar : '*' ∉ pattern) :
    ∀ (fuel : Nat) (st : MatchState), st.last_wildcard = -1 →
      str.length - st.str_idx < fuel →
      match_loop str pattern fuel st =
        some (glob_spec (pattern.drop st.ptrn_idx) (str.drop st.str_idx)) := by
  intro fuel
  induction fuel with
  | zero => intro st _ h; exact absurd h (Nat.not_lt_zero _)
  | succ fuel ih =>
    intro st hlw hf
    unfold match_loop
    by_cases h0 : st.str_idx < str.length
    swap
    · rw [if_neg h0, List.drop_eq_nil_of_le (Nat.le_of_not_lt h0), glob_spec_text_nil]
      rfl
    rw [if_pos h0]
    by_cases h1 : st.ptrn_idx < pattern.length ∧
        (char_at pattern st.ptrn_idx = '?' ∨
          char_at str st.str_idx = char_at pattern st.ptrn_idx)
    · rw [if_pos h1,
        ih { st with str_idx := st.str_idx + 1, ptrn_idx := st.ptrn_idx + 1 } hlw
          (by show str.length - (st.str_idx + 1) < fuel; omega)]
      have hcm : char_match (char_at pattern st.ptrn_idx) (char_at str st.str_idx) :=
        ⟨fun e => hstar (e ▸ char_at_mem h1.1), h1.2⟩
      show some (glob_spec (pattern.drop (st.ptrn_idx + 1)) (str.drop (st.str_idx + 1))) = _
      rw [drop_eq_char_at_cons h1.1, drop_eq_char_at_cons h0]
      exact congrArg some (glob_spec_segment (List.Forall₂.cons hcm List.Forall₂.nil) _ _).symm
    rw [if_neg h1]
    by_cases h2 : st.ptrn_idx < pattern.length ∧ char_at pattern st.ptrn_idx = '*'
    · exact absurd (h2.2 ▸ char_at_mem h2.1) hstar
    rw [if_neg h2, if_pos hlw, glob_spec_mismatch h0 h1 h2]

/-- For a text without a star and strings shorter than `2^31` characters, where
the conversions between `std::size_t` and `int` keep every value, a run of the
loop that ends returns `match_value`. -/
theorem match_loop_value (str pattern : List Char) (hstar : '*' ∉ str)
    (hsl : str.length < 2 ^ 31) (hpl : pattern.length < 2 ^ 31) :
    ∀ (fuel : Nat) (st : MatchState) (r : Bool), MatchInv str pattern st →
      match_loop str pattern fuel st = some r → r = match_value str pattern st := by
  intro fuel
  induction fuel with
  | zero => intro st r _ h; simp [match_loop] at h
  | succ fuel ih =>
    intro st r hinv hr
    unfold match_loop at hr
    by_cases h0 : st.str_idx < str.length
    swap
    · -- the text is used up: the final `for` loop decides
      rw [if_neg h0] at hr
      have hr' : r = only_stars_from pattern st.ptrn_idx := (Option.some.inj hr).symm
      have hnil : str.drop st.str_idx = [] := List.drop_eq_nil_of_le (Nat.le_of_not_lt h0)
      rw [hr']
      unfold match_value only_stars_from
      by_cases hlw : st.last_wildcard = -1
      · rw [if_pos hlw, hnil, glob_spec_text_nil]
      · rw [if_neg hlw]
        obtain ⟨nw, b, seg, w, e1, e2, _, e3, e4, hseg⟩ := hinv hlw
        rw [e1, e2, Int.toNat_ofNat, Int.toNat_ofNat, e3, e4, hnil, ← glob_spec_text_nil,
          Bool.eq_iff_iff]
        constructor
        · intro hm
          apply glob_spec_star_of
          rw [glob_spec_segment hseg]
          exact hm
        · intro hm
          rw [List.append_nil] at hm
          obtain ⟨v, hv, hmv⟩ := (glob_spec_star_iff _ _).mp hm
          obtain ⟨v1, v2, e, hl, hm2⟩ :=
            glob_spec_split (forall₂_char_match_no_star hseg) _ v hmv
          have h1 := hv.length_le
          have h2 := hseg.length_eq
          rw [e, List.length_append] at h1
          have hv2 : v2 = [] := List.length_eq_zero.mp (by omega)
          rw [hv2] at hm2
          exact hm2
    rw [if_pos h0] at hr
    by_cases h1 : st.ptrn_idx < pattern.length ∧
        (char_at pattern st.ptrn_idx = '?' ∨
          char_at str st.str_idx = char_at pattern st.ptrn_idx)
    · -- the characters match: both indices advance
      rw [if_pos h1] at hr
      have hcm : char_match (char_at pattern st.ptrn_idx) (char_at str st.str_idx) := by
        refine ⟨?_, h1.2⟩
        rcases h1.2 with hq | he
        · rw [hq]; decide
        · intro e
          exact hstar (by rw [← e, ← he]; exact char_at_mem h0)
      have hinv' : MatchInv str pattern
          { st with str_idx := st.str_idx + 1, ptrn_idx := st.ptrn_idx + 1 } := by
        intro hlw
        obtain ⟨nw, b, seg, w, e1, e2, hnw, e3, e4, hseg⟩ := hinv hlw
        refine ⟨nw, b, seg ++ [char_at pattern st.ptrn_idx], w ++ [char_at str st.str_idx],
          e1, e2, hnw, ?_, ?_, ?_⟩
        · show pattern.drop nw = _ ++ pattern.drop (st.ptrn_idx + 1)
          rw [e3, drop_eq_char_at_cons h1.1]; simp
        · show str.drop b = _ ++ str.drop (st.str_idx + 1)
          rw [e4, drop_eq_char_at_cons h0]; simp
        · exact List.rel_append hseg (List.Forall₂.cons hcm List.Forall₂.nil)
      rw [ih _ r hinv' hr]
      unfold match_value
      by_cases hlw : st.last_wildcard = -1
      · simp only [hlw, if_true]
        rw [drop_eq_char_at_cons h1.1, drop_eq_char_at_cons h0]
        exact (glob_spec_segment (List.Forall₂.cons hcm List.Forall₂.nil) _ _).symm
      · simp only [hlw, if_false]
    rw [if_neg h1] at hr
    by_cases h2 : st.ptrn_idx < pattern.length ∧ char_at pattern st.ptrn_idx = '*'
    · -- a star in the pattern: new checkpoint
      rw [if_pos h2] at hr
      have c1 : to_int st.ptrn_idx = (st.ptrn_idx : Int) := to_int_of_lt (by omega)
      have c2 : to_int (st.ptrn_idx + 1) = ((st.ptrn_idx + 1 : Nat) : Int) :=
        to_int_of_lt (by omega)
      have c3 : to_int st.str_idx = (st.str_idx : Int) := to_int_of_lt (by omega)
      rw [c1, c2, c3] at hr
      have hinv' : MatchInv str pattern
          { st with last_wildcard := (st.ptrn_idx : Int),
                    next_wildcard := ((st.ptrn_idx + 1 : Nat) : Int),
                    ptrn_idx := st.ptrn_idx + 1,
                    backtrack_idx := (st.str_idx : Int) } := by
        intro _
        exact ⟨st.ptrn_idx + 1, st.str_idx, [], [], rfl, rfl, h2.1, rfl, rfl,
          List.Forall₂.nil⟩
      rw [ih _ r hinv' hr]
      have hne : ((st.ptrn_idx : Nat) : Int) ≠ -1 := by omega
      have hval : match_value str pattern
          { st with last_wildcard := (st.ptrn_idx : Int),
                    next_wildcard := ((st.ptrn_idx + 1 : Nat) : Int),
                    ptrn_idx := st.ptrn_idx + 1,
                    backtrack_idx := (st.str_idx : Int) } =
          glob_spec ('*' :: pattern.drop (st.ptrn_idx + 1)) (str.drop st.str_idx) := by
        unfold match_value
        simp only [hne, if_false]
        rw [Int.toNat_ofNat, Int.toNat_ofNat]
      rw [hval]
      unfold match_value
      by_cases hlw : st.last_wildcard = -1
      · rw [if_pos hlw, drop_eq_char_at_cons h2.1, h2.2]
      · rw [if_neg hlw]
        obtain ⟨nw, b, seg, w, e1, e2, _, e3, e4, hseg⟩ := hinv hlw
        rw [e1, e2, Int.toNat_ofNat, Int.toNat_ofNat, e3, e4, drop_eq_char_at_cons h2.1, h2.2]
        exact (glob_spec_greedy hseg _ _).symm
    rw [if_neg h2] at hr
    have hmis := glob_spec_mismatch h0 h1 h2
    by_cases hlw : st.last_wildcard = -1
    · -- mismatch without a checkpoint
      rw [if_pos hlw] at hr
      rw [← Option.some.inj hr]
      unfold match_value
      rw [if_pos hlw, hmis]
    · -- mismatch with a checkpoint: the star takes one more character
      rw [if_neg hlw] at hr
      obtain ⟨nw, b, seg, w, e1, e2, hnw, e3, e4, hseg⟩ := hinv hlw
      have hb : b < str.length := by
        by_contra hge
        have := List.drop_eq_nil_of_le (Nat.le_of_not_lt hge)
        rw [this, drop_eq_char_at_cons h0] at e4
        have := congrArg List.length e4
        simp at this
        omega
      have c1 : to_size_t st.next_wildcard = nw := by
        rw [e1, to_size_t_of_nonneg (by omega) (by omega), Int.toNat_ofNat]
      have c2 : int_succ st.backtrack_idx = ((b + 1 : Nat) : Int) := by
        rw [e2, int_succ_of_lt (by omega) (by omega)]; push_cast; rfl
      have c3 : to_size_t ((b + 1 : Nat) : Int) = b + 1 := by
        rw [to_size_t_of_nonneg (by omega) (by omega), Int.toNat_ofNat]
      rw [c1, c2, c3] at hr
      have hinv' : MatchInv str pattern
          { st with ptrn_idx := nw,
                    backtrack_idx := ((b + 1 : Nat) : Int),
                    str_idx := b + 1 } := by
        intro _
        exact ⟨nw, b + 1, [], [], e1, rfl, hnw, rfl, rfl, List.Forall₂.nil⟩
      rw [ih _ r hinv' hr]
      unfold match_value
      simp only [hlw, if_false]
      rw [e1, e2, Int.toNat_ofNat, Int.toNat_ofNat, Int.toNat_ofNat]
      rw [drop_eq_char_at_cons hb, glob_spec_star_cons, ← drop_eq_char_at_cons hb]
      have hfalse : glob_spec (pattern.drop nw) (str.drop b) = false := by
        rw [e3, e4, glob_spec_segment hseg]
        exact hmis
      rw [hfalse, Bool.false_or]

theorem match_fuel_gt (str pattern : List Char) : str.length < match_fuel str pattern := by
  unfold match_fuel
  have : str.length + 2 ≤ (str.length + 2) * (str.length + pattern.length + 1) :=
    Nat.le_mul_of_pos_right _ (Nat.succ_pos _)
  omega

/-- Whenever the pattern is free of stars, or the text is free of stars and both
strings are shorter than `2^31` characters, `satisfies_pattern` decides the glob
semantics. -/
theorem satisfies_pattern_eq_glob (str pattern : String)
    (h : '*' ∉ pattern.data ∨
      ('*' ∉ str.data ∧ str.data.length < 2 ^ 31 ∧ pattern.data.length < 2 ^ 31)) :
    satisfies_pattern str pattern = glob_spec pattern.data str.data := by
  rcases h with hp | ⟨hs, hsl, hpl⟩
  · have := match_loop_plain str.data pattern.data hp (match_fuel str.data pattern.data)
      match_init rfl (by
        show str.data.length - 0 < _
        exact match_fuel_gt _ _)
    unfold satisfies_pattern
    rw [this]
    rfl
  · have h := match_loop_value str.data pattern.data hs hsl hpl _ match_init
      (satisfies_pattern str pattern) (fun h => absurd rfl h)
      (satisfies_pattern_eq str pattern hsl)
    rw [h]
    rfl

theorem glob_spec_self {s : List Char} (h : '*' ∉ s) : glob_spec s s = true := by
  have hseg : List.Forall₂ char_match s s := by
    induction s with
    | nil => exact List.Forall₂.nil
    | cons c cs ih =>
      refine List.Forall₂.cons ⟨?_, Or.inr rfl⟩ (ih (fun hm => h (List.mem_cons_of_mem _ hm)))
      intro e
      exact h (e ▸ List.mem_cons_self _ _)
  have := glob_spec_segment hseg [] []
  rw [List.append_nil] at this
  rw [this]
  rfl

theorem glob_spec_question_marks (n : Nat) :
    ∀ text : List Char, glob_spec (List.replicate n '?') text = true ↔ text.length = n := by
  induction n with
  | zero =>
    intro text
    rw [List.replicate_zero, glob_spec_nil, List.length_eq_zero]
  | succ n ih =>
    intro text
    rw [List.replicate_succ]
    cases text with
    | nil =>
      rw [glob_spec_cons_nil (by decide)]
      simp
    | cons x xs =>
      rw [glob_spec_cons_cons (by decide), ih xs]
      simp

/-- C15: for every string `s` that contains neither a question mark nor a star,
the empty string included, `satisfies_pattern(s, s)` is true. -/
theorem satisfies_pattern_self (s : String) (_hq : '?' ∉ s.data) (hs : '*' ∉ s.data) :
    satisfies_pattern s s = true := by
  rw [satisfies_pattern_eq_glob s s (Or.inl hs)]
  exact glob_spec_self hs

theorem satisfies_pattern_self_witness :
    '?' ∉ "Algebra".data ∧ '*' ∉ "Algebra".data ∧ satisfies_pattern "Algebra" "Algebra" = true ∧
    satisfies_pattern "" "" = true :=
  ⟨by decide, by decide, satisfies_pattern_self "Algebra" (by decide) (by decide),
    satisfies_pattern_self "" (by decide) (by decide)⟩

/-- C16: the pattern of exactly `n` question marks matches a text exactly when
the text has `n` characters; so the empty pattern matches only the empty text,
and `satisfies_pattern("", "?")` is false. -/
theorem satisfies_pattern_question_marks (n : Nat) (text : String) :
    (satisfies_pattern text (String.mk (List.replicate n '?')) = true ↔ text.length = n) ∧
    (satisfies_pattern text "" = true ↔ text = "") ∧
    satisfies_pattern "" "?" = false := by
  have hno : ∀ m, '*' ∉ (String.mk (List.replicate m '?')).data := by
    intro m hm
    have := List.eq_of_mem_replicate hm
    revert this
    decide
  refine ⟨?_, ?_, by decide⟩
  · rw [satisfies_pattern_eq_glob _ _ (Or.inl (hno n))]
    exact glob_spec_question_marks n text.data
  · have h0 := hno 0
    rw [satisfies_pattern_eq_glob text "" (Or.inl h0)]
    show glob_spec [] text.data = true ↔ _
    rw [glob_spec_nil]
    constructor
    · intro h; exact String.ext h
    · intro h; rw [h]

/-! ## The single checkpoint: agreement below `2^31` characters, failure above -/

/-- For every text without a star and shorter than `2^31` characters and every
pattern shorter than `2^31` characters, the loop of `satisfies_pattern` with its
single checkpoint returns what the glob semantics says. -/
theorem satisfies_pattern_refines_glob_bounded (str pattern : String) (h : '*' ∉ str.data)
    (hsl : str.length < 2 ^ 31) (hpl : pattern.length < 2 ^ 31) :
    satisfies_pattern str pattern = glob_spec pattern.data str.data ∧
    (satisfies_pattern str pattern = true ↔ GlobMatch pattern.data str.data) := by
  have := satisfies_pattern_eq_glob str pattern (Or.inr ⟨h, hsl, hpl⟩)
  exact ⟨this, by rw [this]; exact glob_spec_iff_GlobMatch _ _⟩

theorem satisfies_pattern_refines_glob_bounded_witness :
    '*' ∉ "biology".data ∧ "biology".length < 2 ^ 31 ∧ "*o?y".length < 2 ^ 31 ∧
    (satisfies_pattern "biology" "*o?y" = glob_spec "*o?y".data "biology".data ∧
    (satisfies_pattern "biology" "*o?y" = true ↔ GlobMatch "*o?y".data "biology".data)) :=
  ⟨by decide, by decide, by decide,
    satisfies_pattern_refines_glob_bounded "biology" "*o?y" (by decide) (by decide) (by decide)⟩

theorem match_loop_succ (str pattern : List Char) (fuel : Nat) (st : MatchState) :
    match_loop str pattern (fuel + 1) st =
      if st.str_idx < str.length then
        if st.ptrn_idx < pattern.length ∧
            (char_at pattern st.ptrn_idx = '?' ∨
              char_at str st.str_idx = char_at pattern st.ptrn_idx) then
          match_loop str pattern fuel
            { st with str_idx := st.str_idx + 1, ptrn_idx := st.ptrn_idx + 1 }
        else if st.ptrn_idx < pattern.length ∧ char_at pattern st.ptrn_idx = '*' then
          match_loop str pattern fuel
            { st with last_wildcard := to_int st.ptrn_idx,
                      next_wildcard := to_int (st.ptrn_idx + 1),
                      ptrn_idx := st.ptrn_idx + 1,
                      backtrack_idx := to_int st.str_idx }
        else if st.last_wildcard = -1 then
          some false
        else
          match_loop str pattern fuel
            { st with ptrn_idx := to_size_t st.next_wildcard,
                      backtrack_idx := int_succ st.backtrack_idx,
                      str_idx := to_size_t (int_succ st.backtrack_idx) }
      else
        some (only_stars_from pattern st.ptrn_idx) := by
  rw [match_loop]

/-- While text and pattern agree character by character the loop only advances
its two indices. -/
theorem match_loop_scan (str pattern : List Char) :
    ∀ (n fuel : Nat) (st : MatchState),
      (∀ k, k < n → st.ptrn_idx + k < pattern.length ∧ st.str_idx + k < str.length ∧
        char_at str (st.str_idx + k) = char_at pattern (st.ptrn_idx + k)) →
      match_loop str pattern (fuel + n) st =
        match_loop str pattern fuel
          { st with str_idx := st.str_idx + n, ptrn_idx := st.ptrn_idx + n } := by
  intro n
  induction n with
  | zero => intro fuel st _; rfl
  | succ n ih =>
    intro fuel st h
    have h0 := h 0 (Nat.succ_pos n)
    simp only [Nat.add_zero] at h0
    rw [show fuel + (n + 1) = (fuel + n) + 1 from rfl, match_loop_succ,
      if_pos h0.2.1, if_pos ⟨h0.1, Or.inr h0.2.2⟩,
      ih fuel { st with str_idx := st.str_idx + 1, ptrn_idx := st.ptrn_idx + 1 }]
    · show match_loop str pattern fuel
        { st with str_idx := st.str_idx + 1 + n, ptrn_idx := st.ptrn_idx + 1 + n } = _
      rw [Nat.add_assoc, Nat.add_assoc, Nat.add_comm 1 n]
    · intro k hk
      have := h (k + 1) (Nat.succ_lt_succ hk)
      show st.ptrn_idx + 1 + k < pattern.length ∧ st.str_idx + 1 + k < str.length ∧
        char_at str (st.str_idx + 1 + k) = char_at pattern (st.ptrn_idx + 1 + k)
      rw [Nat.add_assoc, Nat.add_assoc, Nat.add_comm 1 k]
      exact this

theorem char_at_replicate_append (n : Nat) (c : Char) (l : List Char) {k : Nat} (h : k < n) :
    char_at (List.replicate n c ++ l) k = c := by
  unfold char_at
  rw [List.getD_append _ _ _ _ (by rw [List.length_replicate]; exact h),
    List.getD_eq_getElem _ _ (by rw [List.length_replicate]; exact h), List.getElem_replicate]

theorem char_at_append_replicate (n : Nat) (c : Char) (l : List Char) (m : Nat) :
    char_at (List.replicate n c ++ l) (n + m) = char_at l m := by
  unfold char_at
  rw [List.getD_append_right _ _ _ _ (by rw [List.length_replicate]; omega),
    List.length_replicate, Nat.add_sub_cancel_left]

theorem forall₂_char_match_replicate (n : Nat) :
    List.Forall₂ char_match (List.replicate n 'a') (List.replicate n 'a') := by
  induction n with
  | zero => exact List.Forall₂.nil
  | succ n ih =>
    rw [List.replicate_succ]
    exact List.Forall₂.cons ⟨by decide, Or.inr rfl⟩ ih

theorem glob_spec_long (n : Nat) :
    glob_spec (long_pattern n).data (long_text n).data = false := by
  show glob_spec (List.replicate n 'a' ++ ['*', 'c']) (List.replicate n 'a' ++ ['b', 'd']) = false
  rw [glob_spec_segment (forall₂_char_match_replicate n)]
  decide

theorem long_text_no_star (n : Nat) : '*' ∉ (long_text n).data := by
  show '*' ∉ List.replicate n 'a' ++ ['b', 'd']
  intro h
  rcases List.mem_append.mp h with h | h
  · have := List.eq_of_mem_replicate h
    revert this; decide
  · revert h; decide

theorem match_loop_star_step (str pattern : List Char) (fuel : Nat) (st : MatchState)
    (h0 : st.str_idx < str.length)
    (h1 : ¬ (st.ptrn_idx < pattern.length ∧
      (char_at pattern st.ptrn_idx = '?' ∨
        char_at str st.str_idx = char_at pattern st.ptrn_idx)))
    (h2 : st.ptrn_idx < pattern.length ∧ char_at pattern st.ptrn_idx = '*') :
    match_loop str pattern (fuel + 1) st =
      match_loop str pattern fuel
        { st with last_wildcard := to_int st.ptrn_idx,
                  next_wildcard := to_int (st.ptrn_idx + 1),
                  ptrn_idx := st.ptrn_idx + 1,
                  backtrack_idx := to_int st.str_idx } := by
  rw [match_loop_succ, if_pos h0, if_neg h1, if_pos h2]

theorem match_loop_backtrack_step (str pattern : List Char) (fuel : Nat) (st : MatchState)
    (h0 : st.str_idx < str.length)
    (h1 : ¬ (st.ptrn_idx < pattern.length ∧
      (char_at pattern st.ptrn_idx = '?' ∨
        char_at str st.str_idx = char_at pattern st.ptrn_idx)))
    (h2 : ¬ (st.ptrn_idx < pattern.length ∧ char_at pattern st.ptrn_idx = '*'))
    (h3 : st.last_wildcard ≠ -1) :
    match_loop str pattern (fuel + 1) st =
      match_loop str pattern fuel
        { st with ptrn_idx := to_size_t st.next_wildcard,
                  backtrack_idx := int_succ st.backtrack_idx,
                  str_idx := to_size_t (int_succ st.backtrack_idx) } := by
  rw [match_loop_succ, if_pos h0, if_neg h1, if_neg h2, if_neg h3]

theorem match_loop_end_step (str pattern : List Char) (fuel i j : Nat) (lw bt nw : Int)
    (h0 : ¬ i < str.length) :
    match_loop str pattern (fuel + 1)
      { str_idx := i, ptrn_idx := j, last_wildcard := lw, backtrack_idx := bt,
        next_wildcard := nw } = some (only_stars_from pattern j) := by
  rw [match_loop_succ]
  exact if_neg h0

theorem long_text_length (n : Nat) : (long_text n).data.length = n + 2 := by
  show (List.replicate n 'a' ++ ['b', 'd']).length = n + 2
  rw [List.length_append, List.length_replicate]; rfl

theorem long_pattern_length (n : Nat) : (long_pattern n).data.length = n + 2 := by
  show (List.replicate n 'a' ++ ['*', 'c']).length = n + 2
  rw [List.length_append, List.length_replicate]; rfl

/-- The run of the loop on `long_text n` and `long_pattern n` after the common
letters: the star sets the checkpoint, the mismatch of `b` and `c` backtracks
through the `int` variables, and the converted indices decide the result. -/
theorem match_loop_long_tail (n g : Nat) (h1 : to_int n ≠ -1)
    (h2 : n + 2 ≤ to_size_t (int_succ (to_int n)))
    (h3 : n + 2 ≤ to_size_t (to_int (n + 1))) :
    match_loop (long_text n).data (long_pattern n).data (g + 3)
      { str_idx := n, ptrn_idx := n, last_wildcard := -1, backtrack_idx := -1,
        next_wildcard := -1 } = some true := by
  have lt := long_text_length n
  have lp := long_pattern_length n
  have ct : char_at (long_text n).data n = 'b' :=
    char_at_append_replicate n 'a' ['b', 'd'] 0
  have cp : char_at (long_pattern n).data n = '*' :=
    char_at_append_replicate n 'a' ['*', 'c'] 0
  have cp1 : char_at (long_pattern n).data (n + 1) = 'c' :=
    char_at_append_replicate n 'a' ['*', 'c'] 1
  have hn : n < (long_text n).data.length := by rw [lt]; omega
  have hp : n < (long_pattern n).data.length := by rw [lp]; omega
  -- first iteration: the star of the pattern
  have s1 : ¬ (n < (long_pattern n).data.length ∧
      (char_at (long_pattern n).data n = '?' ∨
        char_at (long_text n).data n = char_at (long_pattern n).data n)) := by
    rw [cp, ct]
    exact fun h => absurd h.2 (by decide)
  -- second iteration: the letter `b` of the text against the letter `c` of the pattern
  have s2 : ¬ (n + 1 < (long_pattern n).data.length ∧
      (char_at (long_pattern n).data (n + 1) = '?' ∨
        char_at (long_text n).data n = char_at (long_pattern n).data (n + 1))) := by
    rw [cp1, ct]
    exact fun h => absurd h.2 (by decide)
  have s3 : ¬ (n + 1 < (long_pattern n).data.length ∧
      char_at (long_pattern n).data (n + 1) = '*') := by
    rw [cp1]
    exact fun h => absurd h.2 (by decide)
  -- third iteration: the converted index is beyond the text
  have s4 : ¬ (to_size_t (int_succ (to_int n)) < (long_text n).data.length) := by
    rw [lt]; exact Nat.not_lt.mpr h2
  rw [show g + 3 = (g + 2) + 1 from rfl,
    match_loop_star_step (long_text n).data (long_pattern n).data (g + 2)
      { str_idx := n, ptrn_idx := n, last_wildcard := -1, backtrack_idx := -1,
        next_wildcard := -1 } hn s1 ⟨hp, cp⟩,
    show g + 2 = (g + 1) + 1 from rfl,
    match_loop_backtrack_step (long_text n).data (long_pattern n).data (g + 1)
      { str_idx := n, ptrn_idx := n + 1, last_wildcard := to_int n,
        backtrack_idx := to_int n, next_wildcard := to_int (n + 1) } hn s2 s3 h1,
    match_loop_end_step (long_text n).data (long_pattern n).data g
      (to_size_t (int_succ (to_int n))) (to_size_t (to_int (n + 1))) (to_int n)
      (int_succ (to_int n)) (to_int (n + 1)) s4]
  unfold only_stars_from
  rw [List.drop_eq_nil_of_le (by rw [lp]; exact h3)]
  rfl

/-- Whenever the index `n` of the star does not survive the conversions to `int`
and back, `satisfies_pattern` accepts `long_text n` for `long_pattern n`. -/
theorem satisfies_pattern_long (n : Nat) (h1 : to_int n ≠ -1)
    (h2 : n + 2 ≤ to_size_t (int_succ (to_int n)))
    (h3 : n + 2 ≤ to_size_t (to_int (n + 1))) :
    satisfies_pattern (long_text n) (long_pattern n) = true := by
  have lt := long_text_length n
  have lp := long_pattern_length n
  have hfuel : ∃ g, match_fuel (long_text n).data (long_pattern n).data = (g + 3) + n := by
    refine ⟨match_fuel (long_text n).data (long_pattern n).data - (n + 3), ?_⟩
    have : n + 3 ≤ match_fuel (long_text n).data (long_pattern n).data := by
      unfold match_fuel
      rw [lt, lp]
      calc n + 3 ≤ (n + 2 + 2) * 1 := by omega
        _ ≤ (n + 2 + 2) * (n + 2 + (n + 2) + 1) := Nat.mul_le_mul_left _ (by omega)
    omega
  obtain ⟨g, hgf⟩ := hfuel
  unfold satisfies_pattern
  rw [hgf]
  unfold match_init
  rw [match_loop_scan _ _ n (g + 3)]
  · show (match_loop (long_text n).data (long_pattern n).data (g + 3)
      { str_idx := 0 + n, ptrn_idx := 0 + n, last_wildcard := -1,
        backtrack_idx := -1, next_wildcard := -1 }).getD false = true
    rw [Nat.zero_add, match_loop_long_tail n g h1 h2 h3]
    rfl
  · intro k hk
    show 0 + k < (long_pattern n).data.length ∧ 0 + k < (long_text n).data.length ∧
      char_at (long_text n).data (0 + k) = char_at (long_pattern n).data (0 + k)
    rw [Nat.zero_add, lt, lp]
    refine ⟨by omega, by omega, ?_⟩
    rw [show (long_text n).data = List.replicate n 'a' ++ ['b', 'd'] from rfl,
      show (long_pattern n).data = List.replicate n 'a' ++ ['*', 'c'] from rfl,
      char_at_replicate_append _ _ _ hk, char_at_replicate_append _ _ _ hk]

theorem not_GlobMatch_long (n : Nat) :
    ¬ GlobMatch (long_pattern n).data (long_text n).data := by
  rw [← glob_spec_iff_GlobMatch, glob_spec_long n]
  exact Bool.false_ne_true

/-- C20: the checkpoint variables of `satisfies_pattern` are `int`s. On the text
of `2^31` letters `a` followed by `bd`, which contains no star, and the pattern
of `2^31` letters `a` followed by `*c`, the index stored at the star is
converted to a negative `int`, the backtracking step converts it back to an
index beyond both strings, and the function returns true, while the glob
semantics rejects the text (it does not end in `c`).  The last four parts are
the values that the variables take on the way. -/
theorem satisfies_pattern_int_overflow :
    int_limit = 2 ^ 31 ∧
    '*' ∉ (long_text int_limit).data ∧
    (long_text int_limit).data.length = int_limit + 2 ∧
    (long_pattern int_limit).data.length = int_limit + 2 ∧
    glob_spec (long_pattern int_limit).data (long_text int_limit).data = false ∧
    ¬ GlobMatch (long_pattern int_limit).data (long_text int_limit).data ∧
    satisfies_pattern (long_text int_limit) (long_pattern int_limit) = true ∧
    to_int int_limit = -2147483648 ∧
    to_int (int_limit + 1) = -2147483647 ∧
    int_succ (to_int int_limit) = -2147483647 ∧
    to_size_t (-2147483647) = 18446744071562067969 :=
  ⟨rfl, long_text_no_star int_limit, long_text_length int_limit,
    long_pattern_length int_limit, glob_spec_long int_limit, not_GlobMatch_long int_limit,
    satisfies_pattern_long int_limit (by decide) (by decide) (by decide),
    by decide, by decide, by decide, by decide⟩

/-! ## The parallel course sets agree -/

theorem getD_append_singleton (l : List Person) (obj : Person) (p : Nat) :
    (l ++ [obj]).getD p default =
      if p < l.length then l.getD p default else if p = l.length then obj else default := by
  simp only [List.getD_eq_getElem?_getD]
  by_cases h1 : p < l.length
  · rw [if_pos h1, List.getElem?_append_left h1]
  · rw [if_neg h1]
    by_cases h2 : p = l.length
    · subst h2; simp
    · rw [if_neg h2, List.getElem?_eq_none]
      · rfl
      · simp only [List.length_append, List.length_singleton]; omega

theorem RolesWF_empty : RolesWF College.empty where
  student := by intro p st h; simp [person_at, College.empty] at h
  teacher := by intro p t h; simp [person_at, College.empty] at h

theorem RolesWF.of_people_eq_roles {s s1 : College} (h : RolesWF s)
    (hp : s1.people = s.people) : RolesWF s1 where
  student := by
    intro p st hst
    exact h.student p st (by simpa [person_at, hp] using hst)
  teacher := by
    intro p t ht
    exact h.teacher p t (by simpa [person_at, hp] using ht)

theorem RolesWF_emplace_person {s : College} (h : RolesWF s) (T : PersonKind)
    (name surname : String) (active : Bool) :
    RolesWF (emplace_person s name surname (make_person T name surname active)) where
  student := by
    intro p st hst
    change ((s.people ++ [_]).getD p default).student = some st at hst
    rw [getD_append_singleton] at hst
    split_ifs at hst with h1 h2
    · exact h.student p st hst
    · cases T <;> simp [make_person] at hst <;> subst hst <;> rfl
  teacher := by
    intro p t ht
    change ((s.people ++ [_]).getD p default).teacher = some t at ht
    rw [getD_append_singleton] at ht
    split_ifs at ht with h1 h2
    · exact h.teacher p t ht
    · cases T <;> simp [make_person] at ht <;> subst ht <;> rfl

theorem RolesWF_add_person {s : College} (h : RolesWF s) (T : PersonKind)
    (name surname : String) (active : Bool) :
    RolesWF (s.add_person T name surname active).2 := by
  rw [add_person_eq]
  by_cases hc : set_contains pair_lt (name, surname) s.people_names = false
  · rw [if_pos hc]; exact RolesWF_emplace_person h T name surname active
  · rw [if_neg hc]; exact h

theorem RolesWF_change_student_activeness {s : College} (h : RolesWF s) (student : Nat)
    (active : Bool) : RolesWF (s.change_student_activeness student active).2 := by
  unfold change_student_activeness
  by_cases hc : set_contains ptr_lt student s.person_set = true
  swap
  · rw [if_neg hc]; exact h
  rw [if_pos hc]
  constructor
  · intro p st hst
    change ((set_student_active s.people student active).getD p default).student = some st at hst
    rw [getD_set_student_active] at hst
    by_cases hif : student = p ∧ p < s.people.length
    · rw [if_pos hif] at hst
      simp only [Option.map_eq_some'] at hst
      obtain ⟨st0, h0, rfl⟩ := hst
      exact h.student p st0 h0
    · rw [if_neg hif] at hst
      exact h.student p st hst
  · intro p t ht
    change ((set_student_active s.people student active).getD p default).teacher = some t at ht
    rw [getD_set_student_active] at ht
    by_cases hif : student = p ∧ p < s.people.length
    · rw [if_pos hif] at ht
      exact h.teacher p t ht
    · rw [if_neg hif] at ht
      exact h.teacher p t ht

theorem RolesWF_set {s : College} (h : RolesWF s) (person : Nat) (obj : Person)
    (hs : ∀ st, obj.student = some st → st.subjects_I_attend_const = st.subjects_I_attend)
    (ht : ∀ t, obj.teacher = some t → t.subjects_I_handle_const = t.subjects_I_handle) :
    RolesWF { s with people := s.people.set person obj } where
  student := by
    intro p st hst
    change ((s.people.set person obj).getD p default).student = some st at hst
    rw [getD_set] at hst
    by_cases hif : person = p ∧ p < s.people.length
    · rw [if_pos hif] at hst; exact hs st hst
    · rw [if_neg hif] at hst; exact h.student p st hst
  teacher := by
    intro p t htt
    change ((s.people.set person obj).getD p default).teacher = some t at htt
    rw [getD_set] at htt
    by_cases hif : person = p ∧ p < s.people.length
    · rw [if_pos hif] at htt; exact ht t htt
    · rw [if_neg hif] at htt; exact h.teacher p t htt

theorem RolesWF_assign_course_Student {s : College} (h : RolesWF s) (person course : Nat) :
    RolesWF (s.assign_course_Student person course).2 := by
  by_cases hr : (s.assign_course_Student person course).1 = Outcome.returned true
  swap
  · rw [assign_course_Student_unchanged s person course hr]; exact h
  by_cases hp : person ∈ s.person_set
  swap
  · rw [assign_course_Student_unregistered_person course hp] at hr; cases hr
  by_cases hc : course ∈ s.course_set
  swap
  · rw [assign_course_Student_unregistered_course hp hc] at hr; cases hr
  cases ha : (s.course_at course).active
  · rw [assign_course_Student_inactive_course hp hc ha] at hr; cases hr
  cases hst : (s.person_at person).student with
  | none => exact absurd hr (assign_course_Student_no_role hst).1
  | some st =>
    rw [assign_course_Student_active hp hc ha hst]
    by_cases h1 : st.active = false
    · rw [if_pos h1]; exact h
    by_cases h2 : set_contains (my_cmp s) course st.subjects_I_attend = true
    · rw [if_neg h1, if_pos h2]; exact h
    rw [if_neg h1, if_neg h2]
    refine RolesWF_set h person _ ?_ ?_
    · intro st1 hst1
      simp only [Option.some.injEq] at hst1
      subst hst1
      show set_emplace _ _ _ = set_emplace _ _ _
      rw [h.student person st hst]
    · intro t ht
      exact h.teacher person t ht

theorem RolesWF_assign_course_Teacher {s : College} (h : RolesWF s) (person course : Nat) :
    RolesWF (s.assign_course_Teacher person course).2 := by
  by_cases hr : (s.assign_course_Teacher person course).1 = Outcome.returned true
  swap
  · rw [assign_course_Teacher_unchanged s person course hr]; exact h
  by_cases hp : person ∈ s.person_set
  swap
  · rw [assign_course_Teacher_unregistered_person course hp] at hr; cases hr
  by_cases hc : course ∈ s.course_set
  swap
  · rw [assign_course_Teacher_unregistered_course hp hc] at hr; cases hr
  cases ha : (s.course_at course).active
  · rw [assign_course_Teacher_inactive_course hp hc ha] at hr; cases hr
  cases hst : (s.person_at person).teacher with
  | none => exact absurd hr (assign_course_Teacher_no_role hst).1
  | some t =>
    rw [assign_course_Teacher_active hp hc ha hst]
    by_cases h2 : set_contains (my_cmp s) course t.subjects_I_handle = true
    · rw [if_pos h2]; exact h
    rw [if_neg h2]
    refine RolesWF_set h person _ ?_ ?_
    · intro st hst1
      exact h.student person st hst1
    · intro t1 ht1
      simp only [Option.some.injEq] at ht1
      subst ht1
      show set_emplace _ _ _ = set_emplace _ _ _
      rw [h.teacher person t hst]

/-- In every reachable state the two parallel course sets of each role agree. -/
theorem Reachable.roles_wf {s : College} (h : Reachable s) : RolesWF s := by
  induction h with
  | empty => exact RolesWF_empty
  | add_course s name active _ ih =>
    unfold College.add_course
    split_ifs
    · exact ih.of_people_eq_roles rfl
    · exact ih
  | remove_course s course _ ih =>
    unfold College.remove_course
    split_ifs
    · exact ih.of_people_eq_roles rfl
    · exact ih
  | change_course_activeness s course active _ ih =>
    unfold College.change_course_activeness
    split_ifs
    · exact ih.of_people_eq_roles rfl
    · exact ih
  | add_person s T name surname active _ ih => exact RolesWF_add_person ih T name surname active
  | change_student_activeness s student active _ ih =>
    exact RolesWF_change_student_activeness ih student active
  | assign_course_Student s person course _ ih =>
    exact RolesWF_assign_course_Student ih person course
  | assign_course_Teacher s person course _ ih =>
    exact RolesWF_assign_course_Teacher ih person course

/-! ## The queries by course -/

theorem equiv_key_people_cmp (s : College) (a b : Nat)
    (h : equiv_key (people_cmp s) a b = true) :
    (s.person_at a).name = (s.person_at b).name ∧
      (s.person_at a).surname = (s.person_at b).surname := by
  simp only [equiv_key, Bool.and_eq_true, Bool.not_eq_true'] at h
  obtain ⟨h1, h2⟩ := h
  unfold people_cmp at h1 h2
  by_cases hs : (s.person_at a).name = (s.person_at b).name
  · rw [if_neg (fun hn => hn hs)] at h1
    rw [if_neg (fun hn => hn hs.symm)] at h2
    exact ⟨hs, string_lt_total h1 h2⟩
  · rw [if_pos hs] at h1
    rw [if_pos (fun e => hs e.symm)] at h2
    exact absurd (string_lt_total h1 h2) hs

theorem people_cmp_trans (s : College) (a b c : Nat) :
    people_cmp s a b = true → people_cmp s b c = true → people_cmp s a c = true := by
  unfold people_cmp
  intro h1 h2
  by_cases hab : (s.person_at a).name = (s.person_at b).name
  · rw [if_neg (fun hn => hn hab)] at h1
    by_cases hbc : (s.person_at b).name = (s.person_at c).name
    · rw [if_neg (fun hn => hn hbc)] at h2
      rw [if_neg (fun hn => hn (hab.trans hbc))]
      exact string_lt_trans h1 h2
    · rw [if_pos hbc] at h2
      rw [if_pos (fun e => hbc (hab ▸ e)), hab]
      exact h2
  · rw [if_pos hab] at h1
    by_cases hbc : (s.person_at b).name = (s.person_at c).name
    · rw [if_neg (fun hn => hn hbc)] at h2
      rw [if_pos (fun e => hab (e.trans hbc.symm)), ← hbc]
      exact h1
    · rw [if_pos hbc] at h2
      have hlt := string_lt_trans h1 h2
      have hac : (s.person_at a).name ≠ (s.person_at c).name := by
        intro e
        rw [e, string_lt_irrefl] at hlt
        cases hlt
      rw [if_pos hac]
      exact hlt

/-- The order of `people_cmp` spelled out: by name, then by surname. -/
theorem people_cmp_iff (s : College) (a b : Nat) :
    people_cmp s a b = true ↔
      string_lt (s.person_at a).name (s.person_at b).name = true ∨
      ((s.person_at a).name = (s.person_at b).name ∧
        string_lt (s.person_at a).surname (s.person_at b).surname = true) := by
  unfold people_cmp
  by_cases h : (s.person_at a).name = (s.person_at b).name
  · rw [if_neg (fun hn => hn h)]
    constructor
    · intro hl; exact Or.inr ⟨h, hl⟩
    · rintro (hl | hl)
      · rw [h, string_lt_irrefl] at hl; cases hl
      · exact hl.2
  · rw [if_pos h]
    constructor
    · intro hl; exact Or.inl hl
    · rintro (hl | hl)
      · exact hl
      · exact absurd hl.1 h

theorem set_contains_of_mem (s : College) {c : Nat} {l : List Nat} (h : c ∈ l) :
    set_contains (my_cmp s) c l = true :=
  (set_contains_iff _ _ _).mpr ⟨c, h, by simp [equiv_key, my_cmp_irrefl]⟩

/-- The test of `find<Student>(course)` on one person. -/
theorem holds_Student_iff (s : College) (course p : Nat) :
    (match (s.person_at p).student with
      | none => false
      | some temp => set_contains (my_cmp s) course temp.subjects_I_attend &&
          temp.subjects_I_attend.any (fun c => c = course)) = true ↔
      ∃ st, (s.person_at p).student = some st ∧ course ∈ st.subjects_I_attend := by
  cases h : (s.person_at p).student with
  | none => simp
  | some st =>
    simp only [Bool.and_eq_true, List.any_eq_true, decide_eq_true_eq, Option.some.injEq,
      exists_eq_left']
    constructor
    · rintro ⟨_, c, hc, rfl⟩; exact hc
    · intro hc; exact ⟨set_contains_of_mem s hc, course, hc, rfl⟩

theorem holds_Teacher_iff (s : College) (course p : Nat) :
    (match (s.person_at p).teacher with
      | none => false
      | some temp => set_contains (my_cmp s) course temp.subjects_I_handle &&
          temp.subjects_I_handle.any (fun c => c = course)) = true ↔
      ∃ t, (s.person_at p).teacher = some t ∧ course ∈ t.subjects_I_handle := by
  cases h : (s.person_at p).teacher with
  | none => simp
  | some st =>
    simp only [Bool.and_eq_true, List.any_eq_true, decide_eq_true_eq, Option.some.injEq,
      exists_eq_left']
    constructor
    · rintro ⟨_, c, hc, rfl⟩; exact hc
    · intro hc; exact ⟨set_contains_of_mem s hc, course, hc, rfl⟩

theorem find_Student_eq (s : College) (course : Nat) :
    s.find_Student course = s.person_set.foldl
      (fun acc p => if (fun p : Nat =>
          match (s.person_at p).student with
          | none => false
          | some temp => set_contains (my_cmp s) course temp.subjects_I_attend &&
              temp.subjects_I_attend.any (fun c => c = course)) p = true
        then set_emplace (people_cmp s) (id p) acc else acc) [] := by
  unfold find_Student
  congr 1
  funext acc p
  beta_reduce
  cases h : (s.person_at p).student with
  | none => simp
  | some st => simp

theorem find_Teacher_eq (s : College) (course : Nat) :
    s.find_Teacher course = s.person_set.foldl
      (fun acc p => if (fun p : Nat =>
          match (s.person_at p).teacher with
          | none => false
          | some temp => set_contains (my_cmp s) course temp.subjects_I_handle &&
              temp.subjects_I_handle.any (fun c => c = course)) p = true
        then set_emplace (people_cmp s) (id p) acc else acc) [] := by
  unfold find_Teacher
  congr 1
  funext acc p
  beta_reduce
  cases h : (s.person_at p).teacher with
  | none => simp
  | some st => simp

theorem people_distinct {s : College} (h : PeopleWF s) (P : Nat → Bool) :
    s.person_set.Pairwise (fun x y => P x = true → P y = true →
      equiv_key (people_cmp s) (id y) (id x) = false) := by
  refine h.nodup.imp_of_mem ?_
  intro a b ha hb hne _ _
  rw [← Bool.not_eq_true]
  intro he
  have := equiv_key_people_cmp s _ _ he
  exact hne (h.unique b hb a ha this.1 this.2).symm

theorem mem_find_Student {s : College} (h : PeopleWF s) (course p : Nat) :
    p ∈ s.find_Student course ↔
      p ∈ s.person_set ∧
        ∃ st, (s.person_at p).student = some st ∧ course ∈ st.subjects_I_attend := by
  rw [find_Student_eq, mem_foldl_emplace]
  · simp only [List.not_mem_nil, false_or, id]
    constructor
    · rintro ⟨x, hx, hP, rfl⟩
      exact ⟨hx, (holds_Student_iff s course x).mp hP⟩
    · rintro ⟨hx, hP⟩
      exact ⟨p, hx, (holds_Student_iff s course p).mpr hP, rfl⟩
  · intro x _ _ b hb; cases hb
  · exact people_distinct h _

theorem mem_find_Teacher {s : College} (h : PeopleWF s) (course p : Nat) :
    p ∈ s.find_Teacher course ↔
      p ∈ s.person_set ∧
        ∃ t, (s.person_at p).teacher = some t ∧ course ∈ t.subjects_I_handle := by
  rw [find_Teacher_eq, mem_foldl_emplace]
  · simp only [List.not_mem_nil, false_or, id]
    constructor
    · rintro ⟨x, hx, hP, rfl⟩
      exact ⟨hx, (holds_Teacher_iff s course x).mp hP⟩
    · rintro ⟨hx, hP⟩
      exact ⟨p, hx, (holds_Teacher_iff s course p).mpr hP, rfl⟩
  · intro x _ _ b hb; cases hb
  · exact people_distinct h _

theorem sorted_find_Student (s : College) (course : Nat) :
    (s.find_Student course).Pairwise (fun a b => people_cmp s a b = true) := by
  rw [find_Student_eq]
  exact pairwise_foldl_emplace _ (people_cmp_trans s) _ _ _ _ List.Pairwise.nil

theorem sorted_find_Teacher (s : College) (course : Nat) :
    (s.find_Teacher course).Pairwise (fun a b => people_cmp s a b = true) := by
  rw [find_Teacher_eq]
  exact pairwise_foldl_emplace _ (people_cmp_trans s) _ _ _ _ List.Pairwise.nil

/-- The result of `find<Student>(course)` depends only on the registered people,
their names and `Student` parts, and the course names. -/
theorem find_Student_congr {s s1 : College} (hset : s1.person_set = s.person_set)
    (hst : ∀ q, (s1.person_at q).student = (s.person_at q).student)
    (hn : ∀ q, (s1.person_at q).name = (s.person_at q).name)
    (hsn : ∀ q, (s1.person_at q).surname = (s.person_at q).surname)
    (hc : ∀ c, (s1.course_at c).course_name = (s.course_at c).course_name) (course : Nat) :
    s1.find_Student course = s.find_Student course := by
  have e1 : my_cmp s1 = my_cmp s := by
    funext a b; simp only [my_cmp, hc]
  have e2 : people_cmp s1 = people_cmp s := by
    funext a b; simp only [people_cmp, hn, hsn]
  unfold find_Student
  rw [hset, e1, e2]
  congr 1
  funext acc p
  rw [hst]

theorem find_Teacher_congr {s s1 : College} (hset : s1.person_set = s.person_set)
    (hst : ∀ q, (s1.person_at q).teacher = (s.person_at q).teacher)
    (hn : ∀ q, (s1.person_at q).name = (s.person_at q).name)
    (hsn : ∀ q, (s1.person_at q).surname = (s.person_at q).surname)
    (hc : ∀ c, (s1.course_at c).course_name = (s.course_at c).course_name) (course : Nat) :
    s1.find_Teacher course = s.find_Teacher course := by
  have e1 : my_cmp s1 = my_cmp s := by
    funext a b; simp only [my_cmp, hc]
  have e2 : people_cmp s1 = people_cmp s := by
    funext a b; simp only [people_cmp, hn, hsn]
  unfold find_Teacher
  rw [hset, e1, e2]
  congr 1
  funext acc p
  rw [hst]

/-! ## Claims about the queries and the uniqueness of names -/

theorem taught_state_reachable : Reachable taught_state :=
  Reachable.assign_course_Teacher _ 1 0
    (Reachable.assign_course_Student _ 0 0
      (Reachable.change_student_activeness _ 2 true sample_state_reachable))

/-- C14: in every reachable state no two distinct registered courses have the same
name, and no two distinct registered people have the same name and surname. -/
theorem registered_names_unique (s : College) (hs : Reachable s) :
    (∀ c d, registered_course s c → registered_course s d → c ≠ d →
      (s.course_at c).course_name ≠ (s.course_at d).course_name) ∧
    (∀ p q, registered_person s p → registered_person s q → p ≠ q →
      ¬ ((s.person_at p).name = (s.person_at q).name ∧
        (s.person_at p).surname = (s.person_at q).surname)) :=
  ⟨fun _ _ hc hd hne he => hne (hs.wf.1.key_unique hc hd he),
    fun p q hp hq hne he => hne (hs.wf.2.unique p hp q hq he.1 he.2)⟩

theorem registered_names_unique_witness :
    Reachable taught_state ∧
    registered_course taught_state 0 ∧ registered_course taught_state 1 ∧
    (taught_state.course_at 0).course_name ≠ (taught_state.course_at 1).course_name ∧
    registered_person taught_state 0 ∧ registered_person taught_state 1 ∧
    ¬ ((taught_state.person_at 0).name = (taught_state.person_at 1).name ∧
      (taught_state.person_at 0).surname = (taught_state.person_at 1).surname) :=
  ⟨taught_state_reachable, by decide, by decide,
    (registered_names_unique taught_state taught_state_reachable).1 0 1
      (by decide) (by decide) (by decide),
    by decide, by decide,
    (registered_names_unique taught_state taught_state_reachable).2 0 1
      (by decide) (by decide) (by decide)⟩

/-! ## What an assignment changes -/

theorem assign_course_Student_true {s : College} {person course : Nat}
    (ht : (s.assign_course_Student person course).1 = Outcome.returned true) :
    ∃ st, (s.person_at person).student = some st ∧ person ∈ s.person_set ∧
      set_contains (my_cmp s) course st.subjects_I_attend = false ∧
      (s.assign_course_Student person course).2 =
        { s with
          people := s.people.set person
            { s.person_at person with
              student := some
                { st with
                  subjects_I_attend := set_emplace (my_cmp s) course st.subjects_I_attend,
                  subjects_I_attend_const :=
                    set_emplace (my_cmp s) course st.subjects_I_attend_const } } } := by
  by_cases hp : person ∈ s.person_set
  swap
  · rw [assign_course_Student_unregistered_person course hp] at ht; cases ht
  by_cases hc : course ∈ s.course_set
  swap
  · rw [assign_course_Student_unregistered_course hp hc] at ht; cases ht
  cases ha : (s.course_at course).active
  · rw [assign_course_Student_inactive_course hp hc ha] at ht; cases ht
  cases hst : (s.person_at person).student with
  | none => exact absurd ht (assign_course_Student_no_role hst).1
  | some st =>
    rw [assign_course_Student_active hp hc ha hst] at ht ⊢
    by_cases h1 : st.active = false
    · rw [if_pos h1] at ht; cases ht
    by_cases h2 : set_contains (my_cmp s) course st.subjects_I_attend = true
    · rw [if_neg h1, if_pos h2] at ht; cases ht
    rw [if_neg h1, if_neg h2]
    exact ⟨st, rfl, hp, by simpa using h2, rfl⟩

theorem assign_course_Teacher_true {s : College} {person course : Nat}
    (ht : (s.assign_course_Teacher person course).1 = Outcome.returned true) :
    ∃ t, (s.person_at person).teacher = some t ∧ person ∈ s.person_set ∧
      set_contains (my_cmp s) course t.subjects_I_handle = false ∧
      (s.assign_course_Teacher person course).2 =
        { s with
          people := s.people.set person
            { s.person_at person with
              teacher := some
                { t with
                  subjects_I_handle := set_emplace (my_cmp s) course t.subjects_I_handle,
                  subjects_I_handle_const :=
                    set_emplace (my_cmp s) course t.subjects_I_handle_const } } } := by
  by_cases hp : person ∈ s.person_set
  swap
  · rw [assign_course_Teacher_unregistered_person course hp] at ht; cases ht
  by_cases hc : course ∈ s.course_set
  swap
  · rw [assign_course_Teacher_unregistered_course hp hc] at ht; cases ht
  cases ha : (s.course_at course).active
  · rw [assign_course_Teacher_inactive_course hp hc ha] at ht; cases ht
  cases hst : (s.person_at person).teacher with
  | none => exact absurd ht (assign_course_Teacher_no_role hst).1
  | some t =>
    rw [assign_course_Teacher_active hp hc ha hst] at ht ⊢
    by_cases h2 : set_contains (my_cmp s) course t.subjects_I_handle = true
    · rw [if_pos h2] at ht; cases ht
    rw [if_neg h2]
    exact ⟨t, rfl, hp, by simpa using h2, rfl⟩

/-- An assignment in the `Student` role leaves every name, surname and `Teacher`
part as it was. -/
theorem assign_course_Student_frame (s : College) (person course q : Nat) :
    ((s.assign_course_Student person course).2.person_at q).teacher = (s.person_at q).teacher ∧
    ((s.assign_course_Student person course).2.person_at q).name = (s.person_at q).name ∧
    ((s.assign_course_Student person course).2.person_at q).surname =
      (s.person_at q).surname := by
  by_cases hr : (s.assign_course_Student person course).1 = Outcome.returned true
  swap
  · rw [assign_course_Student_unchanged s person course hr]; exact ⟨rfl, rfl, rfl⟩
  obtain ⟨st, hst, hp, hnc, hstate⟩ := assign_course_Student_true hr
  rw [hstate]
  show ((s.people.set person _).getD q default).teacher = _ ∧
    ((s.people.set person _).getD q default).name = _ ∧
    ((s.people.set person _).getD q default).surname = _
  rw [getD_set]
  by_cases hif : person = q ∧ q < s.people.length
  · rw [if_pos hif, ← hif.1]; exact ⟨rfl, rfl, rfl⟩
  · rw [if_neg hif]; exact ⟨rfl, rfl, rfl⟩

/-- An assignment in the `Teacher` role leaves every name, surname and `Student`
part as it was. -/
theorem assign_course_Teacher_frame (s : College) (person course q : Nat) :
    ((s.assign_course_Teacher person course).2.person_at q).student = (s.person_at q).student ∧
    ((s.assign_course_Teacher person course).2.person_at q).name = (s.person_at q).name ∧
    ((s.assign_course_Teacher person course).2.person_at q).surname =
      (s.person_at q).surname := by
  by_cases hr : (s.assign_course_Teacher person course).1 = Outcome.returned true
  swap
  · rw [assign_course_Teacher_unchanged s person course hr]; exact ⟨rfl, rfl, rfl⟩
  obtain ⟨st, hst, hp, hnc, hstate⟩ := assign_course_Teacher_true hr
  rw [hstate]
  show ((s.people.set person _).getD q default).student = _ ∧
    ((s.people.set person _).getD q default).name = _ ∧
    ((s.people.set person _).getD q default).surname = _
  rw [getD_set]
  by_cases hif : person = q ∧ q < s.people.length
  · rw [if_pos hif, ← hif.1]; exact ⟨rfl, rfl, rfl⟩
  · rw [if_neg hif]; exact ⟨rfl, rfl, rfl⟩

theorem assign_course_Student_found {s : College} (h : PeopleWF s) {person course : Nat}
    (ht : (s.assign_course_Student person course).1 = Outcome.returned true) :
    person ∈ (s.assign_course_Student person course).2.find_Student course := by
  have hwf := PeopleWF_assign_course_Student h person course
  rw [mem_find_Student hwf]
  obtain ⟨st, hst, hp, hnc, hstate⟩ := assign_course_Student_true ht
  rw [hstate]
  refine ⟨hp,
    { st with
      subjects_I_attend := set_emplace (my_cmp s) course st.subjects_I_attend,
      subjects_I_attend_const := set_emplace (my_cmp s) course st.subjects_I_attend_const },
    ?_, mem_set_emplace_self (my_cmp s) course st.subjects_I_attend hnc⟩
  show ((s.people.set person _).getD person default).student = _
  rw [getD_set, if_pos ⟨rfl, h.valid person hp⟩]

theorem assign_course_Teacher_found {s : College} (h : PeopleWF s) {person course : Nat}
    (ht : (s.assign_course_Teacher person course).1 = Outcome.returned true) :
    person ∈ (s.assign_course_Teacher person course).2.find_Teacher course := by
  have hwf := PeopleWF_assign_course_Teacher h person course
  rw [mem_find_Teacher hwf]
  obtain ⟨t, hst, hp, hnc, hstate⟩ := assign_course_Teacher_true ht
  rw [hstate]
  refine ⟨hp,
    { t with
      subjects_I_handle := set_emplace (my_cmp s) course t.subjects_I_handle,
      subjects_I_handle_const := set_emplace (my_cmp s) course t.subjects_I_handle_const },
    ?_, mem_set_emplace_self (my_cmp s) course t.subjects_I_handle hnc⟩
  show ((s.people.set person _).getD person default).teacher = _
  rw [getD_set, if_pos ⟨rfl, h.valid person hp⟩]

/-- C13: in every reachable state, after a successful `assign_course<Student>` of
`course` to `person` the person is in `find<Student>(course)`, while no
`Teacher` part and no result of `find<Teacher>` has changed, so the person is in
`find<Teacher>(course)` exactly if it was before; symmetrically for
`assign_course<Teacher>` and the `Student` parts. -/
theorem assign_course_roles_independent (s : College) (hs : Reachable s)
    (person course : Nat) :
    ((s.assign_course_Student person course).1 = Outcome.returned true →
      person ∈ (s.assign_course_Student person course).2.find_Student course) ∧
    (∀ q, ((s.assign_course_Student person course).2.person_at q).teacher =
      (s.person_at q).teacher) ∧
    (∀ c, (s.assign_course_Student person course).2.find_Teacher c = s.find_Teacher c) ∧
    (person ∈ (s.assign_course_Student person course).2.find_Teacher course ↔
      person ∈ s.find_Teacher course) ∧
    ((s.assign_course_Teacher person course).1 = Outcome.returned true →
      person ∈ (s.assign_course_Teacher person course).2.find_Teacher course) ∧
    (∀ q, ((s.assign_course_Teacher person course).2.person_at q).student =
      (s.person_at q).student) ∧
    (∀ c, (s.assign_course_Teacher person course).2.find_Student c = s.find_Student c) ∧
    (person ∈ (s.assign_course_Teacher person course).2.find_Student course ↔
      person ∈ s.find_Student course) := by
  obtain ⟨e1, _, _, e4, _⟩ := assign_course_Student_courses s person course
  obtain ⟨f1, _, _, f4, _⟩ := assign_course_Teacher_courses s person course
  have hT : ∀ c, (s.assign_course_Student person course).2.find_Teacher c = s.find_Teacher c :=
    find_Teacher_congr e4 (fun q => (assign_course_Student_frame s person course q).1)
      (fun q => (assign_course_Student_frame s person course q).2.1)
      (fun q => (assign_course_Student_frame s person course q).2.2)
      (fun c => by simp [course_at, e1])
  have hS : ∀ c, (s.assign_course_Teacher person course).2.find_Student c = s.find_Student c :=
    find_Student_congr f4 (fun q => (assign_course_Teacher_frame s person course q).1)
      (fun q => (assign_course_Teacher_frame s person course q).2.1)
      (fun q => (assign_course_Teacher_frame s person course q).2.2)
      (fun c => by simp [course_at, f1])
  exact ⟨assign_course_Student_found hs.wf.2,
    fun q => (assign_course_Student_frame s person course q).1, hT, by rw [hT],
    assign_course_Teacher_found hs.wf.2,
    fun q => (assign_course_Teacher_frame s person course q).1, hS, by rw [hS]⟩

theorem assign_course_roles_independent_witness :
    Reachable taught_state ∧
    (taught_state.person_at 2).student.isSome = true ∧
    (taught_state.person_at 2).teacher.isSome = true ∧
    (taught_state.assign_course_Student 2 0).1 = Outcome.returned true ∧
    2 ∈ (taught_state.assign_course_Student 2 0).2.find_Student 0 ∧
    2 ∉ (taught_state.assign_course_Student 2 0).2.find_Teacher 0 :=
  ⟨taught_state_reachable, by decide, by decide, by decide,
    (assign_course_roles_independent taught_state taught_state_reachable 2 0).1 (by decide),
    fun h => absurd
      ((assign_course_roles_independent taught_state taught_state_reachable 2 0).2.2.2.1.mp h)
      (by decide)⟩

/-! ## Frame properties of the course and activity operations -/

/-- C17: in every reachable state a successful `remove_course(c)` leaves the
stored people, hence every enrolled and taught set, as they were, so every
result of `find<Student>(c')` and `find<Teacher>(c')` is unchanged, `c` itself
included; every other registered course stays registered with its name and
active flag. -/
theorem remove_course_frame (s : College) (hs : Reachable s) (course : Nat)
    (hr : (s.remove_course course).1 = true) :
    (s.remove_course course).2.people = s.people ∧
    (s.remove_course course).2.person_set = s.person_set ∧
    (∀ p, Student_get_courses (s.remove_course course).2 p = Student_get_courses s p) ∧
    (∀ p, Teacher_get_courses (s.remove_course course).2 p = Teacher_get_courses s p) ∧
    (∀ c, (s.remove_course course).2.find_Student c = s.find_Student c) ∧
    (∀ c, (s.remove_course course).2.find_Teacher c = s.find_Teacher c) ∧
    (∀ d, registered_course s d → d ≠ course →
      registered_course (s.remove_course course).2 d ∧
      (s.remove_course course).2.course_at d = s.course_at d) := by
  have hc := (remove_course_true_iff s course).mp hr
  have hname : ∀ c, ((s.remove_course course).2.course_at c).course_name =
      (s.course_at c).course_name := by
    intro c
    rw [remove_course_registered hc]
    exact name_change_activeness _ _ _ _
  have hpeople : (s.remove_course course).2.people = s.people := by
    rw [remove_course_registered hc]
  have hset : (s.remove_course course).2.person_set = s.person_set := by
    rw [remove_course_registered hc]
  have hat : ∀ q, (s.remove_course course).2.person_at q = s.person_at q := by
    intro q; simp only [person_at, hpeople]
  refine ⟨hpeople, hset, ?_, ?_, ?_, ?_, ?_⟩
  · intro p; simp only [Student_get_courses, hat]
  · intro p; simp only [Teacher_get_courses, hat]
  · exact find_Student_congr hset (fun q => by rw [hat]) (fun q => by rw [hat])
      (fun q => by rw [hat]) hname
  · exact find_Teacher_congr hset (fun q => by rw [hat]) (fun q => by rw [hat])
      (fun q => by rw [hat]) hname
  · intro d hd hne
    rw [remove_course_registered hc]
    refine ⟨(mem_set_erase_ptr hs.wf.1.nodup).mpr ⟨hd, hne⟩, ?_⟩
    show (change_activeness s.courses course false).getD d default = _
    rw [getD_change_activeness, if_neg (fun h => hne h.1.symm)]
    rfl

theorem remove_course_frame_witness :
    Reachable taught_state ∧ (taught_state.remove_course 0).1 = true ∧
    (taught_state.remove_course 0).2.find_Student 0 = [0] ∧
    (∀ c, (taught_state.remove_course 0).2.find_Teacher c = taught_state.find_Teacher c) ∧
    registered_course (taught_state.remove_course 0).2 1 :=
  ⟨taught_state_reachable, by decide, by decide,
    (remove_course_frame taught_state taught_state_reachable 0 (by decide)).2.2.2.2.2.1,
    ((remove_course_frame taught_state taught_state_reachable 0 (by decide)).2.2.2.2.2.2
      1 (by decide) (by decide)).1⟩

theorem change_course_activeness_registered {s : College} {course : Nat} (active : Bool)
    (hc : registered_course s course) :
    s.change_course_activeness course active =
      (true, { s with courses := change_activeness s.courses course active }) := by
  unfold change_course_activeness
  rw [if_pos (set_contains_ptr.mpr hc)]

theorem change_course_activeness_unregistered {s : College} {course : Nat} (active : Bool)
    (hc : ¬ registered_course s course) :
    s.change_course_activeness course active = (false, s) := by
  unfold change_course_activeness
  rw [if_neg]
  rw [set_contains_ptr]
  exact hc

theorem change_course_activeness_true_iff (s : College) (course : Nat) (active : Bool) :
    (s.change_course_activeness course active).1 = true ↔ registered_course s course := by
  by_cases hc : registered_course s course
  · rw [change_course_activeness_registered active hc]; simp [hc]
  · rw [change_course_activeness_unregistered active hc]; simp [hc]

/-- C18: in every reachable state `change_course_activeness(c, b)` returns true
exactly when the reference `c` itself is registered.  Then the active flag of
`c` is `b` afterwards and nothing else has changed: the name of `c`, every other
course, the registered courses and people and all stored people.  When it
returns false the state is unchanged, so a removed course cannot be activated
again through the registry. -/
theorem change_course_activeness_spec (s : College) (hs : Reachable s) (course : Nat)
    (active : Bool) :
    ((s.change_course_activeness course active).1 = true ↔ registered_course s course) ∧
    ((s.change_course_activeness course active).1 = false →
      (s.change_course_activeness course active).2 = s) ∧
    ((s.change_course_activeness course active).1 = true →
      ((s.change_course_activeness course active).2.course_at course).active = active ∧
      ((s.change_course_activeness course active).2.course_at course).course_name =
        (s.course_at course).course_name ∧
      (∀ d, d ≠ course →
        (s.change_course_activeness course active).2.course_at d = s.course_at d) ∧
      (s.change_course_activeness course active).2.course_set = s.course_set ∧
      (s.change_course_activeness course active).2.course_names = s.course_names ∧
      (s.change_course_activeness course active).2.people = s.people ∧
      (s.change_course_activeness course active).2.person_set = s.person_set ∧
      (s.change_course_activeness course active).2.people_names = s.people_names) := by
  refine ⟨change_course_activeness_true_iff s course active, ?_, ?_⟩
  · intro hf
    have hc : ¬ registered_course s course := by
      rw [← change_course_activeness_true_iff s course active, hf]; simp
    rw [change_course_activeness_unregistered active hc]
  · intro ht
    have hc := (change_course_activeness_true_iff s course active).mp ht
    rw [change_course_activeness_registered active hc]
    refine ⟨?_, name_change_activeness _ _ _ _, ?_, rfl, rfl, rfl, rfl, rfl⟩
    · show ((change_activeness s.courses course active).getD course default).active = active
      rw [getD_change_activeness, if_pos ⟨rfl, hs.wf.1.valid course hc⟩]
    · intro d hne
      show (change_activeness s.courses course active).getD d default = _
      rw [getD_change_activeness, if_neg (fun h => hne h.1.symm)]
      rfl

theorem change_course_activeness_spec_witness :
    Reachable same_name_state ∧
    (same_name_state.change_course_activeness 0 true).1 = false ∧
    (same_name_state.change_course_activeness 0 true).2 = same_name_state ∧
    (same_name_state.change_course_activeness 1 false).1 = true ∧
    ((same_name_state.change_course_activeness 1 false).2.course_at 1).active = false :=
  ⟨same_name_state_reachable,
    by decide,
    (change_course_activeness_spec same_name_state same_name_state_reachable 0 true).2.1
      (by decide),
    (change_course_activeness_spec same_name_state same_name_state_reachable 1 false).1.mpr
      (by decide),
    ((change_course_activeness_spec same_name_state same_name_state_reachable 1 false).2.2
      (by decide)).1⟩

theorem change_student_activeness_registered {s : College} {student : Nat} (active : Bool)
    (hc : registered_person s student) :
    s.change_student_activeness student active =
      (true, { s with people := set_student_active s.people student active }) := by
  unfold change_student_activeness
  rw [if_pos (set_contains_ptr.mpr hc)]

theorem change_student_activeness_unregistered {s : College} {student : Nat} (active : Bool)
    (hc : ¬ registered_person s student) :
    s.change_student_activeness student active = (false, s) := by
  unfold change_student_activeness
  rw [if_neg]
  rw [set_contains_ptr]
  exact hc

theorem change_student_activeness_true_iff (s : College) (student : Nat) (active : Bool) :
    (s.change_student_activeness student active).1 = true ↔ registered_person s student := by
  by_cases hc : registered_person s student
  · rw [change_student_activeness_registered active hc]; simp [hc]
  · rw [change_student_activeness_unregistered active hc]; simp [hc]

theorem assign_course_Student_inactive_student {s : College} {person course : Nat}
    (hp : person ∈ s.person_set) (hc : course ∈ s.course_set)
    (ha : (s.course_at course).active = true) (st : Student)
    (hst : (s.person_at person).student = some st) (hact : st.active = false) :
    s.assign_course_Student person course =
      (Outcome.thrown CollegeException.inactive_student_exception, s) := by
  rw [assign_course_Student_active hp hc ha hst, if_pos hact]

/-- C19: in every reachable state `change_student_activeness(p, b)` returns true
exactly when the reference `p` itself is registered.  Then the `Student` part of
`p` has the activity flag `b` and its course sets as before, the rest of `p` and
every other person are unchanged, and so are the course tables; after
deactivation a `Student` role `assign_course` of a registered active course to
`p` throws `inactive_student_exception`.  When it returns false the state is
unchanged. -/
theorem change_student_activeness_spec (s : College) (hs : Reachable s) (student : Nat)
    (active : Bool) :
    ((s.change_student_activeness student active).1 = true ↔ registered_person s student) ∧
    ((s.change_student_activeness student active).1 = false →
      (s.change_student_activeness student active).2 = s) ∧
    ((s.change_student_activeness student active).1 = true →
      (∀ st, (s.person_at student).student = some st →
        ((s.change_student_activeness student active).2.person_at student).student =
          some { st with active := active }) ∧
      ((s.change_student_activeness student active).2.person_at student).name =
        (s.person_at student).name ∧
      ((s.change_student_activeness student active).2.person_at student).surname =
        (s.person_at student).surname ∧
      ((s.change_student_activeness student active).2.person_at student).teacher =
        (s.person_at student).teacher ∧
      (∀ q, q ≠ student →
        (s.change_student_activeness student active).2.person_at q = s.person_at q) ∧
      (s.change_student_activeness student active).2.courses = s.courses ∧
      (s.change_student_activeness student active).2.course_set = s.course_set ∧
      (s.change_student_activeness student active).2.course_names = s.course_names ∧
      (s.change_student_activeness student active).2.person_set = s.person_set ∧
      (s.change_student_activeness student active).2.people_names = s.people_names ∧
      (active = false → (s.person_at student).student.isSome = true →
        ∀ c, registered_course s c → (s.course_at c).active = true →
          (s.change_student_activeness student active).2.assign_course_Student student c =
            (Outcome.thrown CollegeException.inactive_student_exception,
              (s.change_student_activeness student active).2))) := by
  refine ⟨change_student_activeness_true_iff s student active, ?_, ?_⟩
  · intro hf
    have hc : ¬ registered_person s student := by
      rw [← change_student_activeness_true_iff s student active, hf]; simp
    rw [change_student_activeness_unregistered active hc]
  · intro ht
    have hc := (change_student_activeness_true_iff s student active).mp ht
    have hlt := hs.wf.2.valid student hc
    rw [change_student_activeness_registered active hc]
    have hat : person_at { s with people := set_student_active s.people student active }
        student = { s.person_at student with
          student := (s.person_at student).student.map
            (fun st => { st with active := active }) } := by
      show (set_student_active s.people student active).getD student default = _
      rw [getD_set_student_active, if_pos ⟨rfl, hlt⟩]
      rfl
    refine ⟨?_, by rw [hat], by rw [hat], by rw [hat], ?_, rfl, rfl, rfl, rfl, rfl, ?_⟩
    · intro st hst
      rw [hat]
      simp only [hst, Option.map_some']
    · intro q hne
      show (set_student_active s.people student active).getD q default = _
      rw [getD_set_student_active, if_neg (fun h => hne h.1.symm)]
      rfl
    · intro hact hsome c hcr hca
      obtain ⟨st, hst⟩ := Option.isSome_iff_exists.mp hsome
      have hst1 : (person_at { s with people := set_student_active s.people student active }
          student).student = some { st with active := active } := by
        rw [hat]; simp only [hst, Option.map_some']
      exact assign_course_Student_inactive_student hc hcr hca _ hst1 hact

theorem change_student_activeness_spec_witness :
    Reachable taught_state ∧
    (taught_state.change_student_activeness 7 false).1 = false ∧
    (taught_state.change_student_activeness 0 false).1 = true ∧
    Student_get_courses (taught_state.change_student_activeness 0 false).2 0 = [0] ∧
    (taught_state.change_student_activeness 0 false).2.assign_course_Student 0 0 =
      (Outcome.thrown CollegeException.inactive_student_exception,
        (taught_state.change_student_activeness 0 false).2) :=
  ⟨taught_state_reachable, by decide,
    (change_student_activeness_spec taught_state taught_state_reachable 0 false).1.mpr
      (by decide),
    by decide,
    ((change_student_activeness_spec taught_state taught_state_reachable 0 false).2.2
      (by decide)).2.2.2.2.2.2.2.2.2.2 rfl (by decide) 0 (by decide) (by decide)⟩

/-! ## Held courses are registered or inactive -/

theorem held_ok_of_tables_eq {s s1 : College} (hc : s1.courses = s.courses)
    (hset : s1.course_set = s.course_set) {c : Nat} (h : held_ok s c) : held_ok s1 c := by
  unfold held_ok registered_course course_at at h ⊢
  rw [hc, hset]
  exact h

theorem held_ok_add_course {s : College} (name : String) (active : Bool) {c : Nat}
    (h : held_ok s c) : held_ok (s.add_course name active).2 c := by
  unfold College.add_course
  by_cases hf : map_find name s.course_names = none
  swap
  · rw [if_neg hf]; exact h
  rw [if_pos hf]
  refine ⟨?_, ?_⟩
  · show c < (s.courses ++ [_]).length
    rw [List.length_append]
    exact Nat.lt_add_right _ h.1
  · rcases h.2 with hr | hi
    · exact Or.inl (mem_set_emplace_of_mem _ _ _ _ hr)
    · right
      rw [course_at_append_lt s _ c h.1 _ rfl]
      exact hi

theorem held_ok_remove_course {s : College} (course : Nat) {c : Nat}
    (h : held_ok s c) : held_ok (s.remove_course course).2 c := by
  by_cases hreg : registered_course s course
  swap
  · rw [remove_course_unregistered hreg]; exact h
  rw [remove_course_registered hreg]
  refine ⟨?_, ?_⟩
  · show c < (change_activeness s.courses course false).length
    rw [length_change_activeness]
    exact h.1
  · by_cases hcc : c = course
    · right
      show ((change_activeness s.courses course false).getD c default).active = false
      rw [getD_change_activeness, if_pos ⟨hcc.symm, h.1⟩]
    · rcases h.2 with hr | hi
      · left
        show c ∈ set_erase ptr_lt course s.course_set
        rw [set_erase_ptr]
        exact (List.mem_erase_of_ne hcc).mpr hr
      · right
        show ((change_activeness s.courses course false).getD c default).active = false
        rw [getD_change_activeness, if_neg (fun hh => hcc hh.1.symm)]
        exact hi

theorem held_ok_change_course_activeness {s : College} (course : Nat) (active : Bool)
    {c : Nat} (h : held_ok s c) : held_ok (s.change_course_activeness course active).2 c := by
  by_cases hreg : registered_course s course
  swap
  · rw [change_course_activeness_unregistered active hreg]; exact h
  rw [change_course_activeness_registered active hreg]
  refine ⟨?_, ?_⟩
  · show c < (change_activeness s.courses course active).length
    rw [length_change_activeness]
    exact h.1
  · rcases h.2 with hr | hi
    · exact Or.inl hr
    · by_cases hcc : c = course
      · exact Or.inl (hcc ▸ hreg)
      · right
        show ((change_activeness s.courses course active).getD c default).active = false
        rw [getD_change_activeness, if_neg (fun hh => hcc hh.1.symm)]
        exact hi

theorem HeldWF_empty : HeldWF College.empty where
  student := by intro p st h; simp [person_at, College.empty] at h
  teacher := by intro p t h; simp [person_at, College.empty] at h

/-- An operation on the course tables that keeps `held_ok` and leaves the stored
people alone keeps `HeldWF`. -/
theorem HeldWF.of_courses_step {s s1 : College} (h : HeldWF s)
    (hp : s1.people = s.people) (hk : ∀ c, held_ok s c → held_ok s1 c) : HeldWF s1 where
  student := by
    intro p st hst c hc
    exact hk c (h.student p st (by simpa [person_at, hp] using hst) c hc)
  teacher := by
    intro p t ht c hc
    exact hk c (h.teacher p t (by simpa [person_at, hp] using ht) c hc)

theorem add_course_people (s : College) (name : String) (active : Bool) :
    (s.add_course name active).2.people = s.people := by
  unfold add_course
  split_ifs <;> rfl

theorem remove_course_people (s : College) (course : Nat) :
    (s.remove_course course).2.people = s.people := by
  unfold remove_course
  split_ifs <;> rfl

theorem change_course_activeness_people (s : College) (course : Nat) (active : Bool) :
    (s.change_course_activeness course active).2.people = s.people := by
  unfold change_course_activeness
  split_ifs <;> rfl

theorem HeldWF_emplace_person {s : College} (h : HeldWF s) (T : PersonKind)
    (name surname : String) (active : Bool) :
    HeldWF (emplace_person s name surname (make_person T name surname active)) where
  student := by
    intro p st hst c hc
    change ((s.people ++ [_]).getD p default).student = some st at hst
    rw [getD_append_singleton] at hst
    by_cases h1 : p < s.people.length
    · rw [if_pos h1] at hst
      exact held_ok_of_tables_eq rfl rfl (h.student p st hst c hc)
    · rw [if_neg h1] at hst
      by_cases h2 : p = s.people.length
      · rw [if_pos h2] at hst
        cases T <;> simp [make_person] at hst <;> subst hst <;> simp at hc
      · rw [if_neg h2] at hst
        cases hst
  teacher := by
    intro p t ht c hc
    change ((s.people ++ [_]).getD p default).teacher = some t at ht
    rw [getD_append_singleton] at ht
    by_cases h1 : p < s.people.length
    · rw [if_pos h1] at ht
      exact held_ok_of_tables_eq rfl rfl (h.teacher p t ht c hc)
    · rw [if_neg h1] at ht
      by_cases h2 : p = s.people.length
      · rw [if_pos h2] at ht
        cases T <;> simp [make_person] at ht <;> subst ht <;> simp at hc
      · rw [if_neg h2] at ht
        cases ht

theorem HeldWF_add_person {s : College} (h : HeldWF s) (T : PersonKind)
    (name surname : String) (active : Bool) :
    HeldWF (s.add_person T name surname active).2 := by
  rw [add_person_eq]
  by_cases hc : set_contains pair_lt (name, surname) s.people_names = false
  · rw [if_pos hc]; exact HeldWF_emplace_person h T name surname active
  · rw [if_neg hc]; exact h

theorem HeldWF_change_student_activeness {s : College} (h : HeldWF s) (student : Nat)
    (active : Bool) : HeldWF (s.change_student_activeness student active).2 := by
  by_cases hreg : registered_person s student
  swap
  · rw [change_student_activeness_unregistered active hreg]; exact h
  rw [change_student_activeness_registered active hreg]
  constructor
  · intro p st hst c hc
    change ((set_student_active s.people student active).getD p default).student = some st at hst
    rw [getD_set_student_active] at hst
    refine held_ok_of_tables_eq rfl rfl ?_
    by_cases hif : student = p ∧ p < s.people.length
    · rw [if_pos hif] at hst
      simp only [Option.map_eq_some'] at hst
      obtain ⟨st0, h0, rfl⟩ := hst
      exact h.student p st0 h0 c hc
    · rw [if_neg hif] at hst
      exact h.student p st hst c hc
  · intro p t ht c hc
    change ((set_student_active s.people student active).getD p default).teacher = some t at ht
    rw [getD_set_student_active] at ht
    refine held_ok_of_tables_eq rfl rfl ?_
    by_cases hif : student = p ∧ p < s.people.length
    · rw [if_pos hif] at ht
      exact h.teacher p t ht c hc
    · rw [if_neg hif] at ht
      exact h.teacher p t ht c hc

theorem HeldWF_set {s : College} (h : HeldWF s) (person : Nat) (obj : Person)
    (hs : ∀ st, obj.student = some st →
      ∀ c, c ∈ st.subjects_I_attend ∨ c ∈ st.subjects_I_attend_const → held_ok s c)
    (ht : ∀ t, obj.teacher = some t →
      ∀ c, c ∈ t.subjects_I_handle ∨ c ∈ t.subjects_I_handle_const → held_ok s c) :
    HeldWF { s with people := s.people.set person obj } where
  student := by
    intro p st hst c hc
    change ((s.people.set person obj).getD p default).student = some st at hst
    rw [getD_set] at hst
    refine held_ok_of_tables_eq rfl rfl ?_
    by_cases hif : person = p ∧ p < s.people.length
    · rw [if_pos hif] at hst; exact hs st hst c hc
    · rw [if_neg hif] at hst; exact h.student p st hst c hc
  teacher := by
    intro p t htt c hc
    change ((s.people.set person obj).getD p default).teacher = some t at htt
    rw [getD_set] at htt
    refine held_ok_of_tables_eq rfl rfl ?_
    by_cases hif : person = p ∧ p < s.people.length
    · rw [if_pos hif] at htt; exact ht t htt c hc
    · rw [if_neg hif] at htt; exact h.teacher p t htt c hc

theorem assign_course_Student_true_course {s : College} {person course : Nat}
    (ht : (s.assign_course_Student person course).1 = Outcome.returned true) :
    registered_course s course := by
  by_contra hc
  by_cases hp : person ∈ s.person_set
  · rw [assign_course_Student_unregistered_course hp hc] at ht; cases ht
  · rw [assign_course_Student_unregistered_person course hp] at ht; cases ht

theorem assign_course_Teacher_true_course {s : College} {person course : Nat}
    (ht : (s.assign_course_Teacher person course).1 = Outcome.returned true) :
    registered_course s course := by
  by_contra hc
  by_cases hp : person ∈ s.person_set
  · rw [assign_course_Teacher_unregistered_course hp hc] at ht; cases ht
  · rw [assign_course_Teacher_unregistered_person course hp] at ht; cases ht

theorem HeldWF_assign_course_Student {s : College} (hw : CoursesWF s) (h : HeldWF s)
    (person course : Nat) : HeldWF (s.assign_course_Student person course).2 := by
  by_cases hr : (s.assign_course_Student person course).1 = Outcome.returned true
  swap
  · rw [assign_course_Student_unchanged s person course hr]; exact h
  have hreg := assign_course_Student_true_course hr
  have hok : held_ok s course := ⟨hw.valid course hreg, Or.inl hreg⟩
  obtain ⟨st, hst, _, _, hstate⟩ := assign_course_Student_true hr
  rw [hstate]
  refine HeldWF_set h person _ ?_ ?_
  · intro st1 hst1 c hc
    simp only [Option.some.injEq] at hst1
    subst hst1
    rcases hc with hc | hc
    · rcases mem_set_emplace _ _ _ _ hc with rfl | hc
      · exact hok
      · exact h.student person st hst c (Or.inl hc)
    · rcases mem_set_emplace _ _ _ _ hc with rfl | hc
      · exact hok
      · exact h.student person st hst c (Or.inr hc)
  · intro t ht c hc
    exact h.teacher person t ht c hc

theorem HeldWF_assign_course_Teacher {s : College} (hw : CoursesWF s) (h : HeldWF s)
    (person course : Nat) : HeldWF (s.assign_course_Teacher person course).2 := by
  by_cases hr : (s.assign_course_Teacher person course).1 = Outcome.returned true
  swap
  · rw [assign_course_Teacher_unchanged s person course hr]; exact h
  have hreg := assign_course_Teacher_true_course hr
  have hok : held_ok s course := ⟨hw.valid course hreg, Or.inl hreg⟩
  obtain ⟨t, htt, _, _, hstate⟩ := assign_course_Teacher_true hr
  rw [hstate]
  refine HeldWF_set h person _ ?_ ?_
  · intro st hst c hc
    exact h.student person st hst c hc
  · intro t1 ht1 c hc
    simp only [Option.some.injEq] at ht1
    subst ht1
    rcases hc with hc | hc
    · rcases mem_set_emplace _ _ _ _ hc with rfl | hc
      · exact hok
      · exact h.teacher person t htt c (Or.inl hc)
    · rcases mem_set_emplace _ _ _ _ hc with rfl | hc
      · exact hok
      · exact h.teacher person t htt c (Or.inr hc)

/-- In every reachable state every course held in a course set of a role is
registered or inactive. -/
theorem Reachable.held_wf {s : College} (h : Reachable s) : HeldWF s := by
  induction h with
  | empty => exact HeldWF_empty
  | add_course s name active _ ih =>
    exact ih.of_courses_step (add_course_people s name active)
      (fun c hc => held_ok_add_course name active hc)
  | remove_course s course _ ih =>
    exact ih.of_courses_step (remove_course_people s course)
      (fun c hc => held_ok_remove_course course hc)
  | change_course_activeness s course active _ ih =>
    exact ih.of_courses_step (change_course_activeness_people s course active)
      (fun c hc => held_ok_change_course_activeness course active hc)
  | add_person s T name surname active _ ih => exact HeldWF_add_person ih T name surname active
  | change_student_activeness s student active _ ih =>
    exact HeldWF_change_student_activeness ih student active
  | assign_course_Student s person course hs ih =>
    exact HeldWF_assign_course_Student hs.wf.1 ih person course
  | assign_course_Teacher s person course hs ih =>
    exact HeldWF_assign_course_Teacher hs.wf.1 ih person course

/-! ## The queries by course: pointers, exactness and order -/

/-- For a pointer to a course object `find_Student_ptr` is `find_Student`. -/
theorem find_Student_ptr_some (s : College) (course : Nat) :
    s.find_Student_ptr (some course) = some (s.find_Student course) := by
  unfold find_Student_ptr find_Student
  have key : ∀ (l acc : List Nat),
      l.foldl
        (fun result p =>
          match result with
          | none => none
          | some matching_people =>
            match (s.person_at p).student with
            | none => some matching_people
            | some temp =>
              match contains_course s (some course) temp.subjects_I_attend with
              | none => none
              | some found =>
                if found && temp.subjects_I_attend.any (fun c => some c = some course) then
                  some (set_emplace (people_cmp s) p matching_people)
                else some matching_people)
        (some acc) =
      some (l.foldl
        (fun matching_people p =>
          match (s.person_at p).student with
          | none => matching_people
          | some temp =>
            if set_contains (my_cmp s) course temp.subjects_I_attend &&
                temp.subjects_I_attend.any (fun c => c = course) then
              set_emplace (people_cmp s) p matching_people
            else matching_people)
        acc) := by
    intro l
    induction l with
    | nil => intro acc; rfl
    | cons p ps ih =>
      intro acc
      rw [List.foldl_cons, List.foldl_cons, ← ih]
      congr 1
      cases (s.person_at p).student with
      | none => rfl
      | some temp =>
        simp only [contains_course, Option.some.injEq]
        split <;> rfl
  exact key s.person_set []

/-- For a pointer to a course object `find_Teacher_ptr` is `find_Teacher`. -/
theorem find_Teacher_ptr_some (s : College) (course : Nat) :
    s.find_Teacher_ptr (some course) = some (s.find_Teacher course) := by
  unfold find_Teacher_ptr find_Teacher
  have key : ∀ (l acc : List Nat),
      l.foldl
        (fun result p =>
          match result with
          | none => none
          | some matching_people =>
            match (s.person_at p).teacher with
            | none => some matching_people
            | some temp =>
              match contains_course s (some course) temp.subjects_I_handle with
              | none => none
              | some found =>
                if found && temp.subjects_I_handle.any (fun c => some c = some course) then
                  some (set_emplace (people_cmp s) p matching_people)
                else some matching_people)
        (some acc) =
      some (l.foldl
        (fun matching_people p =>
          match (s.person_at p).teacher with
          | none => matching_people
          | some temp =>
            if set_contains (my_cmp s) course temp.subjects_I_handle &&
                temp.subjects_I_handle.any (fun c => c = course) then
              set_emplace (people_cmp s) p matching_people
            else matching_people)
        acc) := by
    intro l
    induction l with
    | nil => intro acc; rfl
    | cons p ps ih =>
      intro acc
      rw [List.foldl_cons, List.foldl_cons, ← ih]
      congr 1
      cases (s.person_at p).teacher with
      | none => rfl
      | some temp =>
        simp only [contains_course, Option.some.injEq]
        split <;> rfl
  exact key s.person_set []

/-- A course object that the college has not made is held by nobody: put into
the store behind the next reference, with any name and any activity flag, it is
found neither among the students nor among the teachers, whatever the search by
name of `contains` answers. -/
theorem find_by_course_foreign (s : College) (hs : Reachable s) (obj : Course) :
    ({ s with courses := s.courses ++ [obj] } : College).find_Student s.courses.length = [] ∧
    ({ s with courses := s.courses ++ [obj] } : College).find_Teacher s.courses.length = [] := by
  have hh := hs.held_wf
  have hp : PeopleWF ({ s with courses := s.courses ++ [obj] } : College) :=
    hs.wf.2.of_people_eq rfl rfl rfl
  constructor
  · refine List.eq_nil_iff_forall_not_mem.mpr (fun p hm => ?_)
    obtain ⟨_, st, hst, hc⟩ := (mem_find_Student hp s.courses.length p).mp hm
    exact absurd (hh.student p st hst _ (Or.inl hc)).1 (Nat.lt_irrefl _)
  · refine List.eq_nil_iff_forall_not_mem.mpr (fun p hm => ?_)
    obtain ⟨_, t, ht, hc⟩ := (mem_find_Teacher hp s.courses.length p).mp hm
    exact absurd (hh.teacher p t ht _ (Or.inl hc)).1 (Nat.lt_irrefl _)

/-- C12: in every reachable state and for every pointer `c` to a course object
(registered, removed or owned by somebody else; a null pointer is no course
reference, and `find_Student_ptr`, `find_Teacher_ptr` give its behaviour),
`find<Student>(c)` returns, and holds exactly the registered people whose
enrolled set holds the reference `c` itself, and `find<Teacher>(c)` exactly
those whose taught set holds it; both results are listed in strictly ascending
order by name, then by surname.  For an object that the college has not made
both results are empty, also when the object is read with a name and an
activity flag of its own (`obj`) instead of the default ones. -/
theorem find_by_course_exact (s : College) (hs : Reachable s) (course : Nat) :
    s.find_Student_ptr (some course) = some (s.find_Student course) ∧
    s.find_Teacher_ptr (some course) = some (s.find_Teacher course) ∧
    (∀ p, p ∈ s.find_Student course ↔
      registered_person s p ∧ course ∈ Student_get_courses s p) ∧
    (∀ p, p ∈ s.find_Teacher course ↔
      registered_person s p ∧ course ∈ Teacher_get_courses s p) ∧
    (∀ p, Student_get_courses s p =
      ((s.person_at p).student.map Student.subjects_I_attend).getD []) ∧
    (∀ p, Teacher_get_courses s p =
      ((s.person_at p).teacher.map Teacher.subjects_I_handle).getD []) ∧
    (s.find_Student course).Pairwise (fun a b =>
      string_lt (s.person_at a).name (s.person_at b).name = true ∨
      ((s.person_at a).name = (s.person_at b).name ∧
        string_lt (s.person_at a).surname (s.person_at b).surname = true)) ∧
    (s.find_Teacher course).Pairwise (fun a b =>
      string_lt (s.person_at a).name (s.person_at b).name = true ∨
      ((s.person_at a).name = (s.person_at b).name ∧
        string_lt (s.person_at a).surname (s.person_at b).surname = true)) ∧
    (s.courses.length ≤ course → s.find_Student course = [] ∧ s.find_Teacher course = []) ∧
    (∀ obj : Course,
      ({ s with courses := s.courses ++ [obj] } : College).find_Student s.courses.length = [] ∧
      ({ s with courses := s.courses ++ [obj] } : College).find_Teacher s.courses.length = []) := by
  have hr := hs.roles_wf
  have hh := hs.held_wf
  have hS : ∀ p, Student_get_courses s p =
      ((s.person_at p).student.map Student.subjects_I_attend).getD [] := by
    intro p
    unfold Student_get_courses
    cases h : (s.person_at p).student with
    | none => rfl
    | some st => exact hr.student p st h
  have hT : ∀ p, Teacher_get_courses s p =
      ((s.person_at p).teacher.map Teacher.subjects_I_handle).getD [] := by
    intro p
    unfold Teacher_get_courses
    cases h : (s.person_at p).teacher with
    | none => rfl
    | some t => exact hr.teacher p t h
  have hmS : ∀ p, p ∈ s.find_Student course ↔
      registered_person s p ∧ course ∈ Student_get_courses s p := by
    intro p
    rw [mem_find_Student hs.wf.2, hS]
    cases h : (s.person_at p).student with
    | none => simp [registered_person]
    | some st => simp [registered_person]
  have hmT : ∀ p, p ∈ s.find_Teacher course ↔
      registered_person s p ∧ course ∈ Teacher_get_courses s p := by
    intro p
    rw [mem_find_Teacher hs.wf.2, hT]
    cases h : (s.person_at p).teacher with
    | none => simp [registered_person]
    | some st => simp [registered_person]
  refine ⟨find_Student_ptr_some s course, find_Teacher_ptr_some s course, hmS, hmT, hS, hT,
    ?_, ?_, ?_, find_by_course_foreign s hs⟩
  · exact (sorted_find_Student s course).imp (fun h => (people_cmp_iff s _ _).mp h)
  · exact (sorted_find_Teacher s course).imp (fun h => (people_cmp_iff s _ _).mp h)
  · intro hle
    constructor
    · refine List.eq_nil_iff_forall_not_mem.mpr (fun p hp => ?_)
      have hc := ((hmS p).mp hp).2
      unfold Student_get_courses at hc
      cases h : (s.person_at p).student with
      | none => rw [h] at hc; exact absurd hc (List.not_mem_nil _)
      | some st =>
        rw [h] at hc
        exact absurd (hh.student p st h course (Or.inr hc)).1 (Nat.not_lt.mpr hle)
    · refine List.eq_nil_iff_forall_not_mem.mpr (fun p hp => ?_)
      have hc := ((hmT p).mp hp).2
      unfold Teacher_get_courses at hc
      cases h : (s.person_at p).teacher with
      | none => rw [h] at hc; exact absurd hc (List.not_mem_nil _)
      | some t =>
        rw [h] at hc
        exact absurd (hh.teacher p t h course (Or.inr hc)).1 (Nat.not_lt.mpr hle)

theorem find_by_course_exact_witness :
    Reachable taught_state ∧
    taught_state.find_Student 0 = [0] ∧ taught_state.find_Teacher 0 = [1] ∧
    taught_state.find_Student_ptr (some 0) = some [0] ∧
    taught_state.find_Student_ptr none = none ∧
    taught_state.find_Teacher_ptr none = none ∧
    sample_state.find_Student_ptr none = some [] ∧
    (∀ p, p ∈ taught_state.find_Student 0 ↔
      registered_person taught_state p ∧ 0 ∈ Student_get_courses taught_state p) ∧
    (taught_state.find_Student 7 = [] ∧ taught_state.find_Teacher 7 = []) :=
  ⟨taught_state_reachable, by decide, by decide, by decide, by decide, by decide, by decide,
    (find_by_course_exact taught_state taught_state_reachable 0).2.2.1,
    (find_by_course_exact taught_state taught_state_reachable 7).2.2.2.2.2.2.2.2.1
      (by decide)⟩

/-! ## Claims about the invariants of the stored tables -/

theorem map_find_some {k : String} {m : List (String × Nat)} {e : String × Nat}
    (h : map_find k m = some e) : e ∈ m ∧ e.1 = k := by
  unfold map_find at h
  have hp := List.find?_some h
  exact ⟨List.mem_of_find?_eq_some h, (equiv_key_string.mp hp).symm⟩

theorem map_find_registered {s : College} (h : CoursesWF s) {c : Nat}
    (hc : registered_course s c) :
    map_find (s.course_at c).course_name s.course_names =
      some ((s.course_at c).course_name, c) := by
  cases hf : map_find (s.course_at c).course_name s.course_names with
  | none => exact absurd ⟨c, hc, rfl⟩ ((map_find_none_iff h _).mp hf)
  | some e =>
    obtain ⟨hm, hk⟩ := map_find_some hf
    have hreg := (h.names e.1 e.2).mp hm
    have h2 : e.2 = c := h.key_unique hreg.1 hc (hreg.2.trans hk)
    have he : e = ((s.course_at c).course_name, c) := Prod.ext hk h2
    rw [he]

/-- C21: in every reachable state the two course structures agree and the two
person structures agree: the keys of `course_names` are exactly the names of
the courses in `course_set`, every entry refers to the registered course of
that name (and `find` by the name of a registered course yields that course),
no key occurs twice, and `people_names` holds exactly the (name, surname)
pairs of the people in `person_set`. -/
theorem indices_agree (s : College) (hs : Reachable s) :
    (∀ n, (∃ c, (n, c) ∈ s.course_names) ↔
      ∃ c, registered_course s c ∧ (s.course_at c).course_name = n) ∧
    (∀ n c, (n, c) ∈ s.course_names ↔
      registered_course s c ∧ (s.course_at c).course_name = n) ∧
    (∀ c, registered_course s c →
      map_find (s.course_at c).course_name s.course_names =
        some ((s.course_at c).course_name, c)) ∧
    s.course_names.Pairwise (fun a b => string_lt a.1 b.1 = true) ∧
    (∀ n sn, (n, sn) ∈ s.people_names ↔
      ∃ p, registered_person s p ∧ (s.person_at p).name = n ∧
        (s.person_at p).surname = sn) := by
  have hc := hs.wf.1
  have hp := hs.wf.2
  refine ⟨?_, hc.names, fun c h => map_find_registered hc h, hc.sorted, ?_⟩
  · intro n
    constructor
    · rintro ⟨c, hm⟩; exact ⟨c, (hc.names n c).mp hm⟩
    · rintro ⟨c, hm⟩; exact ⟨c, (hc.names n c).mpr hm⟩
  · intro n sn
    rw [hp.names]
    constructor
    · rintro ⟨p, h1, h2, h3⟩; exact ⟨p, h1, h2, h3⟩
    · rintro ⟨p, h1, h2, h3⟩; exact ⟨p, h1, h2, h3⟩

theorem indices_agree_witness :
    Reachable taught_state ∧
    taught_state.course_names = [("Algebra", 0), ("Biology", 1)] ∧
    taught_state.course_set = [0, 1] ∧
    ((∀ n, (∃ c, (n, c) ∈ taught_state.course_names) ↔
      ∃ c, registered_course taught_state c ∧ (taught_state.course_at c).course_name = n) ∧
    (∀ n c, (n, c) ∈ taught_state.course_names ↔
      registered_course taught_state c ∧ (taught_state.course_at c).course_name = n) ∧
    (∀ c, registered_course taught_state c →
      map_find (taught_state.course_at c).course_name taught_state.course_names =
        some ((taught_state.course_at c).course_name, c)) ∧
    taught_state.course_names.Pairwise (fun a b => string_lt a.1 b.1 = true) ∧
    (∀ n sn, (n, sn) ∈ taught_state.people_names ↔
      ∃ p, registered_person taught_state p ∧ (taught_state.person_at p).name = n ∧
        (taught_state.person_at p).surname = sn)) :=
  ⟨taught_state_reachable, by decide, by decide,
    indices_agree taught_state taught_state_reachable⟩

/-- C22: in every reachable state every course held in the enrolled or taught
set of any person (the sets that `get_courses` returns as well as their
non-const twins) is registered or has its active flag false; so an active course
that somebody holds is registered. -/
theorem held_courses_registered_or_inactive (s : College) (hs : Reachable s) (p c : Nat) :
    (c ∈ Student_get_courses s p → registered_course s c ∨ (s.course_at c).active = false) ∧
    (c ∈ Teacher_get_courses s p → registered_course s c ∨ (s.course_at c).active = false) ∧
    (∀ st, (s.person_at p).student = some st → c ∈ st.subjects_I_attend →
      registered_course s c ∨ (s.course_at c).active = false) ∧
    (∀ t, (s.person_at p).teacher = some t → c ∈ t.subjects_I_handle →
      registered_course s c ∨ (s.course_at c).active = false) ∧
    (c ∈ Student_get_courses s p ∨ c ∈ Teacher_get_courses s p →
      (s.course_at c).active = true → registered_course s c) := by
  have hh := hs.held_wf
  have hS : c ∈ Student_get_courses s p →
      registered_course s c ∨ (s.course_at c).active = false := by
    unfold Student_get_courses
    cases hst : (s.person_at p).student with
    | none => intro hc; cases hc
    | some st => intro hc; exact (hh.student p st hst c (Or.inr hc)).2
  have hT : c ∈ Teacher_get_courses s p →
      registered_course s c ∨ (s.course_at c).active = false := by
    unfold Teacher_get_courses
    cases ht : (s.person_at p).teacher with
    | none => intro hc; cases hc
    | some t => intro hc; exact (hh.teacher p t ht c (Or.inr hc)).2
  refine ⟨hS, hT, fun st hst hc => (hh.student p st hst c (Or.inl hc)).2,
    fun t ht hc => (hh.teacher p t ht c (Or.inl hc)).2, ?_⟩
  intro hc hact
  have hor : registered_course s c ∨ (s.course_at c).active = false := hc.elim hS hT
  rcases hor with hr | hi
  · exact hr
  · rw [hact] at hi; cases hi

theorem held_courses_registered_or_inactive_witness :
    Reachable same_name_state ∧
    0 ∈ Student_get_courses same_name_state 0 ∧
    ¬ registered_course same_name_state 0 ∧
    (same_name_state.course_at 0).active = false ∧
    (registered_course same_name_state 0 ∨ (same_name_state.course_at 0).active = false) :=
  ⟨same_name_state_reachable, by decide, by decide, by decide,
    (held_courses_registered_or_inactive same_name_state same_name_state_reachable 0 0).1
      (by decide)⟩

end College
